import Mathlib

/-!
# ledger/apply/application.go

A shallow embedding of the application-call state transition of
`ledger/apply/application.go` and theorems about it.

Conventions of the embedding

* Go maps are finite association lists without repeated keys (`GoMap`); the
  order of the list is one of the iteration orders Go may choose.  A nil map
  and an empty map are identified, except for `TealKeyValue`, where the code
  tests for nil: there `none` is the nil map.
* Go values are copied, so `Clone`, `cloneAppParams` and
  `cloneAppLocalStates` are the identity on the embedded values.
* The order in which Go ranges over a map is not fixed.  The loops over the
  deltas range over the entries of a `GoMap` in the order of its list, so a
  statement about every delta covers every order; the loop over the map of
  staged local states ranges in the order `Env.rangeChanges`.
* The storage collaborator (`Balances`) and the evaluator (`StateEvaluator`)
  are interfaces.  The storage view is a total map from addresses to account
  data plus a creator index; each storage call may fail according to a fault
  schedule that sees the whole history of calls, and a failed call changes
  nothing.  Every collaborator call is appended to a trace.
* Errors are `Error.applyError` (the Go type `*applyError`), `Error.errorf`
  (made by `fmt.Errorf` in this file or in package `transactions`) and
  `Error.external` (returned by a collaborator).
-/

namespace Apply

/-! ## Go maps -/

/-- Keys of an association list. -/
def akeys {K V : Type} (l : List (K × V)) : List K := l.map Prod.fst

/-- First value bound to the key in an association list. -/
def alookup {K V : Type} [DecidableEq K] (k : K) : List (K × V) → Option V
  | [] => none
  | (k', v) :: t => if k' = k then some v else alookup k t

/-- Removal of every binding of the key. -/
def aerase {K V : Type} [DecidableEq K] (k : K) (l : List (K × V)) : List (K × V) :=
  l.filter (fun p => decide (p.1 ≠ k))

/-- A Go map: an association list whose keys are pairwise distinct. -/
structure GoMap (K V : Type) where
  entries : List (K × V)
  nodup : (akeys entries).Nodup
deriving DecidableEq

namespace GoMap

variable {K V : Type}

/-- The map without entries (Go: nil map or `make(map...)`). -/
def empty : GoMap K V := ⟨[], List.nodup_nil⟩

/-- Go `len(m)`. -/
def len (m : GoMap K V) : Nat := m.entries.length

/-- Go `v, ok := m[k]`. -/
def lookup [DecidableEq K] (m : GoMap K V) (k : K) : Option V := alookup k m.entries

/-- Go `delete(m, k)`. -/
def erase [DecidableEq K] (m : GoMap K V) (k : K) : GoMap K V :=
  ⟨aerase k m.entries, m.nodup.sublist ((List.filter_sublist m.entries).map Prod.fst)⟩

/-- Go `m[k] = v`. -/
def insert [DecidableEq K] (m : GoMap K V) (k : K) (v : V) : GoMap K V :=
  ⟨(k, v) :: aerase k m.entries,
    List.nodup_cons.mpr
      ⟨by simp [akeys, aerase, List.mem_map, List.mem_filter],
       m.nodup.sublist ((List.filter_sublist m.entries).map Prod.fst)⟩⟩

end GoMap

/-! ## Data model (packages basics and transactions) -/

/-- Account address (`basics.Address`). -/
abbrev Address := Nat

/-- Application index (`basics.AppIndex`, a uint64). -/
abbrev AppIndex := Nat

/-- Program bytecode (`[]byte`). -/
abbrev Program := List Nat

/-- Key of a key/value store (a Go string). -/
abbrev Key := String

/-- The errors of the package. -/
inductive Error where
  | applyError (msg : String)
  | errorf (msg : String)
  | external (code : Nat)
deriving DecidableEq

/-- Source `isApplyError`: the error is of type `*applyError`. -/
def isApplyError : Option Error → Bool
  | some (Error.applyError _) => true
  | _ => false

/-- Type tag of a stored value (`basics.TealType`). -/
inductive TealType where
  | TealBytesType
  | TealUintType
deriving DecidableEq

/-- Stored value (`basics.TealValue`). -/
structure TealValue where
  Typ : TealType
  Bytes : List Nat
  Uint : Nat
deriving DecidableEq

/-- Action of a value delta (`basics.DeltaAction`, a uint64). -/
abbrev DeltaAction := Nat

/-- Constant `basics.SetBytesAction`. -/
def SetBytesAction : DeltaAction := 1
/-- Constant `basics.SetUintAction`. -/
def SetUintAction : DeltaAction := 2
/-- Constant `basics.DeleteAction`. -/
def DeleteAction : DeltaAction := 3

/-- Change of one key (`basics.ValueDelta`). -/
structure ValueDelta where
  Action : DeltaAction
  Bytes : List Nat
  Uint : Nat
deriving DecidableEq

/-- Non-nil key/value store. -/
abbrev KVMap := GoMap Key TealValue

/-- Key/value store (`basics.TealKeyValue`); `none` is the nil map. -/
abbrev TealKeyValue := Option KVMap

/-- Delta of one store (`basics.StateDelta`). -/
abbrev StateDelta := GoMap Key ValueDelta

/-- Output of a program (`basics.EvalDelta`); local deltas are keyed by
account index. -/
structure EvalDelta where
  GlobalDelta : StateDelta
  LocalDeltas : GoMap Nat StateDelta
deriving DecidableEq

/-- The zero value `basics.EvalDelta{}`. -/
def EvalDelta.zero : EvalDelta := ⟨GoMap.empty, GoMap.empty⟩

/-- Capacity of a store (`basics.StateSchema`). -/
structure StateSchema where
  NumUint : Nat
  NumByteSlice : Nat
deriving DecidableEq

/-- Modelled from the spec: `StateSchema.AddSchema` of package basics is not
part of the source file; "schemas compose additively". -/
def StateSchema.AddSchema (sm osm : StateSchema) : StateSchema :=
  ⟨sm.NumUint + osm.NumUint, sm.NumByteSlice + osm.NumByteSlice⟩

/-- Modelled from the spec: `StateSchema.SubSchema` of package basics is not
part of the source file; "schemas compose ... subtractively".  The counts are
unsigned, so the difference stops at zero. -/
def StateSchema.SubSchema (sm osm : StateSchema) : StateSchema :=
  ⟨sm.NumUint - osm.NumUint, sm.NumByteSlice - osm.NumByteSlice⟩

/-- Pair of schemas of an application (`basics.StateSchemas`). -/
structure StateSchemas where
  LocalStateSchema : StateSchema
  GlobalStateSchema : StateSchema
deriving DecidableEq

/-- Parameters of an application (`basics.AppParams`), held by its creator. -/
structure AppParams where
  ApprovalProgram : Program
  ClearStateProgram : Program
  LocalStateSchema : StateSchema
  GlobalStateSchema : StateSchema
  GlobalState : TealKeyValue
deriving DecidableEq

/-- The zero value `basics.AppParams{}`, read from a map at an absent key. -/
def AppParams.zero : AppParams := ⟨[], [], ⟨0, 0⟩, ⟨0, 0⟩, none⟩

/-- The embedded field `StateSchemas` of `AppParams`. -/
def AppParams.StateSchemas (p : AppParams) : StateSchemas :=
  ⟨p.LocalStateSchema, p.GlobalStateSchema⟩

/-- Local state of one account for one application
(`basics.AppLocalState`). -/
structure AppLocalState where
  Schema : StateSchema
  KeyValue : TealKeyValue
deriving DecidableEq

/-- The zero value `basics.AppLocalState{}`. -/
def AppLocalState.zero : AppLocalState := ⟨⟨0, 0⟩, none⟩

/-- The fields of `basics.AccountData` used here; `MicroAlgos` stands for the
ledger fields this file never touches. -/
structure AccountData where
  MicroAlgos : Nat
  AppLocalStates : GoMap AppIndex AppLocalState
  AppParams : GoMap AppIndex AppParams
  TotalAppSchema : StateSchema
deriving DecidableEq

/-- Record handed out by `Get` and taken by `Put` (`basics.BalanceRecord`). -/
structure BalanceRecord where
  Addr : Address
  data : AccountData
deriving DecidableEq

/-- Kind of a creatable (`basics.CreatableType`). -/
inductive CreatableType where
  | AssetCreatable
  | AppCreatable
deriving DecidableEq

/-- Locator of a created or deleted object (`basics.CreatableLocator`). -/
structure CreatableLocator where
  Creator : Address
  Typ : CreatableType
  Index : Nat
deriving DecidableEq

/-- Completion action (`transactions.OnCompletion`, a uint64). -/
abbrev OnCompletion := Nat

/-- Constant `transactions.NoOpOC`. -/
def NoOpOC : OnCompletion := 0
/-- Constant `transactions.OptInOC`. -/
def OptInOC : OnCompletion := 1
/-- Constant `transactions.CloseOutOC`. -/
def CloseOutOC : OnCompletion := 2
/-- Constant `transactions.ClearStateOC`. -/
def ClearStateOC : OnCompletion := 3
/-- Constant `transactions.UpdateApplicationOC`. -/
def UpdateApplicationOC : OnCompletion := 4
/-- Constant `transactions.DeleteApplicationOC`. -/
def DeleteApplicationOC : OnCompletion := 5

/-- The fields of `transactions.ApplicationCallTxnFields` used here. -/
structure ApplicationCallTxnFields where
  ApplicationID : AppIndex
  OnCompletion : OnCompletion
  Accounts : List Address
  ApprovalProgram : Program
  ClearStateProgram : Program
  LocalStateSchema : StateSchema
  GlobalStateSchema : StateSchema
deriving DecidableEq

/-- Modelled from the spec: `ApplicationCallTxnFields.AddressByIndex` of
package transactions is not part of the source file; account index 0 is the
sender, 1..n are the referenced accounts of the transaction, and any other
index fails to resolve. -/
def ApplicationCallTxnFields.AddressByIndex (ac : ApplicationCallTxnFields)
    (accountIdx : Nat) (sender : Address) : Except Error Address :=
  if accountIdx = 0 then Except.ok sender
  else match ac.Accounts.get? (accountIdx - 1) with
    | some a => Except.ok a
    | none => Except.error (Error.errorf "cannot load account")

/-- The field of `transactions.Header` used here. -/
structure Header where
  Sender : Address
deriving DecidableEq

/-- The fields of `transactions.ApplyData`; `SenderRewards` stands for the
fields this file never touches. -/
structure ApplyData where
  SenderRewards : Nat
  EvalDelta : EvalDelta
deriving DecidableEq

/-- The consensus parameters read by this file (Go `int`). -/
structure ConsensusParams where
  MaxAppsCreated : Int
  MaxAppsOptedIn : Int
  MaxAppProgramCost : Int
deriving DecidableEq

/-- Modelled from the spec: `TealKeyValue.SatisfiesSchema` of package basics
is not part of the source file; the store's "aggregate entry counts must
satisfy the owning schema": the number of uint entries is at most `NumUint`
and the number of byte-string entries is at most `NumByteSlice`.  A nil map
has no entries. -/
def SatisfiesSchema (kv : TealKeyValue) (schema : StateSchema) : Bool :=
  match kv with
  | none => true
  | some m =>
    decide ((m.entries.filter (fun p => decide (p.2.Typ = TealType.TealUintType))).length
        ≤ schema.NumUint) &&
    decide ((m.entries.filter (fun p => decide (p.2.Typ = TealType.TealBytesType))).length
        ≤ schema.NumByteSlice)

/-! ## The collaborators -/

/-- Contents of the storage view behind the `Balances` interface: the record
of every address and the creator of every creatable. -/
structure Balances where
  accts : Address → AccountData
  creators : CreatableType → Nat → Option Address

/-- One call of a collaborator; the flag of a storage call tells whether it
succeeded. -/
inductive Event where
  | evGet (addr : Address) (ok : Bool)
  | evGetCreator (cidx : Nat) (ctype : CreatableType) (ok : Bool)
  | evPut (record : BalanceRecord) (ok : Bool)
  | evPutWithCreatable (record : BalanceRecord) (created deleted : Option CreatableLocator)
      (ok : Bool)
  | evInitLedger (appIdx : AppIndex) (schemas : StateSchemas)
  | evCheck (program : Program)
  | evEval (program : Program)
deriving DecidableEq

/-- State threaded through the code: the storage view and the trace of
collaborator calls, newest first. -/
structure World where
  balances : Balances
  trace : List Event

/-- What stays fixed during a call: the consensus parameters, the fault
schedule of the storage view (the error code of the next storage call, given
the calls made so far), the helpers of other packages that the file uses
without fixing their results (`StateDelta.Valid` of basics and the program
converter of tools/teal/converter), and the order in which Go ranges over
the map of staged local states, which is some rearrangement of its
entries. -/
structure Env where
  proto : ConsensusParams
  fault : List Event → Option Nat
  Valid : ConsensusParams → StateDelta → Bool
  NewProgram : Program → Except Nat Program
  ConvertTo : Program → Nat → Except Nat Program
  rangeChanges : List (Address × AppLocalState) → List (Address × AppLocalState)
  rangeChanges_perm : ∀ l, (rangeChanges l).Perm l

/-- The evaluator behind the `StateEvaluator` interface; its answers may
depend on the storage view it wraps.  A result carries an error code when the
Go call returns a non-nil error. -/
structure StateEvaluator where
  Eval : Balances → Program → Bool × EvalDelta × Option Nat
  Check : Balances → Program → Int × Option Nat
  InitLedger : Balances → AppIndex → StateSchemas → Option Nat

/-- Appends an event to the trace. -/
def World.log (w : World) (e : Event) : World :=
  { w with trace := e :: w.trace }

/-- Modelled from the spec: the implementation of `Balances.Get` is not part
of the source file; `get(address, includePendingRewards) -> record`, which
fails when the fault schedule says so. -/
def Get (env : Env) (addr : Address) (w : World) : Except Error BalanceRecord × World :=
  match env.fault w.trace with
  | some c => (Except.error (Error.external c), w.log (Event.evGet addr false))
  | none => (Except.ok ⟨addr, w.balances.accts addr⟩, w.log (Event.evGet addr true))

/-- Modelled from the spec: the implementation of `Balances.GetCreator` is
not part of the source file; `getCreator(index, kind) -> (address, exists)`,
with the zero address for a creatable that does not exist. -/
def GetCreator (env : Env) (cidx : Nat) (ctype : CreatableType) (w : World) :
    Except Error (Address × Bool) × World :=
  match env.fault w.trace with
  | some c => (Except.error (Error.external c), w.log (Event.evGetCreator cidx ctype false))
  | none =>
    match w.balances.creators ctype cidx with
    | some a => (Except.ok (a, true), w.log (Event.evGetCreator cidx ctype true))
    | none => (Except.ok (0, false), w.log (Event.evGetCreator cidx ctype true))

/-- Effect of a creatable locator pair on the creator index. -/
def updCreators (creators : CreatableType → Nat → Option Address)
    (created deleted : Option CreatableLocator) : CreatableType → Nat → Option Address :=
  let c1 : CreatableType → Nat → Option Address :=
    match created with
    | some loc => fun t i => if t = loc.Typ ∧ i = loc.Index then some loc.Creator else creators t i
    | none => creators
  match deleted with
  | some loc => fun t i => if t = loc.Typ ∧ i = loc.Index then none else c1 t i
  | none => c1

/-- Modelled from the spec: the implementation of `Balances.Put` is not part
of the source file; `put(record)` stores the record under its address, so
that a later `Get` returns it. -/
def Put (env : Env) (record : BalanceRecord) (w : World) : Option Error × World :=
  match env.fault w.trace with
  | some c => (some (Error.external c), w.log (Event.evPut record false))
  | none =>
    (none,
      { balances := { w.balances with
          accts := Function.update w.balances.accts record.Addr record.data },
        trace := Event.evPut record true :: w.trace })

/-- Modelled from the spec: the implementation of `Balances.PutWithCreatable`
is not part of the source file; `putWithCreatable(record, created?, deleted?)`
stores the record and announces the created and the deleted creatable, which
`GetCreator` then reports. -/
def PutWithCreatable (env : Env) (record : BalanceRecord)
    (created deleted : Option CreatableLocator) (w : World) : Option Error × World :=
  match env.fault w.trace with
  | some c =>
    (some (Error.external c), w.log (Event.evPutWithCreatable record created deleted false))
  | none =>
    (none,
      { balances :=
          { accts := Function.update w.balances.accts record.Addr record.data,
            creators := updCreators w.balances.creators created deleted },
        trace := Event.evPutWithCreatable record created deleted true :: w.trace })

/-- Call of `steva.Eval`, recorded in the trace. -/
def StateEvaluator.callEval (steva : StateEvaluator) (program : Program) (w : World) :
    (Bool × EvalDelta × Option Error) × World :=
  let r := steva.Eval w.balances program
  ((r.1, r.2.1, r.2.2.map Error.external), w.log (Event.evEval program))

/-- Call of `steva.Check`, recorded in the trace. -/
def StateEvaluator.callCheck (steva : StateEvaluator) (program : Program) (w : World) :
    (Int × Option Error) × World :=
  let r := steva.Check w.balances program
  ((r.1, r.2.map Error.external), w.log (Event.evCheck program))

/-- Call of `steva.InitLedger`, recorded in the trace. -/
def StateEvaluator.callInitLedger (steva : StateEvaluator) (appIdx : AppIndex)
    (schemas : StateSchemas) (w : World) : Option Error × World :=
  ((steva.InitLedger w.balances appIdx schemas).map Error.external,
    w.log (Event.evInitLedger appIdx schemas))

/-! ## The source file -/

/-- Source `cloneAppLocalStates`: a copy of the map. -/
def cloneAppLocalStates (m : GoMap AppIndex AppLocalState) : GoMap AppIndex AppLocalState := m

/-- Source `cloneAppParams`: a copy of the map. -/
def cloneAppParams (m : GoMap AppIndex AppParams) : GoMap AppIndex AppParams := m

/-- Source `getAppParams`: the creator and the parameters of an application,
if it exists. -/
def getAppParams (env : Env) (aidx : AppIndex) (w : World) :
    Except Error (AppParams × Address × Bool) × World :=
  match GetCreator env aidx CreatableType.AppCreatable w with
  | (Except.error err, w1) => (Except.error err, w1)
  | (Except.ok (creator, false), w1) => (Except.ok (AppParams.zero, creator, false), w1)
  | (Except.ok (creator, true), w1) =>
    match Get env creator w1 with
    | (Except.error err, w2) => (Except.error err, w2)
    | (Except.ok record, w2) =>
      match record.data.AppParams.lookup aidx with
      | none => (Except.error (Error.errorf "app not found in account"), w2)
      | some params => (Except.ok (params, creator, true), w2)

/-- The loop of source `applyStateDelta` over the entries of the delta; it
stops at the first unknown action and leaves the store as it is then. -/
def applyStateDeltaLoop (kv : KVMap) : List (Key × ValueDelta) → KVMap × Option Error
  | [] => (kv, none)
  | (key, valueDelta) :: rest =>
    if valueDelta.Action = SetUintAction then
      applyStateDeltaLoop
        (kv.insert key ⟨TealType.TealUintType, [], valueDelta.Uint⟩) rest
    else if valueDelta.Action = SetBytesAction then
      applyStateDeltaLoop
        (kv.insert key ⟨TealType.TealBytesType, valueDelta.Bytes, 0⟩) rest
    else if valueDelta.Action = DeleteAction then
      applyStateDeltaLoop (kv.erase key) rest
    else (kv, some (Error.errorf "unknown delta action"))

/-- Source `applyStateDelta`: the store after the call and the error. -/
def applyStateDelta (kv : TealKeyValue) (stateDelta : StateDelta) :
    TealKeyValue × Option Error :=
  match kv with
  | none => (none, some (Error.errorf "cannot apply delta to nil TealKeyValue"))
  | some m =>
    let r := applyStateDeltaLoop m stateDelta.entries
    (some r.1, r.2)

/-- Allocation of a store that is nil (`make(basics.TealKeyValue)`). -/
def allocKV (kv : TealKeyValue) : TealKeyValue :=
  match kv with
  | none => some GoMap.empty
  | some m => some m

/-- Step 1 of source `applyEvalDelta`: the parameters with the global delta
applied to a copy of the global store, or the error of the step. -/
def applyEvalDeltaGlobal (env : Env) (evalDelta : EvalDelta) (params : AppParams) :
    Except Error AppParams :=
  if evalDelta.GlobalDelta.len > 0 then
    let globalState := allocKV params.GlobalState
    if env.Valid env.proto evalDelta.GlobalDelta = false then
      Except.error (Error.applyError "cannot apply GlobalState delta")
    else
      match applyStateDelta globalState evalDelta.GlobalDelta with
      | (_, some err) => Except.error err
      | (kv, none) =>
        if SatisfiesSchema kv params.GlobalStateSchema = false then
          Except.error (Error.applyError "GlobalState would use too much space")
        else Except.ok { params with GlobalState := kv }
  else Except.ok params

/-- Step 2 of source `applyEvalDelta`: the loop over the local deltas, which
stages the new local state of every affected address in `changes` and writes
nothing. -/
def applyEvalDeltaStage (env : Env) (ac : ApplicationCallTxnFields) (sender : Address)
    (appIdx : AppIndex) :
    List (Nat × StateDelta) → GoMap Address AppLocalState → World →
      Except Error (GoMap Address AppLocalState) × World
  | [], changes, w => (Except.ok changes, w)
  | (accountIdx, delta) :: rest, changes, w =>
    match ac.AddressByIndex accountIdx sender with
    | Except.error err => (Except.error err, w)
    | Except.ok addr =>
      if (changes.lookup addr).isSome then
        (Except.error (Error.applyError "duplicate LocalState delta"), w)
      else if delta.len = 0 then
        (Except.error (Error.applyError "got zero-length delta, not allowed"), w)
      else if env.Valid env.proto delta = false then
        (Except.error (Error.applyError "cannot apply LocalState delta"), w)
      else
        match Get env addr w with
        | (Except.error err, w1) => (Except.error err, w1)
        | (Except.ok record, w1) =>
          match record.data.AppLocalStates.lookup appIdx with
          | none =>
            (Except.error
              (Error.applyError "cannot apply LocalState delta: acct has not opted in"), w1)
          | some localState =>
            match applyStateDelta (allocKV localState.KeyValue) delta with
            | (_, some err) => (Except.error err, w1)
            | (kv, none) =>
              if SatisfiesSchema kv localState.Schema = false then
                (Except.error (Error.applyError "LocalState would use too much space"), w1)
              else
                applyEvalDeltaStage env ac sender appIdx rest
                  (changes.insert addr { localState with KeyValue := kv }) w1

/-- Step 3 of source `applyEvalDelta`: the changed parameters are written to
the record of the creator when the global delta is not empty. -/
def applyEvalDeltaWriteGlobal (env : Env) (evalDelta : EvalDelta) (params : AppParams)
    (creator : Address) (appIdx : AppIndex) (w : World) : Option Error × World :=
  if evalDelta.GlobalDelta.len > 0 then
    match Get env creator w with
    | (Except.error err, w1) => (some err, w1)
    | (Except.ok record, w1) =>
      let record1 : BalanceRecord :=
        { record with data := { record.data with
            AppParams := (cloneAppParams record.data.AppParams).insert appIdx params } }
      Put env record1 w1
  else (none, w)

/-- Step 4 of source `applyEvalDelta`: the loop that writes the staged local
states. -/
def applyEvalDeltaWriteLocal (env : Env) (appIdx : AppIndex) :
    List (Address × AppLocalState) → World → Option Error × World
  | [], w => (none, w)
  | (addr, newLocalState) :: rest, w =>
    match Get env addr w with
    | (Except.error err, w1) => (some err, w1)
    | (Except.ok record, w1) =>
      let record1 : BalanceRecord :=
        { record with data := { record.data with
            AppLocalStates :=
              (cloneAppLocalStates record.data.AppLocalStates).insert appIdx newLocalState } }
      match Put env record1 w1 with
      | (some err, w2) => (some err, w2)
      | (none, w2) => applyEvalDeltaWriteLocal env appIdx rest w2

/-- Source `applyEvalDelta`: the global delta and the local deltas are
checked and staged, then written. -/
def applyEvalDelta (env : Env) (ac : ApplicationCallTxnFields) (evalDelta : EvalDelta)
    (params : AppParams) (creator sender : Address) (appIdx : AppIndex) (w : World) :
    Option Error × World :=
  match applyEvalDeltaGlobal env evalDelta params with
  | Except.error err => (some err, w)
  | Except.ok params1 =>
    match applyEvalDeltaStage env ac sender appIdx evalDelta.LocalDeltas.entries
        GoMap.empty w with
    | (Except.error err, w1) => (some err, w1)
    | (Except.ok changes, w1) =>
      match applyEvalDeltaWriteGlobal env evalDelta params1 creator appIdx w1 with
      | (some err, w2) => (some err, w2)
      | (none, w2) =>
        applyEvalDeltaWriteLocal env appIdx (env.rangeChanges changes.entries) w2

/-- Source `checkPrograms`: both programs pass the check of the evaluator at
a cost of at most `maxCost`. -/
def checkPrograms (ac : ApplicationCallTxnFields) (steva : StateEvaluator) (maxCost : Int)
    (w : World) : Option Error × World :=
  match steva.callCheck ac.ApprovalProgram w with
  | ((_, some _), w1) => (some (Error.errorf "check failed on ApprovalProgram"), w1)
  | ((cost, none), w1) =>
    if cost > maxCost then
      (some (Error.errorf "ApprovalProgram too resource intensive"), w1)
    else
      match steva.callCheck ac.ClearStateProgram w1 with
      | ((_, some _), w2) => (some (Error.errorf "check failed on ClearStateProgram"), w2)
      | ((cost2, none), w2) =>
        if cost2 > maxCost then
          (some (Error.errorf "ClearStateProgram too resource intensive"), w2)
        else (none, w2)

/-- Source constant `DisallowObsoletePrograms`. -/
def DisallowObsoletePrograms : Bool := false

/-- Source `prepareProgram`: bytecode of version 3 is converted to version 2,
any other bytecode is returned as it is. -/
def prepareProgram (env : Env) (bytecode : Program) : Except Error Program :=
  match bytecode with
  | [] => Except.ok bytecode
  | version :: _ =>
    if version = 3 then
      match env.NewProgram bytecode with
      | Except.error c => Except.error (Error.external c)
      | Except.ok p =>
        match env.ConvertTo p 2 with
        | Except.error c => Except.error (Error.external c)
        | Except.ok q => Except.ok q
    else if DisallowObsoletePrograms && decide (version ≤ 2) then
      Except.error (Error.errorf "TEAL version is obsolete")
    else Except.ok bytecode

/-- Source `createApplication`: a new `AppParams` entry in the record of the
creator; the result is the new application index.  The index is a uint64. -/
def createApplication (env : Env) (ac : ApplicationCallTxnFields) (creator : Address)
    (txnCounter : Nat) (w : World) : Except Error AppIndex × World :=
  match Get env creator w with
  | (Except.error err, w1) => (Except.error err, w1)
  | (Except.ok record, w1) =>
    let maxAppsCreated := env.proto.MaxAppsCreated
    if (record.data.AppParams.len : Int) ≥ maxAppsCreated then
      (Except.error (Error.errorf "cannot create app: max created apps per acct"), w1)
    else
      match prepareProgram env ac.ApprovalProgram with
      | Except.error err => (Except.error err, w1)
      | Except.ok convertedAp =>
        match prepareProgram env ac.ClearStateProgram with
        | Except.error err => (Except.error err, w1)
        | Except.ok convertedCsp =>
          let appIdx : AppIndex := (txnCounter + 1) % 2 ^ 64
          let record1 : BalanceRecord :=
            { record with data := { record.data with
                AppParams := (cloneAppParams record.data.AppParams).insert appIdx
                  { ApprovalProgram := convertedAp,
                    ClearStateProgram := convertedCsp,
                    LocalStateSchema := ac.LocalStateSchema,
                    GlobalStateSchema := ac.GlobalStateSchema,
                    GlobalState := none },
                TotalAppSchema := record.data.TotalAppSchema.AddSchema ac.GlobalStateSchema } }
          let created : CreatableLocator :=
            { Creator := creator, Typ := CreatableType.AppCreatable, Index := appIdx }
          match PutWithCreatable env record1 (some created) none w1 with
          | (some err, w2) => (Except.error err, w2)
          | (none, w2) => (Except.ok appIdx, w2)

/-- The end of source `applyClearState`: the local schema is taken off
`TotalAppSchema` and the local state is removed from the record, which is
written. -/
def applyClearStateFinish (env : Env) (record : BalanceRecord) (appIdx : AppIndex)
    (w : World) : Option Error × World :=
  let localSchema :=
    ((record.data.AppLocalStates.lookup appIdx).getD AppLocalState.zero).Schema
  let record1 : BalanceRecord :=
    { record with data := { record.data with
        TotalAppSchema := record.data.TotalAppSchema.SubSchema localSchema,
        AppLocalStates := (cloneAppLocalStates record.data.AppLocalStates).erase appIdx } }
  Put env record1 w

/-- The block of source `applyClearState` that runs when the application
still exists: the clear-state program is evaluated and, if it passes, its
delta is applied; only an error of `applyEvalDelta` that is not an
`applyError` is returned. -/
def applyClearStateProgram (env : Env) (ac : ApplicationCallTxnFields) (sender : Address)
    (appIdx : AppIndex) (ad : ApplyData) (steva : StateEvaluator) (params : AppParams)
    (creator : Address) (w : World) : Option Error × ApplyData × World :=
  match steva.callEval params.ClearStateProgram w with
  | ((pass, evalDelta, err), w1) =>
    if err.isNone && pass then
      match applyEvalDelta env ac evalDelta params creator sender appIdx w1 with
      | (err1, w2) =>
        if err1.isSome && !isApplyError err1 then (err1, ad, w2)
        else if err1.isNone then (none, { ad with EvalDelta := evalDelta }, w2)
        else (none, ad, w2)
    else (none, ad, w1)

/-- Source `applyClearState`: the result is the error, the `ApplyData` behind
the pointer `ad` after the call, and the state. -/
def applyClearState (env : Env) (ac : ApplicationCallTxnFields) (sender : Address)
    (appIdx : AppIndex) (ad : ApplyData) (steva : StateEvaluator) (w : World) :
    Option Error × ApplyData × World :=
  match getAppParams env appIdx w with
  | (Except.error err, w1) => (some err, ad, w1)
  | (Except.ok (params, creator, ex), w1) =>
    match Get env sender w1 with
    | (Except.error err, w2) => (some err, ad, w2)
    | (Except.ok record, w2) =>
      match record.data.AppLocalStates.lookup appIdx with
      | none =>
        (some (Error.errorf "cannot clear state: account is not currently opted in"), ad, w2)
      | some _ =>
        if ex then
          match applyClearStateProgram env ac sender appIdx ad steva params creator w2 with
          | (some err, ad1, w3) => (some err, ad1, w3)
          | (none, ad1, w3) =>
            match Get env sender w3 with
            | (Except.error err, w4) => (some err, ad1, w4)
            | (Except.ok record2, w4) =>
              match applyClearStateFinish env record2 appIdx w4 with
              | (r, w5) => (r, ad1, w5)
        else
          match applyClearStateFinish env record appIdx w2 with
          | (r, w5) => (r, ad, w5)

/-- Source `applyOptIn`: local state with the declared local schema is
allocated for the sender. -/
def applyOptIn (env : Env) (sender : Address) (appIdx : AppIndex) (params : AppParams)
    (w : World) : Option Error × World :=
  match Get env sender w with
  | (Except.error err, w1) => (some err, w1)
  | (Except.ok record, w1) =>
    if (record.data.AppLocalStates.lookup appIdx).isSome then
      (some (Error.errorf "account has already opted in to app"), w1)
    else
      let maxAppsOptedIn := env.proto.MaxAppsOptedIn
      if (record.data.AppLocalStates.len : Int) ≥ maxAppsOptedIn then
        (some (Error.errorf "cannot opt in app: max opted-in apps per acct"), w1)
      else
        let record1 : BalanceRecord :=
          { record with data := { record.data with
              AppLocalStates := (cloneAppLocalStates record.data.AppLocalStates).insert appIdx
                { Schema := params.LocalStateSchema, KeyValue := none },
              TotalAppSchema :=
                record.data.TotalAppSchema.AddSchema params.LocalStateSchema } }
        Put env record1 w1

/-- The switch on the completion action at the end of source
`ApplicationCall`. -/
def ApplicationCallCompletion (env : Env) (ac : ApplicationCallTxnFields) (header : Header)
    (creator : Address) (appIdx : AppIndex) (w : World) : Option Error × World :=
  if ac.OnCompletion = NoOpOC then (none, w)
  else if ac.OnCompletion = OptInOC then (none, w)
  else if ac.OnCompletion = CloseOutOC then
    match Get env header.Sender w with
    | (Except.error err, w1) => (some err, w1)
    | (Except.ok record, w1) =>
      match record.data.AppLocalStates.lookup appIdx with
      | none => (some (Error.errorf "account is not opted in to app"), w1)
      | some localState =>
        let record1 : BalanceRecord :=
          { record with data := { record.data with
              TotalAppSchema := record.data.TotalAppSchema.SubSchema localState.Schema,
              AppLocalStates :=
                (cloneAppLocalStates record.data.AppLocalStates).erase appIdx } }
        Put env record1 w1
  else if ac.OnCompletion = DeleteApplicationOC then
    match Get env creator w with
    | (Except.error err, w1) => (some err, w1)
    | (Except.ok record, w1) =>
      let globalSchema :=
        ((record.data.AppParams.lookup appIdx).getD AppParams.zero).GlobalStateSchema
      let record1 : BalanceRecord :=
        { record with data := { record.data with
            TotalAppSchema := record.data.TotalAppSchema.SubSchema globalSchema,
            AppParams := (cloneAppParams record.data.AppParams).erase appIdx } }
      let deleted : CreatableLocator :=
        { Creator := creator, Typ := CreatableType.AppCreatable, Index := appIdx }
      PutWithCreatable env record1 none (some deleted) w1
  else if ac.OnCompletion = UpdateApplicationOC then
    match Get env creator w with
    | (Except.error err, w1) => (some err, w1)
    | (Except.ok record, w1) =>
      let params := (record.data.AppParams.lookup appIdx).getD AppParams.zero
      let params1 : AppParams :=
        { params with ApprovalProgram := ac.ApprovalProgram,
                      ClearStateProgram := ac.ClearStateProgram }
      let record1 : BalanceRecord :=
        { record with data := { record.data with
            AppParams := (cloneAppParams record.data.AppParams).insert appIdx params1 } }
      Put env record1 w1
  else (some (Error.errorf "invalid application action"), w)

/-- The part of source `ApplicationCall` that runs the approval program:
from the opt-in allocation to the end. -/
def ApplicationCallApproval (env : Env) (ac : ApplicationCallTxnFields) (header : Header)
    (ad : ApplyData) (steva : StateEvaluator) (params : AppParams) (creator : Address)
    (appIdx : AppIndex) (w : World) : Option Error × ApplyData × World :=
  match (if ac.OnCompletion = OptInOC then applyOptIn env header.Sender appIdx params w
         else (none, w)) with
  | (some err, w1) => (some err, ad, w1)
  | (none, w1) =>
    match steva.callEval params.ApprovalProgram w1 with
    | ((_, _, some err), w2) => (some err, ad, w2)
    | ((approved, evalDelta, none), w2) =>
      if approved = false then
        (some (Error.errorf "transaction rejected by ApprovalProgram"), ad, w2)
      else
        match applyEvalDelta env ac evalDelta params creator header.Sender appIdx w2 with
        | (some err, w3) => (some err, ad, w3)
        | (none, w3) =>
          match ApplicationCallCompletion env ac header creator appIdx w3 with
          | (some err, w4) => (some err, ad, w4)
          | (none, w4) => (none, { ad with EvalDelta := evalDelta }, w4)

/-- The body of source `ApplicationCall` for a non-nil `ad`, without the
deferred function. -/
def ApplicationCallBody (env : Env) (ac : ApplicationCallTxnFields) (header : Header)
    (ad : ApplyData) (txnCounter : Nat) (steva : StateEvaluator) (w : World) :
    Option Error × ApplyData × World :=
  match (if ac.ApplicationID = 0 then createApplication env ac header.Sender txnCounter w
         else (Except.ok ac.ApplicationID, w)) with
  | (Except.error err, w1) => (some err, ad, w1)
  | (Except.ok appIdx, w1) =>
    match getAppParams env appIdx w1 with
    | (Except.error err, w2) => (some err, ad, w2)
    | (Except.ok (params, creator, ex), w2) =>
      if ex = false ∧ ac.OnCompletion ≠ ClearStateOC then
        (some (Error.errorf
          "only clearing out is supported for applications that do not exist"), ad, w2)
      else
        match steva.callInitLedger appIdx params.StateSchemas w2 with
        | (some err, w3) => (some err, ad, w3)
        | (none, w3) =>
          match (if ac.ApplicationID = 0 ∨ ac.OnCompletion = UpdateApplicationOC then
                   checkPrograms ac steva env.proto.MaxAppProgramCost w3
                 else (none, w3)) with
          | (some err, w4) => (some err, ad, w4)
          | (none, w4) =>
            if ac.OnCompletion = ClearStateOC then
              applyClearState env ac header.Sender appIdx ad steva w4
            else
              ApplicationCallApproval env ac header ad steva params creator appIdx w4

/-- Source `ApplicationCall`: the result is the error, the `ApplyData` behind
the pointer `ad` after the call (`none` for a nil pointer), and the state.
The deferred function resets `ad.EvalDelta` when the error is not nil. -/
def ApplicationCall (env : Env) (ac : ApplicationCallTxnFields) (header : Header)
    (ad : Option ApplyData) (txnCounter : Nat) (steva : StateEvaluator) (w : World) :
    Option Error × Option ApplyData × World :=
  match ad with
  | none => (some (Error.errorf "cannot use empty ApplyData"), none, w)
  | some ad0 =>
    match ApplicationCallBody env ac header ad0 txnCounter steva w with
    | (some err, ad1, w1) => (some err, some { ad1 with EvalDelta := EvalDelta.zero }, w1)
    | (none, ad1, w1) => (none, some ad1, w1)

/-! ## Vocabulary of the theorems -/

/-- The event is a storage write (`Put` or `PutWithCreatable`). -/
def Event.isPut : Event → Bool
  | Event.evPut _ _ => true
  | Event.evPutWithCreatable _ _ _ _ => true
  | _ => false

/-- The storage writes of a trace. -/
def putEvents (t : List Event) : List Event := t.filter Event.isPut

/-- Between the two states no storage write was issued and the storage view
is the same. -/
def NoPut (w w' : World) : Prop :=
  w'.balances = w.balances ∧ putEvents w'.trace = putEvents w.trace

/-! ## Fixtures for the concrete instances -/

/-- Environment without storage faults, in which every delta is valid and the
converter returns its input. -/
def env0 : Env :=
  { proto := ⟨10, 10, 700⟩,
    fault := fun _ => none,
    Valid := fun _ _ => true,
    NewProgram := fun p => Except.ok p,
    ConvertTo := fun p _ => Except.ok p,
    rangeChanges := fun l => l,
    rangeChanges_perm := fun l => List.Perm.refl l }

/-- Account without applications. -/
def emptyAcct : AccountData := ⟨0, GoMap.empty, GoMap.empty, ⟨0, 0⟩⟩

/-- State in which no account holds an application. -/
def w0 : World := ⟨⟨fun _ => emptyAcct, fun _ _ => none⟩, []⟩

/-- Application 5 as created by account 1: one uint of global and one uint of
local state. -/
def params5 : AppParams := ⟨[1], [1], ⟨1, 0⟩, ⟨1, 0⟩, none⟩

/-- The creator of application 5. -/
def acct1 : AccountData := ⟨0, GoMap.empty, GoMap.empty.insert 5 params5, ⟨1, 0⟩⟩

/-- An account opted in to application 5. -/
def acct7 : AccountData := ⟨0, GoMap.empty.insert 5 ⟨⟨1, 0⟩, none⟩, GoMap.empty, ⟨1, 0⟩⟩

/-- State with application 5, created by account 1; account 7 is opted in. -/
def w5 : World :=
  ⟨⟨fun a => if a = 1 then acct1 else if a = 7 then acct7 else emptyAcct,
    fun t i => if t = CreatableType.AppCreatable ∧ i = 5 then some 1 else none⟩, []⟩

/-- Delta that sets one key to a uint. -/
def deltaA : StateDelta := GoMap.empty.insert "a" ⟨SetUintAction, [], 1⟩

/-- Delta that sets two keys to uints. -/
def deltaAB : StateDelta := deltaA.insert "b" ⟨SetUintAction, [], 2⟩

/-- A call of application 5 with account 7 as the only referenced account. -/
def acNoOp5 : ApplicationCallTxnFields := ⟨5, NoOpOC, [7], [], [], ⟨0, 0⟩, ⟨0, 0⟩⟩

/-- Evaluator whose programs pass with the given delta and whose checks
report the given cost. -/
def stevaPass (cost : Int) (d : EvalDelta) : StateEvaluator :=
  { Eval := fun _ _ => (true, d, none),
    Check := fun _ _ => (cost, none),
    InitLedger := fun _ _ _ => none }

/-- Evaluator whose programs are rejected. -/
def stevaReject : StateEvaluator :=
  { Eval := fun _ _ => (false, EvalDelta.zero, none),
    Check := fun _ _ => (0, none),
    InitLedger := fun _ _ _ => none }

/-- A create call with one uint of global and of local state. -/
def acCreate : ApplicationCallTxnFields := ⟨0, NoOpOC, [], [1], [1], ⟨1, 0⟩, ⟨1, 0⟩⟩

/-- Eval delta that sets one global key. -/
def globalA : EvalDelta := ⟨deltaA, GoMap.empty⟩

/-- The eval delta changes nothing: no global and no local delta. -/
def EvalDelta.isEmpty (d : EvalDelta) : Bool :=
  decide (d.GlobalDelta.len = 0) && decide (d.LocalDeltas.len = 0)

/-- A close-out of application 5. -/
def acCloseOut5 : ApplicationCallTxnFields := ⟨5, CloseOutOC, [], [], [], ⟨0, 0⟩, ⟨0, 0⟩⟩

/-- A clear-state call of application 5. -/
def acClear5 : ApplicationCallTxnFields := ⟨5, ClearStateOC, [], [], [], ⟨0, 0⟩, ⟨0, 0⟩⟩

/-- Eval delta whose local delta for the sender sets two uint keys. -/
def localAB : EvalDelta := ⟨GoMap.empty, GoMap.empty.insert 0 deltaAB⟩

/-- A clear-state call of application 9, which does not exist. -/
def acClear9 : ApplicationCallTxnFields := ⟨9, ClearStateOC, [], [], [], ⟨0, 0⟩, ⟨0, 0⟩⟩

/-- State without applications in which account 7 still holds local state of
the deleted application 9. -/
def w9 : World :=
  ⟨⟨fun a => if a = 7 then ⟨0, GoMap.empty.insert 9 ⟨⟨1, 0⟩, none⟩, GoMap.empty, ⟨1, 0⟩⟩
      else emptyAcct,
    fun _ _ => none⟩, []⟩

/-- The local state that `applyEvalDelta` stages for a local delta: the old
local state with the delta applied to its store, allocated if nil. -/
def stagedLocalState (ls0 : AppLocalState) (delta : StateDelta) : AppLocalState :=
  { ls0 with KeyValue := (applyStateDelta (allocKV ls0.KeyValue) delta).1 }
/-- The record of address `a` after step 3 of `applyEvalDelta`: the creator
holds the changed parameters when the global delta is not empty. -/
def writeGlobalRecord (evalDelta : EvalDelta) (params1 : AppParams) (creator : Address)
    (appIdx : AppIndex) (a : Address) (r : AccountData) : AccountData :=
  if evalDelta.GlobalDelta.len > 0 ∧ a = creator then
    { r with AppParams := r.AppParams.insert appIdx params1 }
  else r

/-- The record of address `a` after step 4 of `applyEvalDelta`: an address
with a staged local state holds it. -/
def writeLocalRecord (changes : List (Address × AppLocalState)) (appIdx : AppIndex)
    (a : Address) (r : AccountData) : AccountData :=
  match alookup a changes with
  | some ls1 => { r with AppLocalStates := r.AppLocalStates.insert appIdx ls1 }
  | none => r
/-- An account that created application 5 and is opted in to it. -/
def acct1c : AccountData :=
  ⟨0, GoMap.empty.insert 5 ⟨⟨1, 0⟩, none⟩, GoMap.empty.insert 5 params5, ⟨2, 0⟩⟩

/-- State with application 5, whose creator, account 1, is opted in. -/
def w5c : World :=
  ⟨⟨fun a => if a = 1 then acct1c else emptyAcct,
    fun t i => if t = CreatableType.AppCreatable ∧ i = 5 then some 1 else none⟩, []⟩

/-- Eval delta that sets one global key and one local key of the sender. -/
def globalLocalA : EvalDelta := ⟨deltaA, GoMap.empty.insert 0 deltaA⟩

/-- Every action of the delta is one of `SetUintAction`, `SetBytesAction`
and `DeleteAction`. -/
def Recognised (d : StateDelta) : Prop :=
  ∀ k vd, (k, vd) ∈ d.entries →
    vd.Action = SetUintAction ∨ vd.Action = SetBytesAction ∨ vd.Action = DeleteAction

/-- The error `e` is one of the faults that `applyEvalDelta` passes on: the
failed resolution of an account index of a local delta, the error that the
fault schedule gives a storage call, or the unknown action of a delta. -/
def FatalCause (env : Env) (ac : ApplicationCallTxnFields) (evalDelta : EvalDelta)
    (sender : Address) (e : Error) : Prop :=
  (∃ idx d, (idx, d) ∈ evalDelta.LocalDeltas.entries ∧
    ac.AddressByIndex idx sender = Except.error e) ∨
  (∃ t c, env.fault t = some c ∧ e = Error.external c) ∨
  (e = Error.errorf "unknown delta action" ∧
    (¬ Recognised evalDelta.GlobalDelta ∨
      ∃ idx d, (idx, d) ∈ evalDelta.LocalDeltas.entries ∧ ¬ Recognised d))

/-- The local deltas are malformed: two account indices resolve to one
address, or a local delta has no entry, or a resolved address holds no local
state of the application. -/
def Malformed (ac : ApplicationCallTxnFields) (evalDelta : EvalDelta) (sender : Address)
    (appIdx : AppIndex) (b : Balances) : Prop :=
  (∃ i1 d1 i2 d2 a, (i1, d1) ∈ evalDelta.LocalDeltas.entries ∧
    (i2, d2) ∈ evalDelta.LocalDeltas.entries ∧ i1 ≠ i2 ∧
    ac.AddressByIndex i1 sender = Except.ok a ∧ ac.AddressByIndex i2 sender = Except.ok a) ∨
  (∃ i d, (i, d) ∈ evalDelta.LocalDeltas.entries ∧ d.len = 0) ∨
  (∃ i d a, (i, d) ∈ evalDelta.LocalDeltas.entries ∧
    ac.AddressByIndex i sender = Except.ok a ∧
    (b.accts a).AppLocalStates.lookup appIdx = none)

/-- Empty delta. -/
def deltaEmpty : StateDelta := GoMap.empty

/-- Eval delta with a local delta for account index 5, which the call does
not reference, and an empty local delta for the sender. -/
def localUnresolved : EvalDelta :=
  ⟨GoMap.empty, (GoMap.empty.insert 0 deltaEmpty).insert 5 deltaA⟩

/-- Eval delta with local deltas for the sender and for the first referenced
account. -/
def localTwo : EvalDelta := ⟨GoMap.empty, (GoMap.empty.insert 0 deltaA).insert 1 deltaA⟩

/-- Environment in which every storage call fails with code 1. -/
def envFault : Env := { env0 with fault := fun _ => some 1 }

/-- Eval delta with a local delta for the first referenced account and an
empty local delta for the sender. -/
def localFaulty : EvalDelta :=
  ⟨GoMap.empty, (GoMap.empty.insert 0 deltaEmpty).insert 1 deltaA⟩

/-- Sum of a count over the values of an association list. -/
def asum {K V : Type} (f : V → Nat) (l : List (K × V)) : Nat :=
  (l.map (fun p => f p.2)).sum

/-- Schema conservation of one account record: `TotalAppSchema` is, in both
components, the sum of `Schema` over the entries of `AppLocalStates` plus the
sum of `GlobalStateSchema` over the entries of `AppParams`. -/
def SchemaConserved (d : AccountData) : Prop :=
  d.TotalAppSchema.NumUint
    = asum (fun ls : AppLocalState => ls.Schema.NumUint) d.AppLocalStates.entries
      + asum (fun p : AppParams => p.GlobalStateSchema.NumUint) d.AppParams.entries ∧
  d.TotalAppSchema.NumByteSlice
    = asum (fun ls : AppLocalState => ls.Schema.NumByteSlice) d.AppLocalStates.entries
      + asum (fun p : AppParams => p.GlobalStateSchema.NumByteSlice) d.AppParams.entries

/-- Schema conservation of a storage view: every account record is
conserved. -/
def Conserved (b : Balances) : Prop := ∀ a, SchemaConserved (b.accts a)

/-- One invocation of `ApplicationCall` with its collaborators. -/
structure Call where
  env : Env
  ac : ApplicationCallTxnFields
  header : Header
  ad : Option ApplyData
  txnCounter : Nat
  steva : StateEvaluator

/-- The state after a sequence of invocations of `ApplicationCall`. -/
def runCalls : List Call → World → World
  | [], w => w
  | c :: cs, w =>
    runCalls cs (ApplicationCall c.env c.ac c.header c.ad c.txnCounter c.steva w).2.2

/-- Every create call of the sequence gets an application index that its
creator does not hold yet, in the state in which the call is made. -/
def FreshCreates : List Call → World → Prop
  | [], _ => True
  | c :: cs, w =>
    (c.ac.ApplicationID = 0 →
      (w.balances.accts c.header.Sender).AppParams.lookup ((c.txnCounter + 1) % 2 ^ 64)
        = none) ∧
    FreshCreates cs (ApplicationCall c.env c.ac c.header c.ad c.txnCounter c.steva w).2.2
/-- An opt-in to application 5. -/
def acOptIn5 : ApplicationCallTxnFields := ⟨5, OptInOC, [], [], [], ⟨0, 0⟩, ⟨0, 0⟩⟩

/-- A deletion of application 5. -/
def acDelete5 : ApplicationCallTxnFields := ⟨5, DeleteApplicationOC, [], [], [], ⟨0, 0⟩, ⟨0, 0⟩⟩

/-- Account 7 creates application 5, account 3 opts in and closes out, and
account 7 deletes the application. -/
def lifecycleCalls : List Call :=
  [ ⟨env0, acCreate, ⟨7⟩, some ⟨0, EvalDelta.zero⟩, 4, stevaPass 0 globalA⟩,
    ⟨env0, acOptIn5, ⟨3⟩, some ⟨0, EvalDelta.zero⟩, 5, stevaPass 0 EvalDelta.zero⟩,
    ⟨env0, acCloseOut5, ⟨3⟩, some ⟨0, EvalDelta.zero⟩, 6, stevaPass 0 EvalDelta.zero⟩,
    ⟨env0, acDelete5, ⟨7⟩, some ⟨0, EvalDelta.zero⟩, 7, stevaPass 0 EvalDelta.zero⟩ ]

/-- Account 1, which holds application 5, makes a create call with
transaction counter 4. -/
def collidingCreate : List Call :=
  [ ⟨env0, acCreate, ⟨1⟩, some ⟨0, EvalDelta.zero⟩, 4, stevaPass 0 EvalDelta.zero⟩ ]

/-- The value that a recognised action leaves at its key: the typed uint of
`SetUintAction`, the typed byte string of `SetBytesAction`, nothing for
`DeleteAction`. -/
def deltaValue (vd : ValueDelta) : Option TealValue :=
  if vd.Action = SetUintAction then some ⟨TealType.TealUintType, [], vd.Uint⟩
  else if vd.Action = SetBytesAction then some ⟨TealType.TealBytesType, vd.Bytes, 0⟩
  else none

/-- Store with one uint key. -/
def kvA : KVMap := GoMap.empty.insert "a" ⟨TealType.TealUintType, [], 7⟩

/-- Delta that sets a uint key, sets a byte-string key and deletes a key. -/
def deltaMixed : StateDelta :=
  ((GoMap.empty.insert "a" ⟨DeleteAction, [], 0⟩).insert "b" ⟨SetBytesAction, [1, 2], 0⟩).insert
    "c" ⟨SetUintAction, [], 9⟩

/-- Delta that deletes two keys. -/
def deltaDeletes : StateDelta :=
  (GoMap.empty.insert "x" ⟨DeleteAction, [], 0⟩).insert "y" ⟨DeleteAction, [], 0⟩

/-- Delta with an action that is not known. -/
def deltaUnknown : StateDelta := GoMap.empty.insert "a" ⟨0, [], 0⟩

/-- Environment in which an account may create one application. -/
def envOneApp : Env := { env0 with proto := ⟨1, 10, 700⟩ }

/-- The event is a call of the evaluator (`InitLedger`, `Check` or `Eval`). -/
def Event.isEvaluator : Event → Bool
  | Event.evInitLedger _ _ => true
  | Event.evCheck _ => true
  | Event.evEval _ => true
  | _ => false

/-- The evaluator calls of a trace. -/
def evaluatorEvents (t : List Event) : List Event := t.filter Event.isEvaluator

/-- An update call on application 9. -/
def acUpdate9 : ApplicationCallTxnFields :=
  ⟨9, UpdateApplicationOC, [], [1], [1], ⟨0, 0⟩, ⟨0, 0⟩⟩

/-- Environment whose converter rewrites the version byte of a program. -/
def envConvert : Env := { env0 with ConvertTo := fun p v => Except.ok (v :: p.tail) }

/-- An update call on application 5 with programs of version 3. -/
def acUpdate5v3 : ApplicationCallTxnFields :=
  ⟨5, UpdateApplicationOC, [], [3, 7], [3, 8], ⟨0, 0⟩, ⟨0, 0⟩⟩

/-- A create call with programs of version 3. -/
def acCreateV3 : ApplicationCallTxnFields := ⟨0, NoOpOC, [], [3, 7], [3, 8], ⟨1, 0⟩, ⟨1, 0⟩⟩

/-- The event is a storage write that carries a deleted locator. -/
def Event.isDeletion : Event → Bool
  | Event.evPutWithCreatable _ _ (some _) _ => true
  | _ => false

/-- The storage writes of a trace that carry a deleted locator. -/
def deletedWrites (t : List Event) : List Event := t.filter Event.isDeletion

/-- An update call on application 5 with new programs. -/
def acUpdate5 : ApplicationCallTxnFields :=
  ⟨5, UpdateApplicationOC, [], [2, 7], [2, 8], ⟨0, 0⟩, ⟨0, 0⟩⟩

/-- A create call whose completion action is UpdateApplication. -/
def acCreateUpdate : ApplicationCallTxnFields :=
  ⟨0, UpdateApplicationOC, [], [1], [1], ⟨1, 0⟩, ⟨1, 0⟩⟩

/-- The event is a call of the evaluator's `Check`. -/
def Event.isCheck : Event → Bool
  | Event.evCheck _ => true
  | _ => false

/-- The `Check` calls of a trace. -/
def checkEvents (t : List Event) : List Event := t.filter Event.isCheck

/-- The event is a call of the evaluator's `Eval`. -/
def Event.isEval : Event → Bool
  | Event.evEval _ => true
  | _ => false

/-- The `Eval` calls of a trace. -/
def evalEvents (t : List Event) : List Event := t.filter Event.isEval

/-- The event is a storage call that failed. -/
def Event.isFault : Event → Bool
  | Event.evGet _ false => true
  | Event.evGetCreator _ _ false => true
  | Event.evPut _ false => true
  | Event.evPutWithCreatable _ _ _ false => true
  | _ => false

/-- The failed storage calls of a trace. -/
def faultEvents (t : List Event) : List Event := t.filter Event.isFault

/-- Eval delta with a local delta for the sender and one for account index 5,
which the call does not reference; the delta of the sender is visited
first. -/
def localStagedUnresolved : EvalDelta :=
  ⟨GoMap.empty, (GoMap.empty.insert 5 deltaA).insert 0 deltaA⟩

/-- The call reaches the dispatch on the completion action: from the state
`w1` in which the target `appIdx` is resolved, `getAppParams` returns
`params` and `creator`, the application exists or the action is ClearState,
`InitLedger` returns nil, and the cost gate, when it is run, passes; `w4` is
the state in which the dispatch starts. -/
def ReachesDispatch (env : Env) (ac : ApplicationCallTxnFields) (steva : StateEvaluator)
    (appIdx : AppIndex) (w1 : World) (params : AppParams) (creator : Address) (w4 : World) :
    Prop :=
  ∃ (ex : Bool) (w2 : World),
    getAppParams env appIdx w1 = (Except.ok (params, creator, ex), w2) ∧
    (ex = true ∨ ac.OnCompletion = ClearStateOC) ∧
    steva.InitLedger w2.balances appIdx params.StateSchemas = none ∧
    (if ac.ApplicationID = 0 ∨ ac.OnCompletion = UpdateApplicationOC then
        checkPrograms ac steva env.proto.MaxAppProgramCost
          (w2.log (Event.evInitLedger appIdx params.StateSchemas))
      else (none, w2.log (Event.evInitLedger appIdx params.StateSchemas))) = (none, w4)

/-- The state `wE` in which the approval program is evaluated: the state
`w4` of the dispatch, or, when the action is OptIn, the state that
`applyOptIn` leaves when it returns nil. -/
def ApprovalState (env : Env) (ac : ApplicationCallTxnFields) (header : Header)
    (appIdx : AppIndex) (params : AppParams) (w4 wE : World) : Prop :=
  (if ac.OnCompletion = OptInOC then applyOptIn env header.Sender appIdx params w4
   else (none, w4)) = (none, wE)

/-- From the state `w4` of the dispatch `applyClearState` comes to the
clear-state program: `getAppParams` returns `pE`, `cE` and the flag `ex`, and
the record of the sender is read and holds local state of the application;
`wE` is the state after these reads, in which the program of an existing
application is evaluated. -/
def ClearStateReached (env : Env) (sender : Address) (appIdx : AppIndex) (w4 : World)
    (pE : AppParams) (cE : Address) (ex : Bool) (wE : World) : Prop :=
  ∃ (wc1 : World) (record : BalanceRecord),
    getAppParams env appIdx w4 = (Except.ok (pE, cE, ex), wc1) ∧
    Get env sender wc1 = (Except.ok record, wE) ∧
    (record.data.AppLocalStates.lookup appIdx).isSome = true

/-- The storage view `b` is the one that `createApplication` left: the call
is a create and `createApplication` returned without error. -/
def CreateWrote (env : Env) (ac : ApplicationCallTxnFields) (header : Header)
    (txnCounter : Nat) (w : World) (b : Balances) : Prop :=
  ac.ApplicationID = 0 ∧
    ∃ (appIdx : AppIndex) (w1 : World),
      createApplication env ac header.Sender txnCounter w = (Except.ok appIdx, w1) ∧
      b = w1.balances

/-- The storage view `b` is the one that `applyOptIn` left: the action is
OptIn, the call reached the dispatch and `applyOptIn` returned nil. -/
def OptInWrote (env : Env) (ac : ApplicationCallTxnFields) (header : Header)
    (txnCounter : Nat) (steva : StateEvaluator) (w : World) (b : Balances) : Prop :=
  ac.OnCompletion = OptInOC ∧
    ∃ (appIdx : AppIndex) (w1 : World) (params : AppParams) (creator : Address)
      (w4 w5 : World),
      (if ac.ApplicationID = 0 then createApplication env ac header.Sender txnCounter w
       else (Except.ok ac.ApplicationID, w)) = (Except.ok appIdx, w1) ∧
      ReachesDispatch env ac steva appIdx w1 params creator w4 ∧
      applyOptIn env header.Sender appIdx params w4 = (none, w5) ∧
      b = w5.balances

/-- The storage view `b` is the one that `applyEvalDelta` left: the call
reached the dispatch, the program it evaluated (the approval program, or the
clear-state program of a ClearState) passed with a non-empty eval delta, and
`applyEvalDelta` on that delta did not return a policy error. -/
def DeltaWrote (env : Env) (ac : ApplicationCallTxnFields) (header : Header)
    (txnCounter : Nat) (steva : StateEvaluator) (w : World) (b : Balances) : Prop :=
  ∃ (appIdx : AppIndex) (w1 : World) (params : AppParams) (creator : Address) (w4 : World),
    (if ac.ApplicationID = 0 then createApplication env ac header.Sender txnCounter w
     else (Except.ok ac.ApplicationID, w)) = (Except.ok appIdx, w1) ∧
    ReachesDispatch env ac steva appIdx w1 params creator w4 ∧
    ((ac.OnCompletion ≠ ClearStateOC ∧
        ∃ (wE : World) (d : EvalDelta),
          ApprovalState env ac header appIdx params w4 wE ∧
          steva.Eval wE.balances params.ApprovalProgram = (true, d, none) ∧
          d.isEmpty = false ∧
          isApplyError (applyEvalDelta env ac d params creator header.Sender appIdx
            (wE.log (Event.evEval params.ApprovalProgram))).1 = false ∧
          b = (applyEvalDelta env ac d params creator header.Sender appIdx
            (wE.log (Event.evEval params.ApprovalProgram))).2.balances) ∨
      (ac.OnCompletion = ClearStateOC ∧
        ∃ (pE : AppParams) (cE : Address) (wE : World) (d : EvalDelta),
          ClearStateReached env header.Sender appIdx w4 pE cE true wE ∧
          steva.Eval wE.balances pE.ClearStateProgram = (true, d, none) ∧
          d.isEmpty = false ∧
          isApplyError (applyEvalDelta env ac d pE cE header.Sender appIdx
            (wE.log (Event.evEval pE.ClearStateProgram))).1 = false ∧
          b = (applyEvalDelta env ac d pE cE header.Sender appIdx
            (wE.log (Event.evEval pE.ClearStateProgram))).2.balances))

/-- Environment in which an account may opt in to no application. -/
def envNoOptIn : Env := { env0 with proto := ⟨10, 0, 700⟩ }

/-! ## Theorems -/

/-! ## Frame of the reads and of the staging loop -/

theorem NoPut.refl (w : World) : NoPut w w := ⟨rfl, rfl⟩

theorem NoPut.trans {a b c : World} (h1 : NoPut a b) (h2 : NoPut b c) : NoPut a c :=
  ⟨h2.1.trans h1.1, h2.2.trans h1.2⟩

theorem Get_noPut (env : Env) (addr : Address) (w : World) : NoPut w (Get env addr w).2 := by
  unfold Get
  split <;> exact ⟨rfl, rfl⟩

theorem Get_error_external (env : Env) (addr : Address) (w : World) (err : Error)
    (h : (Get env addr w).1 = Except.error err) : isApplyError (some err) = false := by
  unfold Get at h
  split at h
  · simp at h; subst h; rfl
  · simp at h

theorem Put_error_external (env : Env) (r : BalanceRecord) (w : World) (err : Error)
    (h : (Put env r w).1 = some err) : isApplyError (some err) = false := by
  unfold Put at h
  split at h
  · simp at h; subst h; rfl
  · simp at h

theorem applyEvalDeltaStage_noPut (env : Env) (ac : ApplicationCallTxnFields) (sender : Address)
    (appIdx : AppIndex) :
    ∀ (l : List (Nat × StateDelta)) (changes : GoMap Address AppLocalState) (w : World),
      NoPut w (applyEvalDeltaStage env ac sender appIdx l changes w).2
  | [], _, w => NoPut.refl w
  | (accountIdx, delta) :: rest, changes, w => by
    unfold applyEvalDeltaStage
    have hG := Get_noPut env
    split
    · exact NoPut.refl w
    · split
      · exact NoPut.refl w
      · split
        · exact NoPut.refl w
        · split
          · exact NoPut.refl w
          · rename_i addr _ _ _ _
            split
            · rename_i err w1 heq
              have := hG addr w; rw [heq] at this; exact this
            · rename_i record w1 heq
              have h1 := hG addr w; rw [heq] at h1
              split
              · exact h1
              · split
                · exact h1
                · split
                  · exact h1
                  · exact h1.trans (applyEvalDeltaStage_noPut env ac sender appIdx rest _ w1)

theorem applyEvalDeltaWriteGlobal_error (env : Env) (evalDelta : EvalDelta) (params : AppParams)
    (creator : Address) (appIdx : AppIndex) (w : World) (err : Error)
    (h : (applyEvalDeltaWriteGlobal env evalDelta params creator appIdx w).1 = some err) :
    isApplyError (some err) = false := by
  unfold applyEvalDeltaWriteGlobal at h
  split at h
  · split at h
    · rename_i e w1 heq
      simp at h; subst h
      exact Get_error_external env creator w e (by rw [heq])
    · exact Put_error_external env _ _ err h
  · simp at h

theorem applyEvalDeltaWriteLocal_error (env : Env) (appIdx : AppIndex) :
    ∀ (l : List (Address × AppLocalState)) (w : World) (err : Error),
      (applyEvalDeltaWriteLocal env appIdx l w).1 = some err → isApplyError (some err) = false
  | [], w, err => by simp [applyEvalDeltaWriteLocal]
  | (addr, ls) :: rest, w, err => by
    unfold applyEvalDeltaWriteLocal
    split
    · rename_i e w1 heq
      intro h; simp at h; subst h
      exact Get_error_external env addr w e (by rw [heq])
    · dsimp only
      split
      · rename_i e w2 heq
        intro h; simp at h; subst h
        exact Put_error_external env _ _ e (by rw [heq])
      · exact applyEvalDeltaWriteLocal_error env appIdx rest _ err

/-! ## C1 -/

/-- C1. Atomicity of `applyEvalDelta` under policy failure: whenever
`applyEvalDelta` returns an error for which `isApplyError` is true, whatever
the global delta and the local deltas of any number of accounts are, no
storage write has been issued during the call and the storage view (the
record of every account and the creator index) is the one before the call. -/
theorem applyEvalDelta_policy_error_atomic (env : Env) (ac : ApplicationCallTxnFields)
    (evalDelta : EvalDelta) (params : AppParams) (creator sender : Address)
    (appIdx : AppIndex) (w : World)
    (h : isApplyError (applyEvalDelta env ac evalDelta params creator sender appIdx w).1 = true) :
    (applyEvalDelta env ac evalDelta params creator sender appIdx w).2.balances = w.balances ∧
    putEvents (applyEvalDelta env ac evalDelta params creator sender appIdx w).2.trace
      = putEvents w.trace := by
  unfold applyEvalDelta at h ⊢
  split
  · exact ⟨rfl, rfl⟩
  · rename_i params1 hg
    simp only [hg] at h
    have hS := applyEvalDeltaStage_noPut env ac sender appIdx evalDelta.LocalDeltas.entries
      GoMap.empty w
    split
    · rename_i e w1 heq
      rw [heq] at hS; exact hS
    · rename_i changes w1 heq
      simp only [heq] at h
      split
      · rename_i e w2 heq2
        simp only [heq2] at h
        have := applyEvalDeltaWriteGlobal_error env evalDelta params1 creator appIdx w1 e
          (by rw [heq2])
        rw [this] at h; exact absurd h (by simp)
      · rename_i w2 heq2
        simp only [heq2] at h
        cases hL : (applyEvalDeltaWriteLocal env appIdx
            (env.rangeChanges changes.entries) w2).1 with
        | none => rw [hL] at h; simp [isApplyError] at h
        | some e =>
          have := applyEvalDeltaWriteLocal_error env appIdx
            (env.rangeChanges changes.entries) w2 e hL
          rw [hL, this] at h; exact absurd h (by simp)

/-- C1 at a concrete input: the delta of account 7 is applied and staged, the
delta of the sender fails its policy check, and nothing is written. -/
theorem applyEvalDelta_policy_error_atomic_witness :
    isApplyError (applyEvalDelta env0 acNoOp5
      ⟨GoMap.empty, (GoMap.empty.insert 0 deltaA).insert 1 deltaA⟩ params5 1 3 5 w5).1 = true ∧
    (applyEvalDelta env0 acNoOp5
      ⟨GoMap.empty, (GoMap.empty.insert 0 deltaA).insert 1 deltaA⟩ params5 1 3 5 w5).2.balances
        = w5.balances ∧
    putEvents (applyEvalDelta env0 acNoOp5
      ⟨GoMap.empty, (GoMap.empty.insert 0 deltaA).insert 1 deltaA⟩ params5 1 3 5 w5).2.trace
        = putEvents w5.trace :=
  ⟨by decide, applyEvalDelta_policy_error_atomic env0 acNoOp5
      ⟨GoMap.empty, (GoMap.empty.insert 0 deltaA).insert 1 deltaA⟩ params5 1 3 5 w5 (by decide)⟩

/-! ## C4 -/

/-- C4. Empty effects record on failure: whenever `ApplicationCall` is called
with a non-nil `ad` and returns a non-nil error, on whatever path, the
`EvalDelta` of `ad` is the empty `EvalDelta` when the call returns, whatever
it held at entry. -/
theorem ApplicationCall_error_resets_evalDelta (env : Env) (ac : ApplicationCallTxnFields)
    (header : Header) (ad0 : ApplyData) (txnCounter : Nat) (steva : StateEvaluator) (w : World)
    (h : (ApplicationCall env ac header (some ad0) txnCounter steva w).1 ≠ none) :
    ∃ ad1, (ApplicationCall env ac header (some ad0) txnCounter steva w).2.1 = some ad1 ∧
      ad1.EvalDelta = EvalDelta.zero := by
  unfold ApplicationCall at h ⊢
  dsimp only at h ⊢
  split
  · exact ⟨_, rfl, rfl⟩
  · rename_i ad1 w1 heq
    rw [heq] at h
    exact absurd rfl h

/-- C4 at a concrete input: a create call that fails at the cost gate, entered
with a non-empty `EvalDelta` in `ad`. -/
theorem ApplicationCall_error_resets_evalDelta_witness :
    (ApplicationCall env0 acCreate ⟨7⟩ (some ⟨0, globalA⟩) 4 (stevaPass 701 globalA) w0).1
      ≠ none ∧
    ∃ ad1, (ApplicationCall env0 acCreate ⟨7⟩ (some ⟨0, globalA⟩) 4
        (stevaPass 701 globalA) w0).2.1 = some ad1 ∧
      ad1.EvalDelta = EvalDelta.zero :=
  ⟨by decide, ApplicationCall_error_resets_evalDelta env0 acCreate ⟨7⟩ ⟨0, globalA⟩ 4
      (stevaPass 701 globalA) w0 (by decide)⟩

/-! ## Frame of the other reads and of the evaluator calls -/

theorem GetCreator_noPut (env : Env) (cidx : Nat) (ctype : CreatableType) (w : World) :
    NoPut w (GetCreator env cidx ctype w).2 := by
  unfold GetCreator
  split
  · exact ⟨rfl, rfl⟩
  · split <;> exact ⟨rfl, rfl⟩

theorem GetCreator_error_external (env : Env) (cidx : Nat) (ctype : CreatableType) (w : World)
    (err : Error) (h : (GetCreator env cidx ctype w).1 = Except.error err) :
    isApplyError (some err) = false := by
  unfold GetCreator at h
  split at h
  · simp at h; subst h; rfl
  · split at h <;> simp at h

theorem getAppParams_noPut (env : Env) (aidx : AppIndex) (w : World) :
    NoPut w (getAppParams env aidx w).2 := by
  unfold getAppParams
  have hC := GetCreator_noPut env aidx CreatableType.AppCreatable w
  split
  · rename_i heq; rw [heq] at hC; exact hC
  · rename_i heq; rw [heq] at hC; exact hC
  · rename_i creator w1 heq
    rw [heq] at hC
    have hG := Get_noPut env creator w1
    split
    · rename_i heq2; rw [heq2] at hG; exact hC.trans hG
    · rename_i heq2; rw [heq2] at hG
      split <;> exact hC.trans hG

theorem getAppParams_error (env : Env) (aidx : AppIndex) (w : World) (err : Error)
    (h : (getAppParams env aidx w).1 = Except.error err) : isApplyError (some err) = false := by
  unfold getAppParams at h
  split at h
  · rename_i e w1 heq
    simp at h; subst h
    exact GetCreator_error_external env _ _ w e (by rw [heq])
  · simp at h
  · rename_i creator w1 heq
    split at h
    · rename_i e w2 heq2
      simp at h; subst h
      exact Get_error_external env creator w1 e (by rw [heq2])
    · split at h
      · simp at h; subst h; rfl
      · simp at h

theorem callEval_noPut (steva : StateEvaluator) (p : Program) (w : World) :
    NoPut w (steva.callEval p w).2 := ⟨rfl, rfl⟩

theorem callCheck_noPut (steva : StateEvaluator) (p : Program) (w : World) :
    NoPut w (steva.callCheck p w).2 := ⟨rfl, rfl⟩

theorem callInitLedger_noPut (steva : StateEvaluator) (a : AppIndex) (s : StateSchemas)
    (w : World) : NoPut w (steva.callInitLedger a s w).2 := ⟨rfl, rfl⟩

theorem checkPrograms_noPut (ac : ApplicationCallTxnFields) (steva : StateEvaluator)
    (maxCost : Int) (w : World) : NoPut w (checkPrograms ac steva maxCost w).2 := by
  unfold checkPrograms
  have h1 := callCheck_noPut steva ac.ApprovalProgram w
  split
  · rename_i heq; rw [heq] at h1; exact h1
  · rename_i cost w1 heq
    rw [heq] at h1
    split
    · exact h1
    · have h2 := callCheck_noPut steva ac.ClearStateProgram w1
      split
      · rename_i heq2; rw [heq2] at h2; exact h1.trans h2
      · rename_i heq2; rw [heq2] at h2
        split <;> exact h1.trans h2

theorem checkPrograms_error (ac : ApplicationCallTxnFields) (steva : StateEvaluator)
    (maxCost : Int) (w : World) (err : Error)
    (h : (checkPrograms ac steva maxCost w).1 = some err) : isApplyError (some err) = false := by
  unfold checkPrograms at h
  split at h
  · simp at h; subst h; rfl
  · split at h
    · simp at h; subst h; rfl
    · split at h
      · simp at h; subst h; rfl
      · split at h
        · simp at h; subst h; rfl
        · simp at h

theorem Put_error_bal (env : Env) (r : BalanceRecord) (w : World) (err : Error)
    (h : (Put env r w).1 = some err) : (Put env r w).2.balances = w.balances := by
  unfold Put at h ⊢
  split
  · rfl
  · rename_i heq; rw [heq] at h; simp at h

theorem PutWithCreatable_error_bal (env : Env) (r : BalanceRecord)
    (c d : Option CreatableLocator) (w : World) (err : Error)
    (h : (PutWithCreatable env r c d w).1 = some err) :
    (PutWithCreatable env r c d w).2.balances = w.balances ∧
      isApplyError (some err) = false := by
  unfold PutWithCreatable at h ⊢
  split
  · rename_i heq; rw [heq] at h; simp at h; subst h; exact ⟨rfl, rfl⟩
  · rename_i heq; rw [heq] at h; simp at h

theorem applyEvalDelta_empty (env : Env) (ac : ApplicationCallTxnFields)
    (d : EvalDelta) (params : AppParams) (creator sender : Address) (appIdx : AppIndex)
    (w : World) (hd : d.isEmpty = true) :
    applyEvalDelta env ac d params creator sender appIdx w = (none, w) := by
  simp only [EvalDelta.isEmpty, Bool.and_eq_true, decide_eq_true_eq] at hd
  obtain ⟨hg, hl⟩ := hd
  have hl2 : d.LocalDeltas.entries = [] := List.length_eq_zero.mp hl
  have hg2 : ¬ (d.GlobalDelta.len > 0) := by omega
  have hnil : env.rangeChanges [] = [] := List.Perm.eq_nil (env.rangeChanges_perm [])
  simp [applyEvalDelta, applyEvalDeltaGlobal, hg2, hl2, applyEvalDeltaStage,
    applyEvalDeltaWriteGlobal, applyEvalDeltaWriteLocal, GoMap.empty, hnil]

/-! ## Failures of the writing steps leave the storage view as it was -/

theorem Put_errFrame (env : Env) (r : BalanceRecord) (w0 w : World)
    (hw : w.balances = w0.balances) :
    ∀ err, (Put env r w).1 = some err →
      (Put env r w).2.balances = w0.balances ∧ isApplyError (some err) = false :=
  fun err h => ⟨(Put_error_bal env r w err h).trans hw, Put_error_external env r w err h⟩

theorem ApplicationCallCompletion_error (env : Env) (ac : ApplicationCallTxnFields)
    (header : Header) (creator : Address) (appIdx : AppIndex) (w : World) :
    ∀ err, (ApplicationCallCompletion env ac header creator appIdx w).1 = some err →
      (ApplicationCallCompletion env ac header creator appIdx w).2.balances = w.balances ∧
        isApplyError (some err) = false := by
  unfold ApplicationCallCompletion
  split
  · intro err h; simp at h
  split
  · intro err h; simp at h
  split
  · have hG := Get_noPut env header.Sender w
    split
    · rename_i e w1 heq
      rw [heq] at hG
      intro err h; simp at h; subst h
      exact ⟨hG.1, Get_error_external env _ w e (by rw [heq])⟩
    · rename_i record w1 heq
      rw [heq] at hG
      split
      · intro err h; simp at h; subst h; exact ⟨hG.1, rfl⟩
      · exact Put_errFrame env _ w w1 hG.1
  split
  · have hG := Get_noPut env creator w
    split
    · rename_i e w1 heq
      rw [heq] at hG
      intro err h; simp at h; subst h
      exact ⟨hG.1, Get_error_external env _ w e (by rw [heq])⟩
    · rename_i record w1 heq
      rw [heq] at hG
      intro err h
      have := PutWithCreatable_error_bal env _ _ _ w1 err h
      exact ⟨this.1.trans hG.1, this.2⟩
  split
  · have hG := Get_noPut env creator w
    split
    · rename_i e w1 heq
      rw [heq] at hG
      intro err h; simp at h; subst h
      exact ⟨hG.1, Get_error_external env _ w e (by rw [heq])⟩
    · rename_i record w1 heq
      rw [heq] at hG
      exact Put_errFrame env _ w w1 hG.1
  · intro err h; simp at h; subst h; exact ⟨rfl, rfl⟩

theorem applyClearStateFinish_error (env : Env) (record : BalanceRecord) (appIdx : AppIndex)
    (w0 w : World) (hw : w.balances = w0.balances) :
    ∀ err, (applyClearStateFinish env record appIdx w).1 = some err →
      (applyClearStateFinish env record appIdx w).2.balances = w0.balances ∧
        isApplyError (some err) = false := by
  unfold applyClearStateFinish
  exact Put_errFrame env _ w0 w hw

theorem applyOptIn_error (env : Env) (sender : Address) (appIdx : AppIndex) (params : AppParams)
    (w : World) :
    ∀ err, (applyOptIn env sender appIdx params w).1 = some err →
      (applyOptIn env sender appIdx params w).2.balances = w.balances ∧
        isApplyError (some err) = false := by
  unfold applyOptIn
  have hG := Get_noPut env sender w
  split
  · rename_i e w1 heq
    rw [heq] at hG
    intro err h; simp at h; subst h
    exact ⟨hG.1, Get_error_external env _ w e (by rw [heq])⟩
  · rename_i record w1 heq
    rw [heq] at hG
    split
    · intro err h; simp at h; subst h; exact ⟨hG.1, rfl⟩
    · dsimp only
      split
      · intro err h; simp at h; subst h; exact ⟨hG.1, rfl⟩
      · exact Put_errFrame env _ w w1 hG.1

/-! ## Failing calls and the storage view -/

theorem applyEvalDelta_applyError_noPut (env : Env) (ac : ApplicationCallTxnFields)
    (evalDelta : EvalDelta) (params : AppParams) (creator sender : Address)
    (appIdx : AppIndex) (w : World)
    (h : isApplyError (applyEvalDelta env ac evalDelta params creator sender appIdx w).1 = true) :
    NoPut w (applyEvalDelta env ac evalDelta params creator sender appIdx w).2 := by
  unfold applyEvalDelta at h ⊢
  split
  · exact ⟨rfl, rfl⟩
  · rename_i params1 hg
    simp only [hg] at h
    have hS := applyEvalDeltaStage_noPut env ac sender appIdx evalDelta.LocalDeltas.entries
      GoMap.empty w
    split
    · rename_i e w1 heq
      rw [heq] at hS; exact hS
    · rename_i changes w1 heq
      simp only [heq] at h
      split
      · rename_i e w2 heq2
        simp only [heq2] at h
        have := applyEvalDeltaWriteGlobal_error env evalDelta params1 creator appIdx w1 e
          (by rw [heq2])
        rw [this] at h; exact absurd h (by simp)
      · rename_i w2 heq2
        simp only [heq2] at h
        cases hL : (applyEvalDeltaWriteLocal env appIdx
            (env.rangeChanges changes.entries) w2).1 with
        | none => rw [hL] at h; simp [isApplyError] at h
        | some e =>
          have := applyEvalDeltaWriteLocal_error env appIdx
            (env.rangeChanges changes.entries) w2 e hL
          rw [hL, this] at h; exact absurd h (by simp)

/-! ## Storage calls without faults -/

theorem World.log_balances (w : World) (e : Event) : (w.log e).balances = w.balances := rfl

theorem World.log_trace (w : World) (e : Event) : (w.log e).trace = e :: w.trace := rfl

theorem Get_ok (env : Env) (hf : ∀ t, env.fault t = none) (addr : Address) (w : World) :
    Get env addr w
      = (Except.ok ⟨addr, w.balances.accts addr⟩, w.log (Event.evGet addr true)) := by
  simp [Get, hf]

theorem Put_ok (env : Env) (hf : ∀ t, env.fault t = none) (r : BalanceRecord) (w : World) :
    Put env r w
      = (none, { balances := { w.balances with
                   accts := Function.update w.balances.accts r.Addr r.data },
                 trace := Event.evPut r true :: w.trace }) := by
  simp [Put, hf]

theorem getAppParams_ok_exists (env : Env) (hf : ∀ t, env.fault t = none) (aidx : AppIndex)
    (w : World) (c : Address) (p : AppParams)
    (hc : w.balances.creators CreatableType.AppCreatable aidx = some c)
    (hp : (w.balances.accts c).AppParams.lookup aidx = some p) :
    getAppParams env aidx w
      = (Except.ok (p, c, true),
          (w.log (Event.evGetCreator aidx CreatableType.AppCreatable true)).log
            (Event.evGet c true)) := by
  simp [getAppParams, GetCreator, Get, hf, hc, hp, World.log]

theorem applyClearStateFinish_ok (env : Env) (hf : ∀ t, env.fault t = none)
    (record : BalanceRecord) (appIdx : AppIndex) (w : World) :
    applyClearStateFinish env record appIdx w
      = (none,
          { balances := { w.balances with
              accts := Function.update w.balances.accts record.Addr
                { record.data with
                  TotalAppSchema := record.data.TotalAppSchema.SubSchema
                    ((record.data.AppLocalStates.lookup appIdx).getD AppLocalState.zero).Schema,
                  AppLocalStates := record.data.AppLocalStates.erase appIdx } },
            trace := Event.evPut
              { record with data := { record.data with
                  TotalAppSchema := record.data.TotalAppSchema.SubSchema
                    ((record.data.AppLocalStates.lookup appIdx).getD AppLocalState.zero).Schema,
                  AppLocalStates := record.data.AppLocalStates.erase appIdx } } true
              :: w.trace }) := by
  simp [applyClearStateFinish, Put_ok env hf, cloneAppLocalStates]

theorem ApplicationCallBody_clear_exists (env : Env) (hf : ∀ t, env.fault t = none)
    (ac : ApplicationCallTxnFields) (header : Header) (ad : ApplyData) (txnCounter : Nat)
    (steva : StateEvaluator) (w : World) (c : Address) (p : AppParams)
    (hid : ac.ApplicationID ≠ 0) (hoc : ac.OnCompletion = ClearStateOC)
    (hc : w.balances.creators CreatableType.AppCreatable ac.ApplicationID = some c)
    (hp : (w.balances.accts c).AppParams.lookup ac.ApplicationID = some p)
    (hinit : steva.InitLedger w.balances ac.ApplicationID p.StateSchemas = none) :
    ApplicationCallBody env ac header ad txnCounter steva w
      = applyClearState env ac header.Sender ac.ApplicationID ad steva
          (((w.log (Event.evGetCreator ac.ApplicationID CreatableType.AppCreatable true)).log
            (Event.evGet c true)).log (Event.evInitLedger ac.ApplicationID p.StateSchemas)) := by
  have hu : ¬ (ClearStateOC = UpdateApplicationOC) := by decide
  simp [ApplicationCallBody, hid, hoc, getAppParams_ok_exists env hf _ w c p hc hp,
    StateEvaluator.callInitLedger, World.log_balances, hinit, hu]

theorem applyClearState_exists (env : Env) (hf : ∀ t, env.fault t = none)
    (ac : ApplicationCallTxnFields) (sender : Address) (appIdx : AppIndex) (ad ad1 : ApplyData)
    (steva : StateEvaluator) (w w3 : World) (ls : AppLocalState) (c : Address) (p : AppParams)
    (hc : w.balances.creators CreatableType.AppCreatable appIdx = some c)
    (hp : (w.balances.accts c).AppParams.lookup appIdx = some p)
    (hopt : (w.balances.accts sender).AppLocalStates.lookup appIdx = some ls)
    (hprog : applyClearStateProgram env ac sender appIdx ad steva p c
      (((w.log (Event.evGetCreator appIdx CreatableType.AppCreatable true)).log
        (Event.evGet c true)).log (Event.evGet sender true)) = (none, ad1, w3)) :
    applyClearState env ac sender appIdx ad steva w
      = (none, ad1,
          { balances := { w3.balances with
              accts := Function.update w3.balances.accts sender
                { (w3.balances.accts sender) with
                  TotalAppSchema := (w3.balances.accts sender).TotalAppSchema.SubSchema
                    (((w3.balances.accts sender).AppLocalStates.lookup appIdx).getD
                      AppLocalState.zero).Schema,
                  AppLocalStates := (w3.balances.accts sender).AppLocalStates.erase appIdx } },
            trace := Event.evPut ⟨sender,
                { (w3.balances.accts sender) with
                  TotalAppSchema := (w3.balances.accts sender).TotalAppSchema.SubSchema
                    (((w3.balances.accts sender).AppLocalStates.lookup appIdx).getD
                      AppLocalState.zero).Schema,
                  AppLocalStates := (w3.balances.accts sender).AppLocalStates.erase appIdx }⟩ true
              :: Event.evGet sender true :: w3.trace }) := by
  simp [applyClearState, getAppParams_ok_exists env hf _ w c p hc hp, Get_ok env hf,
    World.log_balances, hopt, hprog, applyClearStateFinish_ok env hf, World.log_trace]

/-! ## C6 -/

/-- C6. ClearState is best-effort under a schema violation: for a ClearState
call (`ApplicationID ≠ 0`) of an existing application whose record is held by
its creator, with the sender opted in, no storage fault and an initialised
evaluator, if the clear-state program passes with an eval delta on which
`applyEvalDelta` reports a policy error (such as a local or global store
that would exceed its schema), then `ApplicationCall` returns nil, the record
of the sender loses its local state of the application and its
`TotalAppSchema` is reduced by the schema of that local state, nothing else
in the storage view changes (no change of the delta reaches any global or
local store), and `ad` is as at entry: no eval delta is recorded. -/
theorem ApplicationCall_clearState_best_effort (env : Env) (ac : ApplicationCallTxnFields)
    (header : Header) (ad0 : ApplyData) (txnCounter : Nat) (steva : StateEvaluator) (w : World)
    (ls : AppLocalState) (c : Address) (p : AppParams) (d : EvalDelta)
    (hf : ∀ t, env.fault t = none)
    (hid : ac.ApplicationID ≠ 0) (hoc : ac.OnCompletion = ClearStateOC)
    (hc : w.balances.creators CreatableType.AppCreatable ac.ApplicationID = some c)
    (hp : (w.balances.accts c).AppParams.lookup ac.ApplicationID = some p)
    (hinit : steva.InitLedger w.balances ac.ApplicationID p.StateSchemas = none)
    (hopt : (w.balances.accts header.Sender).AppLocalStates.lookup ac.ApplicationID = some ls)
    (heval : steva.Eval w.balances p.ClearStateProgram = (true, d, none))
    (hviol : ∀ t, isApplyError (applyEvalDelta env ac d p c header.Sender ac.ApplicationID
      ⟨w.balances, t⟩).1 = true) :
    (ApplicationCall env ac header (some ad0) txnCounter steva w).1 = none ∧
    (ApplicationCall env ac header (some ad0) txnCounter steva w).2.2.balances.accts
      = Function.update w.balances.accts header.Sender
          { (w.balances.accts header.Sender) with
            TotalAppSchema :=
              (w.balances.accts header.Sender).TotalAppSchema.SubSchema ls.Schema,
            AppLocalStates :=
              (w.balances.accts header.Sender).AppLocalStates.erase ac.ApplicationID } ∧
    (ApplicationCall env ac header (some ad0) txnCounter steva w).2.2.balances.creators
      = w.balances.creators ∧
    (ApplicationCall env ac header (some ad0) txnCounter steva w).2.1 = some ad0 := by
  have hB := ApplicationCallBody_clear_exists env hf ac header ad0 txnCounter steva w c p hid hoc
    hc hp hinit
  have hv := hviol (Event.evEval p.ClearStateProgram :: Event.evGet header.Sender true ::
    Event.evGet c true ::
    Event.evGetCreator ac.ApplicationID CreatableType.AppCreatable true ::
    Event.evInitLedger ac.ApplicationID p.StateSchemas ::
    Event.evGet c true ::
    Event.evGetCreator ac.ApplicationID CreatableType.AppCreatable true :: w.trace)
  have hN := applyEvalDelta_applyError_noPut env ac d p c header.Sender ac.ApplicationID _ hv
  generalize hr : applyEvalDelta env ac d p c header.Sender ac.ApplicationID
    ⟨w.balances, Event.evEval p.ClearStateProgram :: Event.evGet header.Sender true ::
      Event.evGet c true ::
      Event.evGetCreator ac.ApplicationID CreatableType.AppCreatable true ::
      Event.evInitLedger ac.ApplicationID p.StateSchemas ::
      Event.evGet c true ::
      Event.evGetCreator ac.ApplicationID CreatableType.AppCreatable true :: w.trace⟩ = r
    at hv hN
  obtain ⟨e1, w4⟩ := r
  have hb4 : w4.balances = w.balances := hN.1
  have hP : applyClearStateProgram env ac header.Sender ac.ApplicationID ad0 steva p c
      ((((((w.log (Event.evGetCreator ac.ApplicationID CreatableType.AppCreatable true)).log
        (Event.evGet c true)).log (Event.evInitLedger ac.ApplicationID p.StateSchemas)).log
        (Event.evGetCreator ac.ApplicationID CreatableType.AppCreatable true)).log
        (Event.evGet c true)).log (Event.evGet header.Sender true)) = (none, ad0, w4) := by
    cases e1 with
    | none => simp [isApplyError] at hv
    | some e =>
      simp only [applyClearStateProgram, StateEvaluator.callEval, World.log_balances, heval,
        World.log, Option.map_none', Option.isNone_none, Bool.and_self, if_true, hr]
      simp at hv
      simp [hv]
  have hS := applyClearState_exists env hf ac header.Sender ac.ApplicationID ad0 ad0 steva
    (((w.log (Event.evGetCreator ac.ApplicationID CreatableType.AppCreatable true)).log
      (Event.evGet c true)).log (Event.evInitLedger ac.ApplicationID p.StateSchemas)) w4 ls c p
    hc hp hopt hP
  simp [ApplicationCall, hB, hS, hb4, hopt]

/-- C6 at a concrete input: application 5 allows one uint of local state and
the clear-state program of account 7 passes with a local delta of two uint
keys. -/
theorem ApplicationCall_clearState_best_effort_witness :
    (ApplicationCall env0 acClear5 ⟨7⟩ (some ⟨0, EvalDelta.zero⟩) 4
        (stevaPass 0 localAB) w5).1 = none ∧
    (ApplicationCall env0 acClear5 ⟨7⟩ (some ⟨0, EvalDelta.zero⟩) 4
        (stevaPass 0 localAB) w5).2.2.balances.accts
      = Function.update w5.balances.accts (⟨7⟩ : Header).Sender
          { (w5.balances.accts (⟨7⟩ : Header).Sender) with
            TotalAppSchema :=
              (w5.balances.accts (⟨7⟩ : Header).Sender).TotalAppSchema.SubSchema
                (⟨⟨1, 0⟩, none⟩ : AppLocalState).Schema,
            AppLocalStates :=
              (w5.balances.accts (⟨7⟩ : Header).Sender).AppLocalStates.erase
                acClear5.ApplicationID } ∧
    (ApplicationCall env0 acClear5 ⟨7⟩ (some ⟨0, EvalDelta.zero⟩) 4
        (stevaPass 0 localAB) w5).2.2.balances.creators = w5.balances.creators ∧
    (ApplicationCall env0 acClear5 ⟨7⟩ (some ⟨0, EvalDelta.zero⟩) 4
        (stevaPass 0 localAB) w5).2.1 = some ⟨0, EvalDelta.zero⟩ :=
  ApplicationCall_clearState_best_effort env0 acClear5 ⟨7⟩ ⟨0, EvalDelta.zero⟩ 4
    (stevaPass 0 localAB) w5 ⟨⟨1, 0⟩, none⟩ 1 params5 localAB
    (fun _ => rfl) (by decide) (by decide) (by decide) (by decide) (by decide) (by decide)
    (by decide) (fun _ => rfl)

/-! ## C7 -/

theorem aerase_cons {K V : Type} [DecidableEq K] (k a : K) (b : V) (tl : List (K × V)) :
    aerase k ((a, b) :: tl) = if a = k then aerase k tl else (a, b) :: aerase k tl := by
  by_cases h : a = k <;> simp [aerase, List.filter_cons, h]

theorem alookup_aerase_self {K V : Type} [DecidableEq K] (k : K) (l : List (K × V)) :
    alookup k (aerase k l) = none := by
  induction l with
  | nil => rfl
  | cons hd tl ih =>
    obtain ⟨a, b⟩ := hd
    rw [aerase_cons]
    by_cases h : a = k
    · rw [if_pos h]; exact ih
    · rw [if_neg h]; simp only [alookup, h, if_false]; exact ih

theorem alookup_aerase_ne {K V : Type} [DecidableEq K] (k k' : K) (h : k' ≠ k)
    (l : List (K × V)) : alookup k' (aerase k l) = alookup k' l := by
  induction l with
  | nil => rfl
  | cons hd tl ih =>
    obtain ⟨a, b⟩ := hd
    rw [aerase_cons]
    by_cases h1 : a = k
    · have h2 : a ≠ k' := fun h3 => h (h3.symm.trans h1)
      rw [if_pos h1]; simp only [alookup, h2, if_false]; exact ih
    · rw [if_neg h1]
      by_cases h2 : a = k'
      · simp only [alookup, h2, if_true]
      · simp only [alookup, h2, if_false]; exact ih

theorem alookup_of_not_mem_keys {K V : Type} [DecidableEq K] (k : K) (l : List (K × V))
    (h : k ∉ akeys l) : alookup k l = none := by
  induction l with
  | nil => rfl
  | cons hd tl ih =>
    simp only [akeys, List.map_cons, List.mem_cons, not_or] at h
    have h1 : hd.1 ≠ k := fun h2 => h.1 h2.symm
    simp only [alookup, h1, if_false]
    exact ih h.2

theorem akeys_perm_nodup {K V : Type} {l1 l2 : List (K × V)} (h : l1.Perm l2)
    (hnd : (akeys l2).Nodup) : (akeys l1).Nodup :=
  (List.Perm.nodup_iff (h.map Prod.fst)).mpr hnd

theorem alookup_perm {K V : Type} [DecidableEq K] (k : K) {l1 l2 : List (K × V)}
    (h : l1.Perm l2) (hnd : (akeys l1).Nodup) : alookup k l1 = alookup k l2 := by
  induction h with
  | nil => rfl
  | cons x _ ih =>
    obtain ⟨a, b⟩ := x
    simp only [akeys, List.map_cons, List.nodup_cons] at hnd
    simp only [alookup]
    rw [ih hnd.2]
  | swap x y l =>
    obtain ⟨a, b⟩ := x
    obtain ⟨c, d⟩ := y
    simp only [akeys, List.map_cons, List.nodup_cons, List.mem_cons, not_or] at hnd
    simp only [alookup]
    by_cases h1 : c = k
    · have h2 : a ≠ k := fun h3 => hnd.1.1 (h1.trans h3.symm)
      simp [h1, h2]
    · simp [h1]
  | trans p1 _ ih1 ih2 =>
    rw [ih1 hnd, ih2 (akeys_perm_nodup p1.symm hnd)]

theorem GoMap.lookup_empty {K V : Type} [DecidableEq K] (k : K) :
    (GoMap.empty : GoMap K V).lookup k = none := rfl

theorem GoMap.lookup_insert_self {K V : Type} [DecidableEq K] (m : GoMap K V) (k : K) (v : V) :
    (m.insert k v).lookup k = some v := by
  simp [GoMap.lookup, GoMap.insert, alookup]

theorem GoMap.lookup_insert_ne {K V : Type} [DecidableEq K] (m : GoMap K V) (k k' : K) (v : V)
    (h : k' ≠ k) : (m.insert k v).lookup k' = m.lookup k' := by
  have h1 : k ≠ k' := fun h2 => h h2.symm
  simp [GoMap.lookup, GoMap.insert, alookup, h1, alookup_aerase_ne k k' h]

theorem GoMap.lookup_erase_self {K V : Type} [DecidableEq K] (m : GoMap K V) (k : K) :
    (m.erase k).lookup k = none := by
  simp [GoMap.lookup, GoMap.erase, alookup_aerase_self]

theorem GoMap.lookup_erase_ne {K V : Type} [DecidableEq K] (m : GoMap K V) (k k' : K)
    (h : k' ≠ k) : (m.erase k).lookup k' = m.lookup k' := by
  simp [GoMap.lookup, GoMap.erase, alookup_aerase_ne k k' h]

/-! ## Successful storage calls -/

theorem Get_ok_inv (env : Env) (addr : Address) (w w1 : World) (record : BalanceRecord)
    (h : Get env addr w = (Except.ok record, w1)) :
    record = ⟨addr, w.balances.accts addr⟩ ∧ w1.balances = w.balances := by
  unfold Get at h
  split at h
  · simp at h
  · simp only [Prod.mk.injEq, Except.ok.injEq] at h
    exact ⟨h.1.symm, by rw [← h.2]; rfl⟩

theorem Put_none_inv (env : Env) (r : BalanceRecord) (w w1 : World)
    (h : Put env r w = (none, w1)) :
    w1.balances = { w.balances with
      accts := Function.update w.balances.accts r.Addr r.data } := by
  unfold Put at h
  split at h
  · simp at h
  · simp only [Prod.mk.injEq, true_and] at h
    rw [← h]

theorem PutWithCreatable_none_inv (env : Env) (r : BalanceRecord)
    (c d : Option CreatableLocator) (w w1 : World)
    (h : PutWithCreatable env r c d w = (none, w1)) :
    w1.balances = { accts := Function.update w.balances.accts r.Addr r.data,
                    creators := updCreators w.balances.creators c d } := by
  unfold PutWithCreatable at h
  split at h
  · simp at h
  · simp only [Prod.mk.injEq, true_and] at h
    rw [← h]
/-! ## What the staging loop has checked when it succeeds -/

theorem applyEvalDeltaStage_ok (env : Env) (ac : ApplicationCallTxnFields) (sender : Address)
    (appIdx : AppIndex) :
    ∀ (l : List (Nat × StateDelta)) (changes : GoMap Address AppLocalState) (w : World)
      (changes' : GoMap Address AppLocalState) (w' : World),
      applyEvalDeltaStage env ac sender appIdx l changes w = (Except.ok changes', w') →
      (∀ idx delta, (idx, delta) ∈ l →
        ∃ addr ls0, ac.AddressByIndex idx sender = Except.ok addr ∧
          (w.balances.accts addr).AppLocalStates.lookup appIdx = some ls0 ∧
          changes'.lookup addr = some (stagedLocalState ls0 delta) ∧
          (applyStateDelta (allocKV ls0.KeyValue) delta).2 = none ∧
          SatisfiesSchema (stagedLocalState ls0 delta).KeyValue ls0.Schema = true ∧
          delta.len ≠ 0 ∧
          changes.lookup addr = none) ∧
      (∀ a, (∀ idx delta, (idx, delta) ∈ l → ac.AddressByIndex idx sender ≠ Except.ok a) →
        changes'.lookup a = changes.lookup a) ∧
      (∀ a x, changes.lookup a = some x → changes'.lookup a = some x)
  | [], changes, w, changes', w' => by
    intro h
    simp only [applyEvalDeltaStage, Prod.mk.injEq, Except.ok.injEq] at h
    obtain ⟨h1, _⟩ := h
    subst h1
    exact ⟨fun _ _ hm => absurd hm (List.not_mem_nil _), fun _ _ => rfl, fun _ _ hx => hx⟩
  | (accountIdx, delta) :: rest, changes, w, changes', w' => by
    unfold applyEvalDeltaStage
    split
    · intro h; simp at h
    rename_i addr hres
    split
    · intro h; simp at h
    rename_i hdup
    split
    · intro h; simp at h
    rename_i hlen
    split
    · intro h; simp at h
    split
    · intro h; simp at h
    rename_i record w1 hget
    obtain ⟨hrec, hbal⟩ := Get_ok_inv env addr w w1 record hget
    split
    · intro h; simp at h
    rename_i localState hls
    split
    · intro h; simp at h
    rename_i kv hkv
    split
    · intro h; simp at h
    rename_i hsat
    intro h
    have hnone : changes.lookup addr = none := by
      cases hc : changes.lookup addr with
      | none => rfl
      | some x => rw [hc] at hdup; simp at hdup
    have hls0 : (w.balances.accts addr).AppLocalStates.lookup appIdx = some localState := by
      rw [hrec] at hls; exact hls
    have hst : stagedLocalState localState delta = { localState with KeyValue := kv } := by
      simp [stagedLocalState, hkv]
    have ih := applyEvalDeltaStage_ok env ac sender appIdx rest _ w1 changes' w' h
    obtain ⟨ih1, ih2, ih3⟩ := ih
    refine ⟨?_, ?_, ?_⟩
    · intro idx d hm
      rcases List.mem_cons.mp hm with hm | hm
      · simp only [Prod.mk.injEq] at hm
        obtain ⟨hi, hd⟩ := hm
        subst hi; subst hd
        refine ⟨addr, localState, hres, hls0, ?_, ?_, ?_, hlen, hnone⟩
        · rw [hst]; exact ih3 addr _ (GoMap.lookup_insert_self _ _ _)
        · rw [hkv]
        · rw [hst]; simpa using hsat
      · obtain ⟨a, ls0, h1, h2, h3, h4, h5, h6, h7⟩ := ih1 idx d hm
        rw [hbal] at h2
        have hne : a ≠ addr := by
          intro he
          rw [he, GoMap.lookup_insert_self] at h7
          simp at h7
        rw [GoMap.lookup_insert_ne _ _ _ _ hne] at h7
        exact ⟨a, ls0, h1, h2, h3, h4, h5, h6, h7⟩
    · intro a ha
      have hne : a ≠ addr := by
        intro he
        exact ha accountIdx delta (List.mem_cons_self _ _) (by rw [he]; exact hres)
      rw [ih2 a (fun idx d hm => ha idx d (List.mem_cons_of_mem _ hm)),
        GoMap.lookup_insert_ne _ _ _ _ hne]
    · intro a x hx
      have hne : a ≠ addr := by
        intro he
        rw [he, hnone] at hx
        simp at hx
      apply ih3
      rw [GoMap.lookup_insert_ne _ _ _ _ hne]
      exact hx
/-! ## The storage view after a successful `applyEvalDelta` -/

theorem applyEvalDeltaGlobal_ok (env : Env) (evalDelta : EvalDelta) (params params1 : AppParams) :
    applyEvalDeltaGlobal env evalDelta params = Except.ok params1 →
    (evalDelta.GlobalDelta.len > 0 →
      params1 = { params with GlobalState :=
        (applyStateDelta (allocKV params.GlobalState) evalDelta.GlobalDelta).1 } ∧
      (applyStateDelta (allocKV params.GlobalState) evalDelta.GlobalDelta).2 = none ∧
      SatisfiesSchema params1.GlobalState params1.GlobalStateSchema = true) ∧
    (¬ evalDelta.GlobalDelta.len > 0 → params1 = params) := by
  unfold applyEvalDeltaGlobal
  split
  · rename_i hlen
    dsimp only
    split
    · intro h; simp at h
    split
    · intro h; simp at h
    rename_i kv hkv
    split
    · intro h; simp at h
    rename_i hsat
    intro h
    simp only [Except.ok.injEq] at h
    subst h
    refine ⟨fun _ => ⟨?_, ?_, ?_⟩, fun hn => absurd hlen hn⟩
    · rw [hkv]
    · rw [hkv]
    · simpa using hsat
  · rename_i hlen
    intro h
    simp only [Except.ok.injEq] at h
    exact ⟨fun hp => absurd hp hlen, fun _ => h.symm⟩

theorem applyEvalDeltaWriteGlobal_ok (env : Env) (evalDelta : EvalDelta) (params1 : AppParams)
    (creator : Address) (appIdx : AppIndex) (w w' : World) :
    applyEvalDeltaWriteGlobal env evalDelta params1 creator appIdx w = (none, w') →
    w'.balances.creators = w.balances.creators ∧
    ∀ a, w'.balances.accts a
      = writeGlobalRecord evalDelta params1 creator appIdx a (w.balances.accts a) := by
  unfold applyEvalDeltaWriteGlobal
  split
  · rename_i hlen
    split
    · intro h; simp at h
    rename_i record w1 hget
    obtain ⟨hrec, hbal⟩ := Get_ok_inv env creator w w1 record hget
    subst hrec
    intro h
    have hp := Put_none_inv env _ w1 w' h
    rw [hp, hbal]
    refine ⟨rfl, fun a => ?_⟩
    by_cases ha : a = creator
    · subst ha
      simp [writeGlobalRecord, hlen, cloneAppParams]
    · have : ¬ (evalDelta.GlobalDelta.len > 0 ∧ a = creator) := fun h2 => ha h2.2
      simp [writeGlobalRecord, this, Function.update, ha]
  · rename_i hlen
    intro h
    simp only [Prod.mk.injEq, true_and] at h
    subst h
    have : ∀ a, ¬ (evalDelta.GlobalDelta.len > 0 ∧ a = creator) := fun a h2 => hlen h2.1
    exact ⟨rfl, fun a => by simp [writeGlobalRecord, this a]⟩

theorem applyEvalDeltaWriteLocal_ok (env : Env) (appIdx : AppIndex) :
    ∀ (l : List (Address × AppLocalState)) (w w' : World), (akeys l).Nodup →
      applyEvalDeltaWriteLocal env appIdx l w = (none, w') →
      w'.balances.creators = w.balances.creators ∧
      ∀ a, w'.balances.accts a = writeLocalRecord l appIdx a (w.balances.accts a)
  | [], w, w' => by
    intro _ h
    simp only [applyEvalDeltaWriteLocal, Prod.mk.injEq, true_and] at h
    subst h
    exact ⟨rfl, fun a => rfl⟩
  | (addr, ls1) :: rest, w, w' => by
    intro hnd
    unfold applyEvalDeltaWriteLocal
    split
    · intro h; simp at h
    rename_i record w1 hget
    obtain ⟨hrec, hbal⟩ := Get_ok_inv env addr w w1 record hget
    subst hrec
    dsimp only
    split
    · intro h; simp at h
    rename_i w2 hput
    have hp := Put_none_inv env _ w1 w2 hput
    intro h
    simp only [akeys, List.map_cons, List.nodup_cons] at hnd
    obtain ⟨ih1, ih2⟩ := applyEvalDeltaWriteLocal_ok env appIdx rest w2 w' hnd.2 h
    rw [hp, hbal] at ih1 ih2
    refine ⟨ih1, fun a => ?_⟩
    rw [ih2 a]
    by_cases ha : addr = a
    · subst ha
      have hno : alookup addr rest = none := alookup_of_not_mem_keys addr rest hnd.1
      simp [writeLocalRecord, hno, alookup, cloneAppLocalStates]
    · have ha2 : a ≠ addr := fun h2 => ha h2.symm
      simp [writeLocalRecord, alookup, ha, Function.update, ha2]

theorem applyEvalDelta_ok (env : Env) (ac : ApplicationCallTxnFields) (evalDelta : EvalDelta)
    (params : AppParams) (creator sender : Address) (appIdx : AppIndex) (w w' : World) :
    applyEvalDelta env ac evalDelta params creator sender appIdx w = (none, w') →
    ∃ (params1 : AppParams) (changes : GoMap Address AppLocalState) (w1 : World),
      applyEvalDeltaGlobal env evalDelta params = Except.ok params1 ∧
      applyEvalDeltaStage env ac sender appIdx evalDelta.LocalDeltas.entries GoMap.empty w
        = (Except.ok changes, w1) ∧
      w'.balances.creators = w.balances.creators ∧
      ∀ a, w'.balances.accts a
        = writeLocalRecord changes.entries appIdx a
            (writeGlobalRecord evalDelta params1 creator appIdx a (w.balances.accts a)) := by
  unfold applyEvalDelta
  split
  · intro h; simp at h
  rename_i params1 hg
  split
  · intro h; simp at h
  rename_i changes w1 hs
  have hS := applyEvalDeltaStage_noPut env ac sender appIdx evalDelta.LocalDeltas.entries
    GoMap.empty w
  rw [hs] at hS
  split
  · intro h; simp at h
  rename_i w2 hwg
  obtain ⟨g1, g2⟩ := applyEvalDeltaWriteGlobal_ok env evalDelta params1 creator appIdx w1 w2 hwg
  intro h
  have hperm := env.rangeChanges_perm changes.entries
  obtain ⟨l1, l2⟩ := applyEvalDeltaWriteLocal_ok env appIdx (env.rangeChanges changes.entries)
    w2 w' (akeys_perm_nodup hperm changes.nodup) h
  rw [hS.1] at g1 g2
  refine ⟨params1, changes, w1, hg, hs, l1.trans g1, fun a => ?_⟩
  rw [l2 a, g2 a]
  unfold writeLocalRecord
  rw [alookup_perm a hperm (akeys_perm_nodup hperm changes.nodup)]
theorem writeLocalRecord_fields (l : List (Address × AppLocalState)) (appIdx : AppIndex)
    (a : Address) (r : AccountData) :
    (writeLocalRecord l appIdx a r).AppParams = r.AppParams ∧
    (writeLocalRecord l appIdx a r).MicroAlgos = r.MicroAlgos ∧
    (writeLocalRecord l appIdx a r).TotalAppSchema = r.TotalAppSchema := by
  unfold writeLocalRecord
  split <;> exact ⟨rfl, rfl, rfl⟩

theorem writeGlobalRecord_fields (evalDelta : EvalDelta) (params1 : AppParams)
    (creator : Address) (appIdx : AppIndex) (a : Address) (r : AccountData) :
    (writeGlobalRecord evalDelta params1 creator appIdx a r).AppLocalStates = r.AppLocalStates ∧
    (writeGlobalRecord evalDelta params1 creator appIdx a r).MicroAlgos = r.MicroAlgos ∧
    (writeGlobalRecord evalDelta params1 creator appIdx a r).TotalAppSchema
      = r.TotalAppSchema := by
  unfold writeGlobalRecord
  split <;> exact ⟨rfl, rfl, rfl⟩

/-! ## C8 -/

/-- C8. Commit postcondition of `applyEvalDelta`: whenever `applyEvalDelta`
returns nil, called with the parameters that the creator holds for `appIdx`
when the global delta is not empty, then in the storage view after the call
(1) if the global delta is not empty, the creator holds for `appIdx` the same
parameters with the global store replaced by the result of `applyStateDelta`
on the prior global store (allocated if nil) with the global delta; (2) for
every local delta, the resolved address holds for `appIdx` its prior local
state with the store replaced by the result of `applyStateDelta` on the prior
store (allocated if nil) with that delta; (3) both hold of the same view,
also when the creator is one of the resolved addresses; (4) the creator
index, the `MicroAlgos` and `TotalAppSchema` of every account, every entry of
another application, the parameters of every account but the creator and the
local states of every address that no local delta resolves to are as before,
so every other account is unchanged. -/
theorem applyEvalDelta_commit_postcondition (env : Env) (ac : ApplicationCallTxnFields)
    (evalDelta : EvalDelta) (params : AppParams) (creator sender : Address)
    (appIdx : AppIndex) (w : World)
    (hret : (applyEvalDelta env ac evalDelta params creator sender appIdx w).1 = none)
    (hparams : evalDelta.GlobalDelta.len > 0 →
      (w.balances.accts creator).AppParams.lookup appIdx = some params) :
    (evalDelta.GlobalDelta.len > 0 →
      ∃ p0, (w.balances.accts creator).AppParams.lookup appIdx = some p0 ∧
        ((applyEvalDelta env ac evalDelta params creator sender appIdx w).2.balances.accts
            creator).AppParams.lookup appIdx
          = some { p0 with GlobalState :=
              (applyStateDelta (allocKV p0.GlobalState) evalDelta.GlobalDelta).1 }) ∧
    (∀ idx delta, (idx, delta) ∈ evalDelta.LocalDeltas.entries →
      ∃ addr ls0, ac.AddressByIndex idx sender = Except.ok addr ∧
        (w.balances.accts addr).AppLocalStates.lookup appIdx = some ls0 ∧
        ((applyEvalDelta env ac evalDelta params creator sender appIdx w).2.balances.accts
            addr).AppLocalStates.lookup appIdx
          = some { ls0 with KeyValue :=
              (applyStateDelta (allocKV ls0.KeyValue) delta).1 }) ∧
    (applyEvalDelta env ac evalDelta params creator sender appIdx w).2.balances.creators
      = w.balances.creators ∧
    (∀ a,
      ((applyEvalDelta env ac evalDelta params creator sender appIdx w).2.balances.accts
          a).MicroAlgos = (w.balances.accts a).MicroAlgos ∧
      ((applyEvalDelta env ac evalDelta params creator sender appIdx w).2.balances.accts
          a).TotalAppSchema = (w.balances.accts a).TotalAppSchema) ∧
    (∀ a i, i ≠ appIdx →
      ((applyEvalDelta env ac evalDelta params creator sender appIdx w).2.balances.accts
          a).AppParams.lookup i = (w.balances.accts a).AppParams.lookup i ∧
      ((applyEvalDelta env ac evalDelta params creator sender appIdx w).2.balances.accts
          a).AppLocalStates.lookup i = (w.balances.accts a).AppLocalStates.lookup i) ∧
    (∀ a, a ≠ creator ∨ evalDelta.GlobalDelta.len = 0 →
      ((applyEvalDelta env ac evalDelta params creator sender appIdx w).2.balances.accts
          a).AppParams = (w.balances.accts a).AppParams) ∧
    (∀ a, (∀ idx delta, (idx, delta) ∈ evalDelta.LocalDeltas.entries →
        ac.AddressByIndex idx sender ≠ Except.ok a) →
      ((applyEvalDelta env ac evalDelta params creator sender appIdx w).2.balances.accts
          a).AppLocalStates = (w.balances.accts a).AppLocalStates) ∧
    (∀ a, a ≠ creator →
      (∀ idx delta, (idx, delta) ∈ evalDelta.LocalDeltas.entries →
        ac.AddressByIndex idx sender ≠ Except.ok a) →
      (applyEvalDelta env ac evalDelta params creator sender appIdx w).2.balances.accts a
        = w.balances.accts a) := by
  rcases hr : applyEvalDelta env ac evalDelta params creator sender appIdx w with ⟨e, w'⟩
  rw [hr] at hret
  simp only at hret
  subst hret
  obtain ⟨params1, changes, w1, hg, hs, hcr, hacc⟩ :=
    applyEvalDelta_ok env ac evalDelta params creator sender appIdx w w' hr
  obtain ⟨g1, g2⟩ := applyEvalDeltaGlobal_ok env evalDelta params params1 hg
  obtain ⟨s1, s2, _⟩ := applyEvalDeltaStage_ok env ac sender appIdx
    evalDelta.LocalDeltas.entries GoMap.empty w changes w1 hs
  have hloc : ∀ a, (∀ idx delta, (idx, delta) ∈ evalDelta.LocalDeltas.entries →
      ac.AddressByIndex idx sender ≠ Except.ok a) →
      writeLocalRecord changes.entries appIdx a
          (writeGlobalRecord evalDelta params1 creator appIdx a (w.balances.accts a))
        = writeGlobalRecord evalDelta params1 creator appIdx a (w.balances.accts a) := by
    intro a ha
    have h0 := s2 a ha
    rw [GoMap.lookup_empty] at h0
    unfold GoMap.lookup at h0
    simp [writeLocalRecord, h0]
  have hglob : ∀ a, a ≠ creator ∨ evalDelta.GlobalDelta.len = 0 →
      writeGlobalRecord evalDelta params1 creator appIdx a (w.balances.accts a)
        = w.balances.accts a := by
    intro a ha
    have : ¬ (evalDelta.GlobalDelta.len > 0 ∧ a = creator) := by
      rintro ⟨h1, h2⟩
      rcases ha with ha | ha
      · exact ha h2
      · omega
    simp [writeGlobalRecord, this]
  dsimp only
  refine ⟨?_, ?_, hcr, ?_, ?_, ?_, ?_, ?_⟩
  · intro hlen
    refine ⟨params, hparams hlen, ?_⟩
    rw [hacc creator, (writeLocalRecord_fields _ _ _ _).1]
    simp only [writeGlobalRecord, hlen, and_self, if_true]
    rw [GoMap.lookup_insert_self, (g1 hlen).1]
  · intro idx delta hm
    obtain ⟨addr, ls0, h1, h2, h3, _⟩ := s1 idx delta hm
    refine ⟨addr, ls0, h1, h2, ?_⟩
    rw [hacc addr]
    unfold GoMap.lookup at h3
    simp only [writeLocalRecord, h3]
    rw [GoMap.lookup_insert_self]
    rfl
  · intro a
    rw [hacc a]
    exact ⟨(writeLocalRecord_fields _ _ _ _).2.1.trans (writeGlobalRecord_fields _ _ _ _ _ _).2.1,
      (writeLocalRecord_fields _ _ _ _).2.2.trans (writeGlobalRecord_fields _ _ _ _ _ _).2.2⟩
  · intro a i hi
    rw [hacc a]
    constructor
    · rw [(writeLocalRecord_fields _ _ _ _).1]
      unfold writeGlobalRecord
      split
      · exact GoMap.lookup_insert_ne _ _ _ _ hi
      · rfl
    · unfold writeLocalRecord
      split
      · simp only
        rw [GoMap.lookup_insert_ne _ _ _ _ hi, (writeGlobalRecord_fields _ _ _ _ _ _).1]
      · rw [(writeGlobalRecord_fields _ _ _ _ _ _).1]
  · intro a ha
    rw [hacc a, (writeLocalRecord_fields _ _ _ _).1, hglob a ha]
  · intro a ha
    rw [hacc a, hloc a ha, (writeGlobalRecord_fields _ _ _ _ _ _).1]
  · intro a ha1 ha2
    rw [hacc a, hloc a ha2, hglob a (Or.inl ha1)]

/-- C8 at a concrete input: the creator of application 5 is the sender and
receives both the global and a local delta. -/
theorem applyEvalDelta_commit_postcondition_witness :
    (applyEvalDelta env0 acNoOp5 globalLocalA params5 1 1 5 w5c).1 = none ∧
    (∃ p0, (w5c.balances.accts 1).AppParams.lookup 5 = some p0 ∧
      ((applyEvalDelta env0 acNoOp5 globalLocalA params5 1 1 5 w5c).2.balances.accts
          1).AppParams.lookup 5
        = some { p0 with GlobalState :=
            (applyStateDelta (allocKV p0.GlobalState) globalLocalA.GlobalDelta).1 }) ∧
    ((applyEvalDelta env0 acNoOp5 globalLocalA params5 1 1 5 w5c).2.balances.accts
        1).AppLocalStates.lookup 5
      = some ⟨⟨1, 0⟩, (applyStateDelta (allocKV none) deltaA).1⟩ :=
  ⟨by decide,
   (applyEvalDelta_commit_postcondition env0 acNoOp5 globalLocalA params5 1 1 5 w5c
      (by decide) (fun _ => by decide)).1 (by decide),
   by decide⟩

/-! ## C9 -/

/-- C9. Schema bound after commit: whenever `applyEvalDelta` returns nil,
every store it wrote satisfies its governing schema: if the global delta is
not empty, the creator holds for `appIdx` parameters with the
`GlobalStateSchema` of the application whose global store satisfies that
schema, and for every local delta the resolved address holds for `appIdx` a
local state whose store satisfies the `Schema` of that local state, which is
the schema it had before.  To satisfy a schema is to have at most `NumUint`
uint entries and at most `NumByteSlice` byte-string entries. -/
theorem applyEvalDelta_schema_bound (env : Env) (ac : ApplicationCallTxnFields)
    (evalDelta : EvalDelta) (params : AppParams) (creator sender : Address)
    (appIdx : AppIndex) (w : World)
    (hret : (applyEvalDelta env ac evalDelta params creator sender appIdx w).1 = none) :
    (evalDelta.GlobalDelta.len > 0 →
      ∃ p1,
        ((applyEvalDelta env ac evalDelta params creator sender appIdx w).2.balances.accts
            creator).AppParams.lookup appIdx = some p1 ∧
        p1.GlobalStateSchema = params.GlobalStateSchema ∧
        SatisfiesSchema p1.GlobalState p1.GlobalStateSchema = true) ∧
    (∀ idx delta, (idx, delta) ∈ evalDelta.LocalDeltas.entries →
      ∃ addr ls0 ls1, ac.AddressByIndex idx sender = Except.ok addr ∧
        (w.balances.accts addr).AppLocalStates.lookup appIdx = some ls0 ∧
        ((applyEvalDelta env ac evalDelta params creator sender appIdx w).2.balances.accts
            addr).AppLocalStates.lookup appIdx = some ls1 ∧
        ls1.Schema = ls0.Schema ∧
        SatisfiesSchema ls1.KeyValue ls1.Schema = true) := by
  rcases hr : applyEvalDelta env ac evalDelta params creator sender appIdx w with ⟨e, w'⟩
  rw [hr] at hret
  simp only at hret
  subst hret
  obtain ⟨params1, changes, w1, hg, hs, _, hacc⟩ :=
    applyEvalDelta_ok env ac evalDelta params creator sender appIdx w w' hr
  obtain ⟨g1, _⟩ := applyEvalDeltaGlobal_ok env evalDelta params params1 hg
  obtain ⟨s1, _, _⟩ := applyEvalDeltaStage_ok env ac sender appIdx
    evalDelta.LocalDeltas.entries GoMap.empty w changes w1 hs
  dsimp only
  constructor
  · intro hlen
    obtain ⟨h1, _, h3⟩ := g1 hlen
    refine ⟨params1, ?_, ?_, h3⟩
    · rw [hacc creator, (writeLocalRecord_fields _ _ _ _).1]
      simp only [writeGlobalRecord, hlen, and_self, if_true]
      exact GoMap.lookup_insert_self _ _ _
    · rw [h1]
  · intro idx delta hm
    obtain ⟨addr, ls0, h1, h2, h3, _, h5, _⟩ := s1 idx delta hm
    refine ⟨addr, ls0, stagedLocalState ls0 delta, h1, h2, ?_, rfl, h5⟩
    rw [hacc addr]
    unfold GoMap.lookup at h3
    simp only [writeLocalRecord, h3]
    exact GoMap.lookup_insert_self _ _ _

/-- C9 at a concrete input: a global and a local delta of one uint key each
under schemas of one uint. -/
theorem applyEvalDelta_schema_bound_witness :
    (applyEvalDelta env0 acNoOp5 globalLocalA params5 1 1 5 w5c).1 = none ∧
    (∃ p1,
      ((applyEvalDelta env0 acNoOp5 globalLocalA params5 1 1 5 w5c).2.balances.accts
          1).AppParams.lookup 5 = some p1 ∧
      p1.GlobalStateSchema = params5.GlobalStateSchema ∧
      SatisfiesSchema p1.GlobalState p1.GlobalStateSchema = true) :=
  ⟨by decide,
   (applyEvalDelta_schema_bound env0 acNoOp5 globalLocalA params5 1 1 5 w5c (by decide)).1
     (by decide)⟩

/-! ## The errors of `applyEvalDelta` -/

theorem applyStateDeltaLoop_error :
    ∀ (l : List (Key × ValueDelta)) (m m' : KVMap) (e : Error),
      applyStateDeltaLoop m l = (m', some e) →
      e = Error.errorf "unknown delta action" ∧
      ∃ k vd, (k, vd) ∈ l ∧
        ¬ (vd.Action = SetUintAction ∨ vd.Action = SetBytesAction ∨ vd.Action = DeleteAction)
  | [], m, m', e => by
    intro h; simp [applyStateDeltaLoop] at h
  | (key, vd) :: rest, m, m', e => by
    unfold applyStateDeltaLoop
    split
    · intro h
      obtain ⟨h1, k, v, h2, h3⟩ := applyStateDeltaLoop_error rest _ m' e h
      exact ⟨h1, k, v, List.mem_cons_of_mem _ h2, h3⟩
    rename_i hu
    split
    · intro h
      obtain ⟨h1, k, v, h2, h3⟩ := applyStateDeltaLoop_error rest _ m' e h
      exact ⟨h1, k, v, List.mem_cons_of_mem _ h2, h3⟩
    rename_i hb
    split
    · intro h
      obtain ⟨h1, k, v, h2, h3⟩ := applyStateDeltaLoop_error rest _ m' e h
      exact ⟨h1, k, v, List.mem_cons_of_mem _ h2, h3⟩
    rename_i hd
    intro h
    simp only [Prod.mk.injEq, Option.some.injEq] at h
    refine ⟨h.2.symm, key, vd, List.mem_cons_self _ _, ?_⟩
    rintro (h1 | h1 | h1)
    · exact hu h1
    · exact hb h1
    · exact hd h1

theorem applyStateDelta_alloc_error (kv kv' : TealKeyValue) (delta : StateDelta) (e : Error)
    (h : applyStateDelta (allocKV kv) delta = (kv', some e)) :
    e = Error.errorf "unknown delta action" ∧ ¬ Recognised delta := by
  have key : ∀ m : KVMap, applyStateDelta (some m) delta = (kv', some e) →
      e = Error.errorf "unknown delta action" ∧ ¬ Recognised delta := by
    intro m hm
    simp only [applyStateDelta, Prod.mk.injEq] at hm
    obtain ⟨h1, k, vd, h2, h3⟩ := applyStateDeltaLoop_error delta.entries m
      (applyStateDeltaLoop m delta.entries).1 e (Prod.ext rfl hm.2)
    exact ⟨h1, fun hr => h3 (hr k vd h2)⟩
  cases kv with
  | none => exact key _ h
  | some m => exact key _ h

theorem Get_error_fault (env : Env) (addr : Address) (w w1 : World) (e : Error)
    (h : Get env addr w = (Except.error e, w1)) :
    ∃ t c, env.fault t = some c ∧ e = Error.external c := by
  unfold Get at h
  split at h
  · rename_i c hc
    simp only [Prod.mk.injEq, Except.error.injEq] at h
    exact ⟨_, c, hc, h.1.symm⟩
  · simp at h

theorem Put_error_fault (env : Env) (r : BalanceRecord) (w w1 : World) (e : Error)
    (h : Put env r w = (some e, w1)) :
    ∃ t c, env.fault t = some c ∧ e = Error.external c := by
  unfold Put at h
  split at h
  · rename_i c hc
    simp only [Prod.mk.injEq, Option.some.injEq] at h
    exact ⟨_, c, hc, h.1.symm⟩
  · simp at h

theorem AddressByIndex_error (ac : ApplicationCallTxnFields) (idx : Nat) (sender : Address)
    (e : Error) (h : ac.AddressByIndex idx sender = Except.error e) :
    isApplyError (some e) = false := by
  unfold ApplicationCallTxnFields.AddressByIndex at h
  split at h
  · simp at h
  · split at h
    · simp at h
    · simp only [Except.error.injEq] at h
      subst h; rfl

theorem applyEvalDeltaGlobal_error (env : Env) (evalDelta : EvalDelta) (params : AppParams)
    (e : Error) :
    applyEvalDeltaGlobal env evalDelta params = Except.error e →
    isApplyError (some e) = true ∨
      (e = Error.errorf "unknown delta action" ∧ ¬ Recognised evalDelta.GlobalDelta) := by
  unfold applyEvalDeltaGlobal
  split
  · dsimp only
    split
    · intro h; simp only [Except.error.injEq] at h; subst h; exact Or.inl rfl
    split
    · rename_i kv err hkv
      intro h; simp only [Except.error.injEq] at h; subst h
      exact Or.inr (applyStateDelta_alloc_error _ _ _ _ hkv)
    split
    · intro h; simp only [Except.error.injEq] at h; subst h; exact Or.inl rfl
    · intro h; simp at h
  · intro h; simp at h

theorem applyEvalDeltaStage_error (env : Env) (ac : ApplicationCallTxnFields) (sender : Address)
    (appIdx : AppIndex) :
    ∀ (l : List (Nat × StateDelta)) (changes : GoMap Address AppLocalState) (w w' : World)
      (e : Error),
      applyEvalDeltaStage env ac sender appIdx l changes w = (Except.error e, w') →
      isApplyError (some e) = true ∨
      (∃ idx d, (idx, d) ∈ l ∧ ac.AddressByIndex idx sender = Except.error e) ∨
      (∃ t c, env.fault t = some c ∧ e = Error.external c) ∨
      (e = Error.errorf "unknown delta action" ∧ ∃ idx d, (idx, d) ∈ l ∧ ¬ Recognised d)
  | [], changes, w, w', e => by
    intro h; simp [applyEvalDeltaStage] at h
  | (accountIdx, delta) :: rest, changes, w, w', e => by
    unfold applyEvalDeltaStage
    split
    · rename_i err hres
      intro h
      simp only [Prod.mk.injEq, Except.error.injEq] at h
      obtain ⟨h1, _⟩ := h
      subst h1
      exact Or.inr (Or.inl ⟨accountIdx, delta, List.mem_cons_self _ _, hres⟩)
    rename_i addr hres
    split
    · intro h; simp only [Prod.mk.injEq, Except.error.injEq] at h
      obtain ⟨h1, _⟩ := h; subst h1; exact Or.inl rfl
    split
    · intro h; simp only [Prod.mk.injEq, Except.error.injEq] at h
      obtain ⟨h1, _⟩ := h; subst h1; exact Or.inl rfl
    split
    · intro h; simp only [Prod.mk.injEq, Except.error.injEq] at h
      obtain ⟨h1, _⟩ := h; subst h1; exact Or.inl rfl
    split
    · rename_i err w1 hget
      intro h
      simp only [Prod.mk.injEq, Except.error.injEq] at h
      obtain ⟨h1, _⟩ := h
      subst h1
      exact Or.inr (Or.inr (Or.inl (Get_error_fault env addr w w1 err hget)))
    rename_i record w1 hget
    split
    · intro h; simp only [Prod.mk.injEq, Except.error.injEq] at h
      obtain ⟨h1, _⟩ := h; subst h1; exact Or.inl rfl
    rename_i localState hls
    split
    · rename_i kv err hkv
      intro h
      simp only [Prod.mk.injEq, Except.error.injEq] at h
      obtain ⟨h1, _⟩ := h
      subst h1
      obtain ⟨h2, h3⟩ := applyStateDelta_alloc_error _ _ _ _ hkv
      exact Or.inr (Or.inr (Or.inr ⟨h2, accountIdx, delta, List.mem_cons_self _ _, h3⟩))
    split
    · intro h; simp only [Prod.mk.injEq, Except.error.injEq] at h
      obtain ⟨h1, _⟩ := h; subst h1; exact Or.inl rfl
    · intro h
      rcases applyEvalDeltaStage_error env ac sender appIdx rest _ w1 w' e h with h1 | h1 | h1 | h1
      · exact Or.inl h1
      · obtain ⟨idx, d, hm, hr⟩ := h1
        exact Or.inr (Or.inl ⟨idx, d, List.mem_cons_of_mem _ hm, hr⟩)
      · exact Or.inr (Or.inr (Or.inl h1))
      · obtain ⟨h2, idx, d, hm, hr⟩ := h1
        exact Or.inr (Or.inr (Or.inr ⟨h2, idx, d, List.mem_cons_of_mem _ hm, hr⟩))

theorem applyEvalDeltaWriteGlobal_fault (env : Env) (evalDelta : EvalDelta)
    (params : AppParams) (creator : Address) (appIdx : AppIndex) (w w' : World) (e : Error) :
    applyEvalDeltaWriteGlobal env evalDelta params creator appIdx w = (some e, w') →
    ∃ t c, env.fault t = some c ∧ e = Error.external c := by
  unfold applyEvalDeltaWriteGlobal
  split
  · split
    · rename_i err w1 hget
      intro h
      simp only [Prod.mk.injEq, Option.some.injEq] at h
      obtain ⟨h1, _⟩ := h
      subst h1
      exact Get_error_fault env creator w w1 err hget
    · intro h
      exact Put_error_fault env _ _ w' e h
  · intro h; simp at h

theorem applyEvalDeltaWriteLocal_fault (env : Env) (appIdx : AppIndex) :
    ∀ (l : List (Address × AppLocalState)) (w w' : World) (e : Error),
      applyEvalDeltaWriteLocal env appIdx l w = (some e, w') →
      ∃ t c, env.fault t = some c ∧ e = Error.external c
  | [], w, w', e => by
    intro h; simp [applyEvalDeltaWriteLocal] at h
  | (addr, ls) :: rest, w, w', e => by
    unfold applyEvalDeltaWriteLocal
    split
    · rename_i err w1 hget
      intro h
      simp only [Prod.mk.injEq, Option.some.injEq] at h
      obtain ⟨h1, _⟩ := h
      subst h1
      exact Get_error_fault env addr w w1 err hget
    · dsimp only
      split
      · rename_i err w2 hput
        intro h
        simp only [Prod.mk.injEq, Option.some.injEq] at h
        obtain ⟨h1, _⟩ := h
        subst h1
        exact Put_error_fault env _ _ w2 err hput
      · exact applyEvalDeltaWriteLocal_fault env appIdx rest _ w' e

theorem applyEvalDelta_error_cause (env : Env) (ac : ApplicationCallTxnFields)
    (evalDelta : EvalDelta) (params : AppParams) (creator sender : Address)
    (appIdx : AppIndex) (w w' : World) (e : Error) :
    applyEvalDelta env ac evalDelta params creator sender appIdx w = (some e, w') →
    isApplyError (some e) = true ∨ FatalCause env ac evalDelta sender e := by
  unfold applyEvalDelta
  split
  · rename_i err hg
    intro h
    simp only [Prod.mk.injEq, Option.some.injEq] at h
    obtain ⟨h1, _⟩ := h
    subst h1
    rcases applyEvalDeltaGlobal_error env evalDelta params err hg with h1 | h1
    · exact Or.inl h1
    · exact Or.inr (Or.inr (Or.inr ⟨h1.1, Or.inl h1.2⟩))
  split
  · rename_i err w1 hs
    intro h
    simp only [Prod.mk.injEq, Option.some.injEq] at h
    obtain ⟨h1, _⟩ := h
    subst h1
    rcases applyEvalDeltaStage_error env ac sender appIdx _ _ w w1 err hs with h1 | h1 | h1 | h1
    · exact Or.inl h1
    · exact Or.inr (Or.inl h1)
    · exact Or.inr (Or.inr (Or.inl h1))
    · exact Or.inr (Or.inr (Or.inr ⟨h1.1, Or.inr h1.2⟩))
  rename_i changes w1 hs
  split
  · rename_i err w2 hwg
    intro h
    simp only [Prod.mk.injEq, Option.some.injEq] at h
    obtain ⟨h1, _⟩ := h
    subst h1
    exact Or.inr (Or.inr (Or.inl
      (applyEvalDeltaWriteGlobal_fault env evalDelta _ creator appIdx w1 w2 err hwg)))
  · intro h
    exact Or.inr (Or.inr (Or.inl (applyEvalDeltaWriteLocal_fault env appIdx _ _ w' e h)))

theorem FatalCause_not_policy (env : Env) (ac : ApplicationCallTxnFields)
    (evalDelta : EvalDelta) (sender : Address) (e : Error)
    (h : FatalCause env ac evalDelta sender e) : isApplyError (some e) = false := by
  rcases h with ⟨idx, d, _, h⟩ | ⟨t, c, _, h⟩ | ⟨h, _⟩
  · exact AddressByIndex_error ac idx sender e h
  · subst h; rfl
  · subst h; rfl
theorem applyEvalDeltaStage_cons_ok (env : Env) (ac : ApplicationCallTxnFields)
    (sender : Address) (appIdx : AppIndex) (accountIdx : Nat) (delta : StateDelta)
    (rest : List (Nat × StateDelta)) (changes changes' : GoMap Address AppLocalState)
    (w w' : World) :
    applyEvalDeltaStage env ac sender appIdx ((accountIdx, delta) :: rest) changes w
      = (Except.ok changes', w') →
    ∃ addr ls0 w1, ac.AddressByIndex accountIdx sender = Except.ok addr ∧
      changes.lookup addr = none ∧
      applyEvalDeltaStage env ac sender appIdx rest
        (changes.insert addr (stagedLocalState ls0 delta)) w1 = (Except.ok changes', w') := by
  intro h
  rw [applyEvalDeltaStage] at h
  revert h
  split
  · intro h; simp at h
  rename_i addr hres
  split
  · intro h; simp at h
  rename_i hdup
  split
  · intro h; simp at h
  split
  · intro h; simp at h
  split
  · intro h; simp at h
  rename_i record w1 hget
  split
  · intro h; simp at h
  rename_i localState hls
  split
  · intro h; simp at h
  rename_i kv hkv
  split
  · intro h; simp at h
  intro h
  have hnone : changes.lookup addr = none := by
    cases hc : changes.lookup addr with
    | none => rfl
    | some x => rw [hc] at hdup; simp at hdup
  have hst : stagedLocalState localState delta = { localState with KeyValue := kv } := by
    simp [stagedLocalState, hkv]
  exact ⟨addr, localState, w1, hres, hnone, by rw [hst]; exact h⟩

theorem applyEvalDeltaStage_ok_distinct (env : Env) (ac : ApplicationCallTxnFields)
    (sender : Address) (appIdx : AppIndex) :
    ∀ (l : List (Nat × StateDelta)) (changes changes' : GoMap Address AppLocalState)
      (w w' : World),
      applyEvalDeltaStage env ac sender appIdx l changes w = (Except.ok changes', w') →
      l.Pairwise (fun e1 e2 => ∀ a, ac.AddressByIndex e1.1 sender = Except.ok a →
        ac.AddressByIndex e2.1 sender ≠ Except.ok a)
  | [], _, _, _, _ => fun _ => List.Pairwise.nil
  | (accountIdx, delta) :: rest, changes, changes', w, w' => by
    intro h
    obtain ⟨addr, ls0, w1, hres, _, hrest⟩ :=
      applyEvalDeltaStage_cons_ok env ac sender appIdx accountIdx delta rest changes changes'
        w w' h
    refine List.Pairwise.cons ?_
      (applyEvalDeltaStage_ok_distinct env ac sender appIdx rest _ changes' w1 w' hrest)
    intro e2 hm a ha h2
    obtain ⟨s1, _, _⟩ := applyEvalDeltaStage_ok env ac sender appIdx rest _ w1 changes' w' hrest
    obtain ⟨a2, _, h3, _, _, _, _, _, h4⟩ := s1 e2.1 e2.2 hm
    rw [hres] at ha
    rw [h3] at h2
    simp only [Except.ok.injEq] at ha h2
    subst ha; subst h2
    rw [GoMap.lookup_insert_self] at h4
    simp at h4

theorem applyEvalDelta_malformed_core (env : Env) (ac : ApplicationCallTxnFields)
    (evalDelta : EvalDelta) (params : AppParams) (creator sender : Address)
    (appIdx : AppIndex) (w : World) :
    ((∀ t, env.fault t = none) →
      (∀ idx d, (idx, d) ∈ evalDelta.LocalDeltas.entries →
        ∃ a, ac.AddressByIndex idx sender = Except.ok a) →
      Recognised evalDelta.GlobalDelta →
      (∀ idx d, (idx, d) ∈ evalDelta.LocalDeltas.entries → Recognised d) →
      Malformed ac evalDelta sender appIdx w.balances →
      isApplyError (applyEvalDelta env ac evalDelta params creator sender appIdx w).1 = true) ∧
    (∀ e, (applyEvalDelta env ac evalDelta params creator sender appIdx w).1 = some e →
      isApplyError (some e) = false → FatalCause env ac evalDelta sender e) ∧
    (∀ e, FatalCause env ac evalDelta sender e → isApplyError (some e) = false) := by
  have hB : ∀ e, (applyEvalDelta env ac evalDelta params creator sender appIdx w).1 = some e →
      isApplyError (some e) = false → FatalCause env ac evalDelta sender e := by
    intro e he hnp
    rcases applyEvalDelta_error_cause env ac evalDelta params creator sender appIdx w
      (applyEvalDelta env ac evalDelta params creator sender appIdx w).2 e
      (Prod.ext he rfl) with h | h
    · rw [hnp] at h; simp at h
    · exact h
  refine ⟨?_, hB, FatalCause_not_policy env ac evalDelta sender⟩
  intro hf hres hrg hrl hmal
  cases hr : (applyEvalDelta env ac evalDelta params creator sender appIdx w).1 with
  | some e =>
    cases hp : isApplyError (some e) with
    | true => rfl
    | false =>
      exfalso
      rcases hB e hr hp with ⟨idx, d, hm, h⟩ | ⟨t, c, h, _⟩ | ⟨_, h | ⟨idx, d, hm, h⟩⟩
      · obtain ⟨a, ha⟩ := hres idx d hm
        rw [ha] at h; simp at h
      · rw [hf t] at h; simp at h
      · exact h hrg
      · exact h (hrl idx d hm)
  | none =>
    exfalso
    obtain ⟨params1, changes, w1, _, hs, _, _⟩ :=
      applyEvalDelta_ok env ac evalDelta params creator sender appIdx w _ (Prod.ext hr rfl)
    obtain ⟨s1, _, _⟩ := applyEvalDeltaStage_ok env ac sender appIdx
      evalDelta.LocalDeltas.entries GoMap.empty w changes w1 hs
    have hd := applyEvalDeltaStage_ok_distinct env ac sender appIdx
      evalDelta.LocalDeltas.entries GoMap.empty changes w w1 hs
    rcases hmal with ⟨i1, d1, i2, d2, a, hm1, hm2, hne, ha1, ha2⟩ | ⟨i, d, hm, hz⟩ |
      ⟨i, d, a, hm, ha, hno⟩
    · have hsym : Symmetric (fun (e1 e2 : Nat × StateDelta) =>
          ∀ a, ac.AddressByIndex e1.1 sender = Except.ok a →
            ac.AddressByIndex e2.1 sender ≠ Except.ok a) := by
        intro x y hxy a hy hx
        exact hxy a hx hy
      have hne2 : (i1, d1) ≠ (i2, d2) := fun h => hne (congrArg Prod.fst h)
      exact hd.forall hsym hm1 hm2 hne2 a ha1 ha2
    · obtain ⟨_, _, _, _, _, _, _, h6, _⟩ := s1 i d hm
      exact h6 hz
    · obtain ⟨a2, ls0, h1, h2, _⟩ := s1 i d hm
      rw [ha] at h1
      simp only [Except.ok.injEq] at h1
      subst h1
      rw [hno] at h2
      simp at h2

/-! ## Sums over Go maps -/

theorem asum_aerase {K V : Type} [DecidableEq K] (f : V → Nat) (k : K) :
    ∀ (l : List (K × V)), (akeys l).Nodup →
      asum f l = ((alookup k l).map f).getD 0 + asum f (aerase k l)
  | [], _ => rfl
  | (a, b) :: tl, hnd => by
    simp only [akeys, List.map_cons, List.nodup_cons] at hnd
    have ih := asum_aerase f k tl hnd.2
    rw [aerase_cons]
    by_cases h : a = k
    · subst h
      have hno : alookup a tl = none := alookup_of_not_mem_keys a tl hnd.1
      rw [hno] at ih
      simp only [Option.map_none', Option.getD_none, Nat.zero_add] at ih
      simp only [alookup, if_true, Option.map_some', Option.getD_some]
      rw [← ih]
      simp [asum]
    · simp only [alookup, h, if_false]
      simp only [asum, List.map_cons, List.sum_cons] at ih ⊢
      omega

theorem GoMap.asum_erase {K V : Type} [DecidableEq K] (f : V → Nat) (m : GoMap K V) (k : K) :
    asum f m.entries = ((m.lookup k).map f).getD 0 + asum f (m.erase k).entries :=
  asum_aerase f k m.entries m.nodup

theorem GoMap.asum_insert {K V : Type} [DecidableEq K] (f : V → Nat) (m : GoMap K V) (k : K)
    (v : V) :
    asum f (m.insert k v).entries + ((m.lookup k).map f).getD 0 = f v + asum f m.entries := by
  have h := GoMap.asum_erase f m k
  simp only [GoMap.insert, GoMap.erase] at h ⊢
  simp only [asum, List.map_cons, List.sum_cons] at h ⊢
  omega

/-! ## Schema conservation of one record -/

theorem SchemaConserved.insertLocalFresh (d : AccountData) (i : AppIndex) (s : StateSchema)
    (kv : TealKeyValue) (hc : SchemaConserved d) (hno : d.AppLocalStates.lookup i = none) :
    SchemaConserved { d with
      AppLocalStates := d.AppLocalStates.insert i ⟨s, kv⟩,
      TotalAppSchema := d.TotalAppSchema.AddSchema s } := by
  have h1 := GoMap.asum_insert (fun ls : AppLocalState => ls.Schema.NumUint)
    d.AppLocalStates i ⟨s, kv⟩
  have h2 := GoMap.asum_insert (fun ls : AppLocalState => ls.Schema.NumByteSlice)
    d.AppLocalStates i ⟨s, kv⟩
  rw [hno] at h1 h2
  simp only [Option.map_none', Option.getD_none] at h1 h2
  unfold SchemaConserved at hc ⊢
  simp only [StateSchema.AddSchema]
  omega

theorem SchemaConserved.insertLocalSame (d : AccountData) (i : AppIndex)
    (ls0 ls1 : AppLocalState) (hc : SchemaConserved d)
    (h0 : d.AppLocalStates.lookup i = some ls0) (hs : ls1.Schema = ls0.Schema) :
    SchemaConserved { d with AppLocalStates := d.AppLocalStates.insert i ls1 } := by
  have h1 := GoMap.asum_insert (fun ls : AppLocalState => ls.Schema.NumUint)
    d.AppLocalStates i ls1
  have h2 := GoMap.asum_insert (fun ls : AppLocalState => ls.Schema.NumByteSlice)
    d.AppLocalStates i ls1
  rw [h0] at h1 h2
  simp only [Option.map_some', Option.getD_some, hs] at h1 h2
  unfold SchemaConserved at hc ⊢
  simp only
  omega

theorem SchemaConserved.eraseLocal (d : AccountData) (i : AppIndex) (hc : SchemaConserved d) :
    SchemaConserved { d with
      TotalAppSchema := d.TotalAppSchema.SubSchema
        ((d.AppLocalStates.lookup i).getD AppLocalState.zero).Schema,
      AppLocalStates := d.AppLocalStates.erase i } := by
  have h1 := GoMap.asum_erase (fun ls : AppLocalState => ls.Schema.NumUint) d.AppLocalStates i
  have h2 := GoMap.asum_erase (fun ls : AppLocalState => ls.Schema.NumByteSlice)
    d.AppLocalStates i
  unfold SchemaConserved at hc ⊢
  cases hl : d.AppLocalStates.lookup i with
  | none =>
    rw [hl] at h1 h2
    simp only [Option.map_none', Option.getD_none, AppLocalState.zero,
      StateSchema.SubSchema] at h1 h2 ⊢
    omega
  | some ls =>
    rw [hl] at h1 h2
    simp only [Option.map_some', Option.getD_some, StateSchema.SubSchema] at h1 h2 ⊢
    omega

theorem SchemaConserved.insertParamsFresh (d : AccountData) (i : AppIndex) (p : AppParams)
    (hc : SchemaConserved d) (hno : d.AppParams.lookup i = none) :
    SchemaConserved { d with
      AppParams := d.AppParams.insert i p,
      TotalAppSchema := d.TotalAppSchema.AddSchema p.GlobalStateSchema } := by
  have h1 := GoMap.asum_insert (fun p : AppParams => p.GlobalStateSchema.NumUint)
    d.AppParams i p
  have h2 := GoMap.asum_insert (fun p : AppParams => p.GlobalStateSchema.NumByteSlice)
    d.AppParams i p
  rw [hno] at h1 h2
  simp only [Option.map_none', Option.getD_none] at h1 h2
  unfold SchemaConserved at hc ⊢
  simp only [StateSchema.AddSchema]
  omega

theorem SchemaConserved.insertParamsSame (d : AccountData) (i : AppIndex) (p1 : AppParams)
    (hc : SchemaConserved d)
    (hs : p1.GlobalStateSchema
      = ((d.AppParams.lookup i).getD AppParams.zero).GlobalStateSchema) :
    SchemaConserved { d with AppParams := d.AppParams.insert i p1 } := by
  have h1 := GoMap.asum_insert (fun p : AppParams => p.GlobalStateSchema.NumUint)
    d.AppParams i p1
  have h2 := GoMap.asum_insert (fun p : AppParams => p.GlobalStateSchema.NumByteSlice)
    d.AppParams i p1
  unfold SchemaConserved at hc ⊢
  cases hl : d.AppParams.lookup i with
  | none =>
    rw [hl] at h1 h2 hs
    simp only [Option.map_none', Option.getD_none, AppParams.zero] at h1 h2 hs
    simp only [hs] at h1 h2 ⊢
    omega
  | some p0 =>
    rw [hl] at h1 h2 hs
    simp only [Option.map_some', Option.getD_some] at h1 h2 hs
    simp only [hs] at h1 h2 ⊢
    omega

theorem SchemaConserved.eraseParams (d : AccountData) (i : AppIndex) (hc : SchemaConserved d) :
    SchemaConserved { d with
      TotalAppSchema := d.TotalAppSchema.SubSchema
        ((d.AppParams.lookup i).getD AppParams.zero).GlobalStateSchema,
      AppParams := d.AppParams.erase i } := by
  have h1 := GoMap.asum_erase (fun p : AppParams => p.GlobalStateSchema.NumUint) d.AppParams i
  have h2 := GoMap.asum_erase (fun p : AppParams => p.GlobalStateSchema.NumByteSlice)
    d.AppParams i
  unfold SchemaConserved at hc ⊢
  cases hl : d.AppParams.lookup i with
  | none =>
    rw [hl] at h1 h2
    simp only [Option.map_none', Option.getD_none, AppParams.zero,
      StateSchema.SubSchema] at h1 h2 ⊢
    omega
  | some p =>
    rw [hl] at h1 h2
    simp only [Option.map_some', Option.getD_some, StateSchema.SubSchema] at h1 h2 ⊢
    omega
/-! ## Schema conservation through the storage writes -/

theorem Conserved.update (b : Balances) (a : Address) (d : AccountData)
    (c : CreatableType → Nat → Option Address) (hc : Conserved b) (hd : SchemaConserved d) :
    Conserved { accts := Function.update b.accts a d, creators := c } := by
  intro x
  by_cases hx : x = a
  · subst hx; simpa using hd
  · simpa [Function.update, hx] using hc x

theorem Put_conserved (env : Env) (r : BalanceRecord) (w : World)
    (hc : Conserved w.balances) (hr : SchemaConserved r.data) :
    Conserved (Put env r w).2.balances := by
  unfold Put
  split
  · exact hc
  · exact Conserved.update w.balances r.Addr r.data _ hc hr

theorem PutWithCreatable_conserved (env : Env) (r : BalanceRecord)
    (c d : Option CreatableLocator) (w : World)
    (hc : Conserved w.balances) (hr : SchemaConserved r.data) :
    Conserved (PutWithCreatable env r c d w).2.balances := by
  unfold PutWithCreatable
  split
  · exact hc
  · exact Conserved.update w.balances r.Addr r.data _ hc hr

theorem createApplication_conserved (env : Env) (ac : ApplicationCallTxnFields)
    (creator : Address) (txnCounter : Nat) (w : World) (hc : Conserved w.balances)
    (hfresh : (w.balances.accts creator).AppParams.lookup ((txnCounter + 1) % 2 ^ 64) = none) :
    Conserved (createApplication env ac creator txnCounter w).2.balances := by
  unfold createApplication
  have hG := Get_noPut env creator w
  split
  · rename_i heq; rw [heq] at hG; dsimp only; rw [hG.1]; exact hc
  rename_i record w1 hget
  obtain ⟨hrec, hbal⟩ := Get_ok_inv env creator w w1 record hget
  subst hrec
  have hc1 : Conserved w1.balances := by rw [hbal]; exact hc
  dsimp only
  split
  · exact hc1
  split
  · exact hc1
  split
  · exact hc1
  rename_i convertedAp _ _ convertedCsp _
  have hP := PutWithCreatable_conserved env
    { Addr := creator,
      data := { (w.balances.accts creator) with
        AppParams := (cloneAppParams (w.balances.accts creator).AppParams).insert
          ((txnCounter + 1) % 2 ^ 64)
          { ApprovalProgram := convertedAp,
            ClearStateProgram := convertedCsp,
            LocalStateSchema := ac.LocalStateSchema,
            GlobalStateSchema := ac.GlobalStateSchema,
            GlobalState := none },
        TotalAppSchema :=
          (w.balances.accts creator).TotalAppSchema.AddSchema ac.GlobalStateSchema } }
    (some { Creator := creator, Typ := CreatableType.AppCreatable,
            Index := (txnCounter + 1) % 2 ^ 64 }) none w1 hc1
    (SchemaConserved.insertParamsFresh (w.balances.accts creator) _
      { ApprovalProgram := convertedAp,
        ClearStateProgram := convertedCsp,
        LocalStateSchema := ac.LocalStateSchema,
        GlobalStateSchema := ac.GlobalStateSchema,
        GlobalState := none } (hc creator) hfresh)
  split
  · rename_i heq; rw [heq] at hP; exact hP
  · rename_i heq; rw [heq] at hP; exact hP

theorem applyOptIn_conserved (env : Env) (sender : Address) (appIdx : AppIndex)
    (params : AppParams) (w : World) (hc : Conserved w.balances) :
    Conserved (applyOptIn env sender appIdx params w).2.balances ∧
    ∀ a, ((applyOptIn env sender appIdx params w).2.balances.accts a).AppParams
      = (w.balances.accts a).AppParams := by
  unfold applyOptIn
  have hG := Get_noPut env sender w
  split
  · rename_i heq; rw [heq] at hG; dsimp only; rw [hG.1]; exact ⟨hc, fun _ => rfl⟩
  rename_i record w1 hget
  obtain ⟨hrec, hbal⟩ := Get_ok_inv env sender w w1 record hget
  subst hrec
  have hc1 : Conserved w1.balances := by rw [hbal]; exact hc
  split
  · dsimp only; rw [hbal]; exact ⟨hc, fun _ => rfl⟩
  rename_i hno
  dsimp only
  split
  · rw [hbal]; exact ⟨hc, fun _ => rfl⟩
  have hno2 : (w.balances.accts sender).AppLocalStates.lookup appIdx = none := by
    cases hl : (w.balances.accts sender).AppLocalStates.lookup appIdx with
    | none => rfl
    | some x => rw [hl] at hno; simp at hno
  constructor
  · exact Put_conserved env _ w1 hc1
      (SchemaConserved.insertLocalFresh (w.balances.accts sender) appIdx
        params.LocalStateSchema none (hc sender) hno2)
  · intro a
    unfold Put
    split
    · simp only [World.log_balances, hbal]
    · simp only [hbal]
      by_cases ha : a = sender
      · subst ha; simp
      · simp [Function.update, ha]

theorem applyClearStateFinish_conserved (env : Env) (sender : Address) (appIdx : AppIndex)
    (w0 w : World) (hc : Conserved w.balances) (hw : w.balances = w0.balances) :
    Conserved (applyClearStateFinish env ⟨sender, w0.balances.accts sender⟩ appIdx w).2.balances := by
  unfold applyClearStateFinish
  dsimp only
  apply Put_conserved env _ w hc
  rw [← hw]
  exact SchemaConserved.eraseLocal (w.balances.accts sender) appIdx (hc sender)

theorem ApplicationCallCompletion_conserved (env : Env) (ac : ApplicationCallTxnFields)
    (header : Header) (creator : Address) (appIdx : AppIndex) (w : World)
    (hc : Conserved w.balances) :
    Conserved (ApplicationCallCompletion env ac header creator appIdx w).2.balances := by
  unfold ApplicationCallCompletion
  split
  · exact hc
  split
  · exact hc
  split
  · have hG := Get_noPut env header.Sender w
    split
    · rename_i heq; rw [heq] at hG; dsimp only; rw [hG.1]; exact hc
    rename_i record w1 hget
    obtain ⟨hrec, hbal⟩ := Get_ok_inv env header.Sender w w1 record hget
    subst hrec
    have hc1 : Conserved w1.balances := by rw [hbal]; exact hc
    split
    · exact hc1
    rename_i localState hl
    have := SchemaConserved.eraseLocal (w.balances.accts header.Sender) appIdx (hc header.Sender)
    dsimp only at hl
    rw [hl] at this
    exact Put_conserved env _ w1 hc1 this
  split
  · have hG := Get_noPut env creator w
    split
    · rename_i heq; rw [heq] at hG; dsimp only; rw [hG.1]; exact hc
    rename_i record w1 hget
    obtain ⟨hrec, hbal⟩ := Get_ok_inv env creator w w1 record hget
    subst hrec
    have hc1 : Conserved w1.balances := by rw [hbal]; exact hc
    exact PutWithCreatable_conserved env _ _ _ w1 hc1
      (SchemaConserved.eraseParams (w.balances.accts creator) appIdx (hc creator))
  split
  · have hG := Get_noPut env creator w
    split
    · rename_i heq; rw [heq] at hG; dsimp only; rw [hG.1]; exact hc
    rename_i record w1 hget
    obtain ⟨hrec, hbal⟩ := Get_ok_inv env creator w w1 record hget
    subst hrec
    have hc1 : Conserved w1.balances := by rw [hbal]; exact hc
    exact Put_conserved env _ w1 hc1
      (SchemaConserved.insertParamsSame (w.balances.accts creator) appIdx _ (hc creator) rfl)
  · exact hc
/-! ## Schema conservation through `applyEvalDelta` -/

theorem applyEvalDeltaStage_cons_inv (env : Env) (ac : ApplicationCallTxnFields)
    (sender : Address) (appIdx : AppIndex) (accountIdx : Nat) (delta : StateDelta)
    (rest : List (Nat × StateDelta)) (changes changes' : GoMap Address AppLocalState)
    (w w' : World) :
    applyEvalDeltaStage env ac sender appIdx ((accountIdx, delta) :: rest) changes w
      = (Except.ok changes', w') →
    ∃ addr ls0 w1,
      (w.balances.accts addr).AppLocalStates.lookup appIdx = some ls0 ∧
      w1.balances = w.balances ∧
      applyEvalDeltaStage env ac sender appIdx rest
        (changes.insert addr (stagedLocalState ls0 delta)) w1 = (Except.ok changes', w') := by
  intro h
  rw [applyEvalDeltaStage] at h
  revert h
  split
  · intro h; simp at h
  rename_i addr hres
  split
  · intro h; simp at h
  split
  · intro h; simp at h
  split
  · intro h; simp at h
  split
  · intro h; simp at h
  rename_i record w1 hget
  obtain ⟨hrec, hbal⟩ := Get_ok_inv env addr w w1 record hget
  split
  · intro h; simp at h
  rename_i localState hls
  split
  · intro h; simp at h
  rename_i kv hkv
  split
  · intro h; simp at h
  intro h
  have hst : stagedLocalState localState delta = { localState with KeyValue := kv } := by
    simp [stagedLocalState, hkv]
  refine ⟨addr, localState, w1, ?_, hbal, by rw [hst]; exact h⟩
  rw [hrec] at hls; exact hls

theorem mem_aerase {K V : Type} [DecidableEq K] (k : K) (l : List (K × V)) (p : K × V)
    (h : p ∈ aerase k l) : p ∈ l :=
  (List.mem_filter.mp h).1

theorem applyEvalDeltaStage_entries (env : Env) (ac : ApplicationCallTxnFields)
    (sender : Address) (appIdx : AppIndex) :
    ∀ (l : List (Nat × StateDelta)) (changes changes' : GoMap Address AppLocalState)
      (w w' : World),
      applyEvalDeltaStage env ac sender appIdx l changes w = (Except.ok changes', w') →
      (∀ addr ls1, (addr, ls1) ∈ changes.entries →
        ∃ ls0, (w.balances.accts addr).AppLocalStates.lookup appIdx = some ls0 ∧
          ls1.Schema = ls0.Schema) →
      ∀ addr ls1, (addr, ls1) ∈ changes'.entries →
        ∃ ls0, (w.balances.accts addr).AppLocalStates.lookup appIdx = some ls0 ∧
          ls1.Schema = ls0.Schema
  | [], changes, changes', w, w' => by
    intro h hq
    simp only [applyEvalDeltaStage, Prod.mk.injEq, Except.ok.injEq] at h
    rw [← h.1]; exact hq
  | (accountIdx, delta) :: rest, changes, changes', w, w' => by
    intro h hq
    obtain ⟨addr, ls0, w1, hl, hbal, hrest⟩ :=
      applyEvalDeltaStage_cons_inv env ac sender appIdx accountIdx delta rest changes changes'
        w w' h
    have ih := applyEvalDeltaStage_entries env ac sender appIdx rest _ changes' w1 w' hrest
    rw [hbal] at ih
    apply ih
    intro a ls1 hm
    simp only [GoMap.insert, List.mem_cons, Prod.mk.injEq] at hm
    rcases hm with ⟨h1, h2⟩ | hm
    · subst h1; subst h2
      exact ⟨ls0, hl, rfl⟩
    · exact hq a ls1 (mem_aerase _ _ _ hm)

theorem applyEvalDeltaWriteGlobal_conserved (env : Env) (evalDelta : EvalDelta)
    (params1 : AppParams) (creator : Address) (appIdx : AppIndex) (w : World)
    (hc : Conserved w.balances)
    (hp : evalDelta.GlobalDelta.len > 0 →
      ∃ p0, (w.balances.accts creator).AppParams.lookup appIdx = some p0 ∧
        params1.GlobalStateSchema = p0.GlobalStateSchema) :
    Conserved (applyEvalDeltaWriteGlobal env evalDelta params1 creator appIdx w).2.balances ∧
    ∀ a, ((applyEvalDeltaWriteGlobal env evalDelta params1 creator appIdx w).2.balances.accts
        a).AppLocalStates = (w.balances.accts a).AppLocalStates := by
  unfold applyEvalDeltaWriteGlobal
  split
  · rename_i hlen
    obtain ⟨p0, hp0, hs⟩ := hp hlen
    have hG := Get_noPut env creator w
    split
    · rename_i heq; rw [heq] at hG; dsimp only; rw [hG.1]; exact ⟨hc, fun _ => rfl⟩
    rename_i record w1 hget
    obtain ⟨hrec, hbal⟩ := Get_ok_inv env creator w w1 record hget
    subst hrec
    have hc1 : Conserved w1.balances := by rw [hbal]; exact hc
    dsimp only
    constructor
    · apply Put_conserved env _ w1 hc1
      apply SchemaConserved.insertParamsSame (w.balances.accts creator) appIdx _ (hc creator)
      rw [hp0]; exact hs
    · intro a
      unfold Put
      split
      · simp only [World.log_balances, hbal]
      · simp only [hbal]
        by_cases ha : a = creator
        · subst ha; simp
        · simp [Function.update, ha]
  · exact ⟨hc, fun _ => rfl⟩

theorem applyEvalDeltaWriteLocal_conserved (env : Env) (appIdx : AppIndex) :
    ∀ (l : List (Address × AppLocalState)) (w : World), (akeys l).Nodup →
      Conserved w.balances →
      (∀ addr ls1, (addr, ls1) ∈ l →
        ∃ ls0, (w.balances.accts addr).AppLocalStates.lookup appIdx = some ls0 ∧
          ls1.Schema = ls0.Schema) →
      Conserved (applyEvalDeltaWriteLocal env appIdx l w).2.balances
  | [], w => by
    intro _ hc _
    exact hc
  | (addr, ls1) :: rest, w => by
    intro hnd hc hq
    simp only [akeys, List.map_cons, List.nodup_cons] at hnd
    unfold applyEvalDeltaWriteLocal
    have hG := Get_noPut env addr w
    split
    · rename_i heq; rw [heq] at hG; dsimp only; rw [hG.1]; exact hc
    rename_i record w1 hget
    obtain ⟨hrec, hbal⟩ := Get_ok_inv env addr w w1 record hget
    subst hrec
    have hc1 : Conserved w1.balances := by rw [hbal]; exact hc
    obtain ⟨ls0, hl0, hs0⟩ := hq addr ls1 (List.mem_cons_self _ _)
    have hP := Put_conserved env
      { Addr := addr,
        data := { (w.balances.accts addr) with
          AppLocalStates :=
            (cloneAppLocalStates (w.balances.accts addr).AppLocalStates).insert appIdx ls1 } }
      w1 hc1
      (SchemaConserved.insertLocalSame (w.balances.accts addr) appIdx ls0 ls1 (hc addr) hl0 hs0)
    dsimp only
    split
    · rename_i heq; rw [heq] at hP; exact hP
    rename_i w2 hput
    rw [hput] at hP
    have hb2 := Put_none_inv env _ w1 w2 hput
    apply applyEvalDeltaWriteLocal_conserved env appIdx rest w2 hnd.2 hP
    intro a ls2 hm
    have hne : a ≠ addr := by
      intro he
      apply hnd.1
      rw [← he]
      exact List.mem_map_of_mem Prod.fst hm
    obtain ⟨ls3, hl3, hs3⟩ := hq a ls2 (List.mem_cons_of_mem _ hm)
    refine ⟨ls3, ?_, hs3⟩
    rw [hb2, hbal]
    simp only [Function.update, hne, dite_false]
    exact hl3

theorem applyEvalDelta_conserved (env : Env) (ac : ApplicationCallTxnFields)
    (evalDelta : EvalDelta) (params : AppParams) (creator sender : Address)
    (appIdx : AppIndex) (w : World) (hc : Conserved w.balances)
    (hp : evalDelta.GlobalDelta.len > 0 →
      ∃ p0, (w.balances.accts creator).AppParams.lookup appIdx = some p0 ∧
        params.GlobalStateSchema = p0.GlobalStateSchema) :
    Conserved (applyEvalDelta env ac evalDelta params creator sender appIdx w).2.balances := by
  unfold applyEvalDelta
  split
  · exact hc
  rename_i params1 hg
  obtain ⟨g1, g2⟩ := applyEvalDeltaGlobal_ok env evalDelta params params1 hg
  have hsch : params1.GlobalStateSchema = params.GlobalStateSchema := by
    by_cases hlen : evalDelta.GlobalDelta.len > 0
    · rw [(g1 hlen).1]
    · rw [g2 hlen]
  have hS := applyEvalDeltaStage_noPut env ac sender appIdx evalDelta.LocalDeltas.entries
    GoMap.empty w
  split
  · rename_i heq; rw [heq] at hS; dsimp only; rw [hS.1]; exact hc
  rename_i changes w1 hs
  rw [hs] at hS
  have hc1 : Conserved w1.balances := by rw [hS.1]; exact hc
  have hq := applyEvalDeltaStage_entries env ac sender appIdx evalDelta.LocalDeltas.entries
    GoMap.empty changes w w1 hs (fun _ _ hm => absurd hm (List.not_mem_nil _))
  have hW := applyEvalDeltaWriteGlobal_conserved env evalDelta params1 creator appIdx w1 hc1
    (by
      intro hlen
      obtain ⟨p0, h1, h2⟩ := hp hlen
      exact ⟨p0, by rw [hS.1]; exact h1, hsch.trans h2⟩)
  split
  · rename_i heq; rw [heq] at hW; exact hW.1
  rename_i w2 hwg
  rw [hwg] at hW
  have hperm := env.rangeChanges_perm changes.entries
  apply applyEvalDeltaWriteLocal_conserved env appIdx (env.rangeChanges changes.entries) w2
    (akeys_perm_nodup hperm changes.nodup) hW.1
  intro a ls1 hm
  obtain ⟨ls0, h1, h2⟩ := hq a ls1 (hperm.mem_iff.mp hm)
  refine ⟨ls0, ?_, h2⟩
  rw [hW.2 a, hS.1]
  exact h1
/-! ## Schema conservation through `ApplicationCall` -/

theorem getAppParams_ok_inv (env : Env) (aidx : AppIndex) (w w1 : World) (params : AppParams)
    (creator : Address) (ex : Bool)
    (h : getAppParams env aidx w = (Except.ok (params, creator, ex), w1)) :
    w1.balances = w.balances ∧
    (ex = true → (w.balances.accts creator).AppParams.lookup aidx = some params) := by
  have hN := getAppParams_noPut env aidx w
  rw [h] at hN
  refine ⟨hN.1, ?_⟩
  revert h
  unfold getAppParams
  have hC := GetCreator_noPut env aidx CreatableType.AppCreatable w
  split
  · intro h; simp at h
  · intro h
    simp only [Prod.mk.injEq, Except.ok.injEq] at h
    intro he
    rw [← h.1.2.2] at he
    simp at he
  · rename_i c w2 hgc
    rw [hgc] at hC
    split
    · intro h; simp at h
    rename_i record w3 hget
    obtain ⟨hrec, _⟩ := Get_ok_inv env c w2 w3 record hget
    split
    · intro h; simp at h
    rename_i p hl
    intro h _
    simp only [Prod.mk.injEq, Except.ok.injEq] at h
    obtain ⟨⟨h1, h2, _⟩, _⟩ := h
    subst h1; subst h2
    rw [hrec] at hl
    dsimp only at hl
    rw [hC.1] at hl
    exact hl

theorem applyClearStateProgram_conserved (env : Env) (ac : ApplicationCallTxnFields)
    (sender : Address) (appIdx : AppIndex) (ad : ApplyData) (steva : StateEvaluator)
    (params : AppParams) (creator : Address) (w : World) (hc : Conserved w.balances)
    (hp : (w.balances.accts creator).AppParams.lookup appIdx = some params) :
    Conserved
      (applyClearStateProgram env ac sender appIdx ad steva params creator w).2.2.balances := by
  unfold applyClearStateProgram
  simp only [StateEvaluator.callEval]
  have hA := applyEvalDelta_conserved env ac (steva.Eval w.balances params.ClearStateProgram).2.1
    params creator sender appIdx (w.log (Event.evEval params.ClearStateProgram)) hc
    (fun _ => ⟨params, hp, rfl⟩)
  split
  · split
    · exact hA
    · split
      · exact hA
      · exact hA
  · exact hc

theorem applyClearState_conserved (env : Env) (ac : ApplicationCallTxnFields)
    (sender : Address) (appIdx : AppIndex) (ad : ApplyData) (steva : StateEvaluator)
    (w : World) (hc : Conserved w.balances) :
    Conserved (applyClearState env ac sender appIdx ad steva w).2.2.balances := by
  unfold applyClearState
  have hA := getAppParams_noPut env appIdx w
  split
  · rename_i heq; rw [heq] at hA; dsimp only; rw [hA.1]; exact hc
  rename_i params creator ex w1 hgp
  obtain ⟨hb1, hex⟩ := getAppParams_ok_inv env appIdx w w1 params creator ex hgp
  have hG := Get_noPut env sender w1
  split
  · rename_i heq; rw [heq] at hG; dsimp only; rw [hG.1, hb1]; exact hc
  rename_i record w2 hget
  obtain ⟨hrec, hb2⟩ := Get_ok_inv env sender w1 w2 record hget
  subst hrec
  have hc2 : Conserved w2.balances := by rw [hb2, hb1]; exact hc
  split
  · exact hc2
  split
  · rename_i hx
    have hP := applyClearStateProgram_conserved env ac sender appIdx ad steva params creator w2
      hc2 (by rw [hb2, hb1]; exact hex hx)
    split
    · rename_i heq; rw [heq] at hP; exact hP
    rename_i ad1 w3 heq
    rw [heq] at hP
    have hG3 := Get_noPut env sender w3
    split
    · rename_i heq4; rw [heq4] at hG3; dsimp only; rw [hG3.1]; exact hP
    rename_i record2 w4 hget4
    obtain ⟨hrec4, hb4⟩ := Get_ok_inv env sender w3 w4 record2 hget4
    subst hrec4
    exact applyClearStateFinish_conserved env sender appIdx w3 w4 (by rw [hb4]; exact hP) hb4
  · exact applyClearStateFinish_conserved env sender appIdx w1 w2 hc2 hb2

theorem ApplicationCallApproval_conserved (env : Env) (ac : ApplicationCallTxnFields)
    (header : Header) (ad : ApplyData) (steva : StateEvaluator) (params : AppParams)
    (creator : Address) (appIdx : AppIndex) (w : World) (hc : Conserved w.balances)
    (hp : (w.balances.accts creator).AppParams.lookup appIdx = some params) :
    Conserved
      (ApplicationCallApproval env ac header ad steva params creator appIdx w).2.2.balances := by
  unfold ApplicationCallApproval
  have hO : Conserved (if ac.OnCompletion = OptInOC then
        applyOptIn env header.Sender appIdx params w else (none, w)).2.balances ∧
      ∀ a, ((if ac.OnCompletion = OptInOC then
        applyOptIn env header.Sender appIdx params w else (none, w)).2.balances.accts
          a).AppParams = (w.balances.accts a).AppParams := by
    split
    · exact applyOptIn_conserved env header.Sender appIdx params w hc
    · exact ⟨hc, fun _ => rfl⟩
  split
  · rename_i heq; rw [heq] at hO; exact hO.1
  rename_i w1 heq
  rw [heq] at hO
  simp only [StateEvaluator.callEval]
  split
  · rename_i heq2
    simp only [Prod.mk.injEq] at heq2
    rw [← heq2.2]; exact hO.1
  rename_i approved evalDelta w2 heq2
  simp only [Prod.mk.injEq] at heq2
  obtain ⟨_, h4⟩ := heq2
  subst h4
  split
  · exact hO.1
  have hA := applyEvalDelta_conserved env ac evalDelta params creator header.Sender appIdx
    (w1.log (Event.evEval params.ApprovalProgram)) hO.1
    (fun _ => ⟨params, by rw [World.log_balances, hO.2 creator]; exact hp, rfl⟩)
  split
  · rename_i heq3; rw [heq3] at hA; exact hA
  rename_i w3 heq3
  rw [heq3] at hA
  have hC := ApplicationCallCompletion_conserved env ac header creator appIdx w3 hA
  split
  · rename_i heq4; rw [heq4] at hC; exact hC
  · rename_i heq4; rw [heq4] at hC; exact hC

theorem ApplicationCallBody_conserved (env : Env) (ac : ApplicationCallTxnFields)
    (header : Header) (ad : ApplyData) (txnCounter : Nat) (steva : StateEvaluator) (w : World)
    (hc : Conserved w.balances)
    (hfresh : ac.ApplicationID = 0 →
      (w.balances.accts header.Sender).AppParams.lookup ((txnCounter + 1) % 2 ^ 64) = none) :
    Conserved (ApplicationCallBody env ac header ad txnCounter steva w).2.2.balances := by
  unfold ApplicationCallBody
  have hCr : Conserved (if ac.ApplicationID = 0 then
      createApplication env ac header.Sender txnCounter w
      else (Except.ok ac.ApplicationID, w)).2.balances := by
    split
    · rename_i h0
      exact createApplication_conserved env ac header.Sender txnCounter w hc (hfresh h0)
    · exact hc
  split
  · rename_i heq; rw [heq] at hCr; exact hCr
  rename_i appIdx w1 heq
  rw [heq] at hCr
  have hA := getAppParams_noPut env appIdx w1
  split
  · rename_i heq2; rw [heq2] at hA; dsimp only; rw [hA.1]; exact hCr
  rename_i params creator ex w2 hgp
  obtain ⟨hb2, hex⟩ := getAppParams_ok_inv env appIdx w1 w2 params creator ex hgp
  have hc2 : Conserved w2.balances := by rw [hb2]; exact hCr
  split
  · exact hc2
  rename_i hcond
  have hI := callInitLedger_noPut steva appIdx params.StateSchemas w2
  split
  · rename_i heq3; rw [heq3] at hI; dsimp only; rw [hI.1]; exact hc2
  rename_i w3 heq3
  rw [heq3] at hI
  have hb3 : w3.balances = w2.balances := hI.1
  have hK : (if ac.ApplicationID = 0 ∨ ac.OnCompletion = UpdateApplicationOC then
      checkPrograms ac steva env.proto.MaxAppProgramCost w3 else (none, w3)).2.balances
      = w3.balances := by
    split
    · exact (checkPrograms_noPut ac steva env.proto.MaxAppProgramCost w3).1
    · rfl
  split
  · rename_i heq4; rw [heq4] at hK; dsimp only at hK ⊢; rw [hK, hb3]; exact hc2
  rename_i w4 heq4
  rw [heq4] at hK
  have hb4 : w4.balances = w2.balances := hK.trans hb3
  have hc4 : Conserved w4.balances := by rw [hb4]; exact hc2
  split
  · exact applyClearState_conserved env ac header.Sender appIdx ad steva w4 hc4
  · rename_i hcl
    have hx : ex = true := by
      cases ex with
      | true => rfl
      | false => exact absurd ⟨rfl, hcl⟩ hcond
    exact ApplicationCallApproval_conserved env ac header ad steva params creator appIdx w4
      hc4 (by rw [hb4, hb2]; exact hex hx)

theorem ApplicationCall_conserved (env : Env) (ac : ApplicationCallTxnFields)
    (header : Header) (ad : Option ApplyData) (txnCounter : Nat) (steva : StateEvaluator)
    (w : World) (hc : Conserved w.balances)
    (hfresh : ac.ApplicationID = 0 →
      (w.balances.accts header.Sender).AppParams.lookup ((txnCounter + 1) % 2 ^ 64) = none) :
    Conserved (ApplicationCall env ac header ad txnCounter steva w).2.2.balances := by
  unfold ApplicationCall
  cases ad with
  | none => exact hc
  | some ad0 =>
    have hB := ApplicationCallBody_conserved env ac header ad0 txnCounter steva w hc hfresh
    dsimp only
    split
    · rename_i heq; rw [heq] at hB; exact hB
    · rename_i heq; rw [heq] at hB; exact hB
/-! ## C2 -/

/-- C2, as the code has it.  Schema conservation: if every account record of
the storage view satisfies `TotalAppSchema` = sum of `Schema` over
`AppLocalStates` + sum of `GlobalStateSchema` over `AppParams`, in both
components, then after any sequence of invocations of `ApplicationCall`,
successful or failed, in which every create call gets an application index
that its creator does not hold yet, every account record still satisfies the
equation. -/
theorem runCalls_schema_conserved (calls : List Call) (w : World)
    (hc : Conserved w.balances) (hf : FreshCreates calls w) :
    Conserved (runCalls calls w).balances := by
  induction calls generalizing w with
  | nil => exact hc
  | cons c cs ih =>
    obtain ⟨hfresh, hrest⟩ := hf
    have hstep : Conserved
        (ApplicationCall c.env c.ac c.header c.ad c.txnCounter c.steva w).2.2.balances :=
      ApplicationCall_conserved c.env c.ac c.header c.ad c.txnCounter c.steva w hc hfresh
    exact ih _ hstep hrest

/-- C2 at a concrete input: a create, an opt-in, a close-out and a delete on
the state without applications. -/
theorem runCalls_schema_conserved_witness :
    Conserved w0.balances ∧ FreshCreates lifecycleCalls w0 ∧
    Conserved (runCalls lifecycleCalls w0).balances :=
  have hc : Conserved w0.balances := fun _ => ⟨rfl, rfl⟩
  have hf : FreshCreates lifecycleCalls w0 :=
    ⟨fun _ => by decide, fun h => absurd h (by decide), fun h => absurd h (by decide),
      fun h => absurd h (by decide), trivial⟩
  ⟨hc, hf, runCalls_schema_conserved lifecycleCalls w0 hc hf⟩

/-- C2 fails as stated: account 1 holds application 5 and its record is
conserved; a create call of account 1 with transaction counter 4 overwrites
the entry of application 5 and adds the declared global schema to
`TotalAppSchema` once more. -/
theorem runCalls_schema_conserved_counterexample :
    Conserved w5.balances ∧ ¬ Conserved (runCalls collidingCreate w5).balances := by
  constructor
  · intro a
    show SchemaConserved (if a = 1 then acct1 else if a = 7 then acct7 else emptyAcct)
    split
    · exact ⟨rfl, rfl⟩
    · split <;> exact ⟨rfl, rfl⟩
  · intro h
    have h1 := (h 1).1
    revert h1
    decide

/-! ## `applyStateDelta` -/

theorem mem_of_alookup {K V : Type} [DecidableEq K] (k : K) (v : V) :
    ∀ (l : List (K × V)), alookup k l = some v → (k, v) ∈ l
  | [], h => by simp [alookup] at h
  | (a, b) :: tl, h => by
    simp only [alookup] at h
    by_cases ha : a = k
    · simp only [ha, if_true, Option.some.injEq] at h
      subst ha; subst h
      exact List.mem_cons_self _ _
    · simp only [ha, if_false] at h
      exact List.mem_cons_of_mem _ (mem_of_alookup k v tl h)

theorem applyStateDeltaLoop_recognised :
    ∀ (l : List (Key × ValueDelta)) (m : KVMap), (akeys l).Nodup →
      (∀ k vd, (k, vd) ∈ l →
        vd.Action = SetUintAction ∨ vd.Action = SetBytesAction ∨ vd.Action = DeleteAction) →
      (applyStateDeltaLoop m l).2 = none ∧
      ∀ k, (applyStateDeltaLoop m l).1.lookup k
        = match alookup k l with
          | some vd => deltaValue vd
          | none => m.lookup k
  | [], m, _, _ => ⟨rfl, fun _ => rfl⟩
  | (key, vd) :: rest, m, hnd, hrec => by
    simp only [akeys, List.map_cons, List.nodup_cons] at hnd
    have hno : alookup key rest = none := alookup_of_not_mem_keys key rest hnd.1
    have hrest : ∀ k v, (k, v) ∈ rest →
        v.Action = SetUintAction ∨ v.Action = SetBytesAction ∨ v.Action = DeleteAction :=
      fun k v hm => hrec k v (List.mem_cons_of_mem _ hm)
    have key_case : ∀ m1 : KVMap, m1.lookup key = deltaValue vd →
        (∀ k, k ≠ key → m1.lookup k = m.lookup k) →
        (applyStateDeltaLoop m1 rest).2 = none ∧
        ∀ k, (applyStateDeltaLoop m1 rest).1.lookup k
          = match alookup k ((key, vd) :: rest) with
            | some vd => deltaValue vd
            | none => m.lookup k := by
      intro m1 h1 h2
      obtain ⟨ih1, ih2⟩ := applyStateDeltaLoop_recognised rest m1 hnd.2 hrest
      refine ⟨ih1, fun k => ?_⟩
      rw [ih2 k]
      by_cases hk : key = k
      · subst hk
        simp only [alookup, if_true, hno]
        exact h1
      · have hk2 : k ≠ key := fun h => hk h.symm
        simp only [alookup, hk, if_false]
        cases alookup k rest with
        | none => exact h2 k hk2
        | some v => rfl
    unfold applyStateDeltaLoop
    split
    · rename_i hu
      apply key_case
      · rw [GoMap.lookup_insert_self]; unfold deltaValue; rw [if_pos hu]
      · intro k hk; exact GoMap.lookup_insert_ne _ _ _ _ hk
    rename_i hu
    split
    · rename_i hb
      apply key_case
      · rw [GoMap.lookup_insert_self]; unfold deltaValue; rw [if_neg hu, if_pos hb]
      · intro k hk; exact GoMap.lookup_insert_ne _ _ _ _ hk
    rename_i hb
    split
    · apply key_case
      · rw [GoMap.lookup_erase_self]; unfold deltaValue; rw [if_neg hu, if_neg hb]
      · intro k hk; exact GoMap.lookup_erase_ne _ _ _ hk
    · rename_i hd
      rcases hrec key vd (List.mem_cons_self _ _) with h | h | h
      · exact absurd h hu
      · exact absurd h hb
      · exact absurd h hd

/-! ## C11 -/

/-- C11. Reference semantics of `applyStateDelta`: for every non-nil store
and every delta whose actions are all `SetUintAction`, `SetBytesAction` or
`DeleteAction`, `applyStateDelta` returns nil and the store after the call
has, for every key k: the value of type uint with the uint of the delta and
empty bytes if the delta sets k to a uint; the value of type bytes with the
bytes of the delta and uint zero if the delta sets k to bytes; no entry if
the delta deletes k; and, if k is not in the delta, the entry (presence and
value) it had before. -/
theorem applyStateDelta_reference (m : KVMap) (delta : StateDelta) (hrec : Recognised delta) :
    (applyStateDelta (some m) delta).2 = none ∧
    ∃ m1, (applyStateDelta (some m) delta).1 = some m1 ∧
      ∀ k,
        (∀ vd, delta.lookup k = some vd →
          (vd.Action = SetUintAction →
            m1.lookup k = some ⟨TealType.TealUintType, [], vd.Uint⟩) ∧
          (vd.Action = SetBytesAction →
            m1.lookup k = some ⟨TealType.TealBytesType, vd.Bytes, 0⟩) ∧
          (vd.Action = DeleteAction → m1.lookup k = none)) ∧
        (delta.lookup k = none → m1.lookup k = m.lookup k) := by
  obtain ⟨h1, h2⟩ := applyStateDeltaLoop_recognised delta.entries m delta.nodup hrec
  refine ⟨h1, (applyStateDeltaLoop m delta.entries).1, rfl, fun k => ⟨?_, ?_⟩⟩
  · intro vd hl
    have hk := h2 k
    unfold GoMap.lookup at hl
    rw [hl] at hk
    simp only at hk
    refine ⟨fun ha => ?_, fun ha => ?_, fun ha => ?_⟩
    · rw [hk]; simp [deltaValue, ha]
    · rw [hk]
      have : ¬ (SetBytesAction = SetUintAction) := by decide
      simp [deltaValue, ha, this]
    · rw [hk]
      have h3 : ¬ (DeleteAction = SetUintAction) := by decide
      have h4 : ¬ (DeleteAction = SetBytesAction) := by decide
      simp [deltaValue, ha, h3, h4]
  · intro hl
    have hk := h2 k
    unfold GoMap.lookup at hl
    rw [hl] at hk
    exact hk

/-- C11 at a concrete input: the delta deletes "a", sets "b" to bytes and
sets "c" to a uint in a store that holds "a". -/
theorem applyStateDelta_reference_witness :
    Recognised deltaMixed ∧
    (applyStateDelta (some kvA) deltaMixed).2 = none ∧
    ∃ m1, (applyStateDelta (some kvA) deltaMixed).1 = some m1 ∧
      ∀ k,
        (∀ vd, deltaMixed.lookup k = some vd →
          (vd.Action = SetUintAction →
            m1.lookup k = some ⟨TealType.TealUintType, [], vd.Uint⟩) ∧
          (vd.Action = SetBytesAction →
            m1.lookup k = some ⟨TealType.TealBytesType, vd.Bytes, 0⟩) ∧
          (vd.Action = DeleteAction → m1.lookup k = none)) ∧
        (deltaMixed.lookup k = none → m1.lookup k = kvA.lookup k) := by
  have hrec : Recognised deltaMixed := by
    intro k vd hm
    have h2 : deltaMixed.entries
        = [("c", ⟨SetUintAction, [], 9⟩), ("b", ⟨SetBytesAction, [1, 2], 0⟩),
           ("a", ⟨DeleteAction, [], 0⟩)] := by decide
    rw [h2] at hm
    simp only [List.mem_cons, Prod.mk.injEq, List.mem_singleton, List.not_mem_nil,
      or_false] at hm
    rcases hm with ⟨_, h⟩ | ⟨_, h⟩ | ⟨_, h⟩
    · rw [h]; exact Or.inl rfl
    · rw [h]; exact Or.inr (Or.inl rfl)
    · rw [h]; exact Or.inr (Or.inr rfl)
  exact ⟨hrec, applyStateDelta_reference kvA deltaMixed hrec⟩
theorem aerase_of_alookup_none {K V : Type} [DecidableEq K] (k : K) :
    ∀ (l : List (K × V)), alookup k l = none → aerase k l = l
  | [], _ => rfl
  | (a, b) :: tl, h => by
    simp only [alookup] at h
    by_cases ha : a = k
    · simp [ha] at h
    · simp only [ha, if_false] at h
      rw [aerase_cons, if_neg ha, aerase_of_alookup_none k tl h]

theorem GoMap.erase_of_lookup_none {K V : Type} [DecidableEq K] (m : GoMap K V) (k : K)
    (h : m.lookup k = none) : m.erase k = m := by
  obtain ⟨entries, nodup⟩ := m
  simp only [GoMap.erase, GoMap.mk.injEq]
  exact aerase_of_alookup_none k entries h

theorem applyStateDeltaLoop_delete_absent :
    ∀ (l : List (Key × ValueDelta)) (m : KVMap),
      (∀ k vd, (k, vd) ∈ l → vd.Action = DeleteAction ∧ m.lookup k = none) →
      applyStateDeltaLoop m l = (m, none)
  | [], _, _ => rfl
  | (key, vd) :: rest, m, h => by
    obtain ⟨ha, hl⟩ := h key vd (List.mem_cons_self _ _)
    have h3 : ¬ (DeleteAction = SetUintAction) := by decide
    have h4 : ¬ (DeleteAction = SetBytesAction) := by decide
    unfold applyStateDeltaLoop
    rw [ha, if_neg h3, if_neg h4, if_pos rfl, GoMap.erase_of_lookup_none m key hl]
    exact applyStateDeltaLoop_delete_absent rest m
      (fun k v hm => h k v (List.mem_cons_of_mem _ hm))

theorem applyStateDeltaLoop_none :
    ∀ (l : List (Key × ValueDelta)) (m : KVMap), (applyStateDeltaLoop m l).2 = none →
      ∀ k vd, (k, vd) ∈ l →
        vd.Action = SetUintAction ∨ vd.Action = SetBytesAction ∨ vd.Action = DeleteAction
  | [], _, _ => fun _ _ hm => absurd hm (List.not_mem_nil _)
  | (key, vd) :: rest, m, h => by
    revert h
    unfold applyStateDeltaLoop
    split
    · rename_i hu
      intro h k v hm
      rcases List.mem_cons.mp hm with hm | hm
      · simp only [Prod.mk.injEq] at hm
        rw [hm.2]; exact Or.inl hu
      · exact applyStateDeltaLoop_none rest _ h k v hm
    split
    · rename_i hb
      intro h k v hm
      rcases List.mem_cons.mp hm with hm | hm
      · simp only [Prod.mk.injEq] at hm
        rw [hm.2]; exact Or.inr (Or.inl hb)
      · exact applyStateDeltaLoop_none rest _ h k v hm
    split
    · rename_i hd
      intro h k v hm
      rcases List.mem_cons.mp hm with hm | hm
      · simp only [Prod.mk.injEq] at hm
        rw [hm.2]; exact Or.inr (Or.inr hd)
      · exact applyStateDeltaLoop_none rest _ h k v hm
    · intro h; simp at h

/-! ## C12 -/

/-- C12. Deleting absent keys is a no-op: for every non-nil store and every
delta that consists only of `DeleteAction` entries for keys that the store
does not hold, `applyStateDelta` returns nil and the store is unchanged. -/
theorem applyStateDelta_delete_absent (m : KVMap) (delta : StateDelta)
    (h : ∀ k vd, (k, vd) ∈ delta.entries → vd.Action = DeleteAction ∧ m.lookup k = none) :
    (applyStateDelta (some m) delta).2 = none ∧
    (applyStateDelta (some m) delta).1 = some m := by
  have hl := applyStateDeltaLoop_delete_absent delta.entries m h
  simp [applyStateDelta, hl]

/-- C12 at a concrete input: the delta deletes "x" and "y" from a store that
holds only "a". -/
theorem applyStateDelta_delete_absent_witness :
    (∀ k vd, (k, vd) ∈ deltaDeletes.entries →
      vd.Action = DeleteAction ∧ kvA.lookup k = none) ∧
    (applyStateDelta (some kvA) deltaDeletes).2 = none ∧
    (applyStateDelta (some kvA) deltaDeletes).1 = some kvA := by
  have h : ∀ k vd, (k, vd) ∈ deltaDeletes.entries →
      vd.Action = DeleteAction ∧ kvA.lookup k = none := by
    intro k vd hm
    have h2 : deltaDeletes.entries
        = [("y", ⟨DeleteAction, [], 0⟩), ("x", ⟨DeleteAction, [], 0⟩)] := by decide
    rw [h2] at hm
    simp only [List.mem_cons, Prod.mk.injEq, List.mem_singleton, List.not_mem_nil,
      or_false] at hm
    rcases hm with ⟨hk, hv⟩ | ⟨hk, hv⟩
    · rw [hk, hv]; exact ⟨rfl, by decide⟩
    · rw [hk, hv]; exact ⟨rfl, by decide⟩
  exact ⟨h, applyStateDelta_delete_absent kvA deltaDeletes h⟩

/-! ## C13 -/

/-- C13. Failure conditions of `applyStateDelta`: it returns a non-nil error
if and only if the store is nil (also for the empty delta) or the delta has
an entry whose action is none of `SetUintAction`, `SetBytesAction` and
`DeleteAction`; and its error is never an `applyError`. -/
theorem applyStateDelta_fails_iff (kv : TealKeyValue) (delta : StateDelta) :
    ((applyStateDelta kv delta).2 ≠ none ↔
      (kv = none ∨ ∃ k vd, (k, vd) ∈ delta.entries ∧
        ¬ (vd.Action = SetUintAction ∨ vd.Action = SetBytesAction ∨
            vd.Action = DeleteAction))) ∧
    isApplyError (applyStateDelta kv delta).2 = false ∧
    (applyStateDelta none GoMap.empty).2 ≠ none := by
  refine ⟨?_, ?_, by simp [applyStateDelta]⟩
  · cases kv with
    | none => simp [applyStateDelta]
    | some m =>
      simp only [applyStateDelta, reduceCtorEq, false_or]
      constructor
      · intro h
        cases he : (applyStateDeltaLoop m delta.entries).2 with
        | none => exact absurd he h
        | some e =>
          obtain ⟨_, k, vd, h2, h3⟩ := applyStateDeltaLoop_error delta.entries m
            (applyStateDeltaLoop m delta.entries).1 e (Prod.ext rfl he)
          exact ⟨k, vd, h2, h3⟩
      · rintro ⟨k, vd, hm, hn⟩ he
        exact hn (applyStateDeltaLoop_none delta.entries m he k vd hm)
  · cases kv with
    | none => rfl
    | some m =>
      simp only [applyStateDelta]
      cases he : (applyStateDeltaLoop m delta.entries).2 with
      | none => rfl
      | some e =>
        obtain ⟨h1, _⟩ := applyStateDeltaLoop_error delta.entries m
          (applyStateDeltaLoop m delta.entries).1 e (Prod.ext rfl he)
        rw [h1]; rfl

/-! ## Creation -/

theorem createApplication_ok (env : Env) (ac : ApplicationCallTxnFields)
    (creator : Address) (txnCounter : Nat) (w : World) (convertedAp convertedCsp : Program)
    (hget : env.fault w.trace = none)
    (hput : env.fault (Event.evGet creator true :: w.trace) = none)
    (hlen : ((w.balances.accts creator).AppParams.len : Int) < env.proto.MaxAppsCreated)
    (hap : prepareProgram env ac.ApprovalProgram = Except.ok convertedAp)
    (hcsp : prepareProgram env ac.ClearStateProgram = Except.ok convertedCsp) :
    createApplication env ac creator txnCounter w =
      (Except.ok ((txnCounter + 1) % 2 ^ 64),
        { balances :=
            { accts := Function.update w.balances.accts creator
                { w.balances.accts creator with
                  AppParams :=
                    (w.balances.accts creator).AppParams.insert ((txnCounter + 1) % 2 ^ 64)
                      ⟨convertedAp, convertedCsp, ac.LocalStateSchema, ac.GlobalStateSchema,
                        none⟩,
                  TotalAppSchema :=
                    (w.balances.accts creator).TotalAppSchema.AddSchema ac.GlobalStateSchema },
              creators := updCreators w.balances.creators
                (some ⟨creator, CreatableType.AppCreatable, (txnCounter + 1) % 2 ^ 64⟩) none },
          trace :=
            Event.evPutWithCreatable
              ⟨creator, { w.balances.accts creator with
                AppParams :=
                  (w.balances.accts creator).AppParams.insert ((txnCounter + 1) % 2 ^ 64)
                    ⟨convertedAp, convertedCsp, ac.LocalStateSchema, ac.GlobalStateSchema,
                      none⟩,
                TotalAppSchema :=
                  (w.balances.accts creator).TotalAppSchema.AddSchema ac.GlobalStateSchema }⟩
              (some ⟨creator, CreatableType.AppCreatable, (txnCounter + 1) % 2 ^ 64⟩) none true ::
            Event.evGet creator true :: w.trace }) := by
  have hl : ¬ (((w.balances.accts creator).AppParams.len : Int) ≥ env.proto.MaxAppsCreated) :=
    not_le.mpr hlen
  simp only [createApplication, Get, hget, World.log, hl, if_false, hap, hcsp,
    PutWithCreatable, hput, cloneAppParams]

/-! ## C14 -/

/-- C14. Postcondition of create: when the storage view serves the read and
the write, the record of the creator holds fewer than `MaxAppsCreated`
`AppParams` entries and both programs normalise, `createApplication` with
transaction counter `c` returns the index `c + 1` (a uint64 sum) and writes
exactly one record, that of the creator, in which the entry of the new index
holds the normalised programs, the declared schemas and a nil global store,
`TotalAppSchema` is the old one plus the declared `GlobalStateSchema`, and
every other entry and field is as before; the write carries the created
locator (creator, AppCreatable, index) and no deleted locator, and no other
account changes. -/
theorem createApplication_postcondition (env : Env) (ac : ApplicationCallTxnFields)
    (creator : Address) (txnCounter : Nat) (w : World) (convertedAp convertedCsp : Program)
    (hget : env.fault w.trace = none)
    (hput : env.fault (Event.evGet creator true :: w.trace) = none)
    (hlen : ((w.balances.accts creator).AppParams.len : Int) < env.proto.MaxAppsCreated)
    (hap : prepareProgram env ac.ApprovalProgram = Except.ok convertedAp)
    (hcsp : prepareProgram env ac.ClearStateProgram = Except.ok convertedCsp) :
    ∃ (appIdx : AppIndex) (record : BalanceRecord) (w' : World),
      createApplication env ac creator txnCounter w = (Except.ok appIdx, w') ∧
      appIdx = (txnCounter + 1) % 2 ^ 64 ∧
      (txnCounter + 1 < 2 ^ 64 → appIdx = txnCounter + 1) ∧
      w'.trace =
        Event.evPutWithCreatable record (some ⟨creator, CreatableType.AppCreatable, appIdx⟩)
          none true :: Event.evGet creator true :: w.trace ∧
      record.Addr = creator ∧
      w'.balances.accts creator = record.data ∧
      record.data.AppParams.lookup appIdx =
        some ⟨convertedAp, convertedCsp, ac.LocalStateSchema, ac.GlobalStateSchema, none⟩ ∧
      record.data.TotalAppSchema =
        (w.balances.accts creator).TotalAppSchema.AddSchema ac.GlobalStateSchema ∧
      (∀ j, j ≠ appIdx →
        record.data.AppParams.lookup j = (w.balances.accts creator).AppParams.lookup j) ∧
      record.data.AppLocalStates = (w.balances.accts creator).AppLocalStates ∧
      record.data.MicroAlgos = (w.balances.accts creator).MicroAlgos ∧
      (∀ a, a ≠ creator → w'.balances.accts a = w.balances.accts a) ∧
      w'.balances.creators CreatableType.AppCreatable appIdx = some creator := by
  refine ⟨_, _, _, createApplication_ok env ac creator txnCounter w convertedAp convertedCsp
    hget hput hlen hap hcsp, rfl, fun h => Nat.mod_eq_of_lt h, rfl, rfl, ?_,
    GoMap.lookup_insert_self _ _ _, rfl, ?_, rfl, rfl, ?_, ?_⟩
  · simp
  · intro j hj
    exact GoMap.lookup_insert_ne _ _ _ _ hj
  · intro a ha
    simp [Function.update, ha]
  · simp [updCreators]

/-- C14 at a concrete input: account 1, which holds application 5, creates a
second application at transaction counter 41. -/
theorem createApplication_postcondition_witness :
    ∃ (appIdx : AppIndex) (record : BalanceRecord) (w' : World),
      createApplication env0 acCreate 1 41 w5 = (Except.ok appIdx, w') ∧
      appIdx = (41 + 1) % 2 ^ 64 ∧
      (41 + 1 < 2 ^ 64 → appIdx = 41 + 1) ∧
      w'.trace =
        Event.evPutWithCreatable record (some ⟨1, CreatableType.AppCreatable, appIdx⟩)
          none true :: Event.evGet 1 true :: w5.trace ∧
      record.Addr = 1 ∧
      w'.balances.accts 1 = record.data ∧
      record.data.AppParams.lookup appIdx =
        some ⟨[1], [1], acCreate.LocalStateSchema, acCreate.GlobalStateSchema, none⟩ ∧
      record.data.TotalAppSchema =
        (w5.balances.accts 1).TotalAppSchema.AddSchema acCreate.GlobalStateSchema ∧
      (∀ j, j ≠ appIdx →
        record.data.AppParams.lookup j = (w5.balances.accts 1).AppParams.lookup j) ∧
      record.data.AppLocalStates = (w5.balances.accts 1).AppLocalStates ∧
      record.data.MicroAlgos = (w5.balances.accts 1).MicroAlgos ∧
      (∀ a, a ≠ 1 → w'.balances.accts a = w5.balances.accts a) ∧
      w'.balances.creators CreatableType.AppCreatable appIdx = some 1 :=
  createApplication_postcondition env0 acCreate 1 41 w5 [1] [1] rfl rfl (by decide) rfl rfl

theorem createApplication_limit (env : Env) (ac : ApplicationCallTxnFields)
    (creator : Address) (txnCounter : Nat) (w : World)
    (hlen : ((w.balances.accts creator).AppParams.len : Int) ≥ env.proto.MaxAppsCreated) :
    ∃ e w1, createApplication env ac creator txnCounter w = (Except.error e, w1) ∧
      isApplyError (some e) = false ∧ NoPut w w1 ∧
      (env.fault w.trace = none →
        e = Error.errorf "cannot create app: max created apps per acct") := by
  cases hf : env.fault w.trace with
  | some c =>
    refine ⟨Error.external c, w.log (Event.evGet creator false), ?_, rfl, ⟨rfl, rfl⟩, ?_⟩
    · simp only [createApplication, Get, hf]
    · intro h; simp at h
  | none =>
    refine ⟨Error.errorf "cannot create app: max created apps per acct",
      w.log (Event.evGet creator true), ?_, rfl, ⟨rfl, rfl⟩, fun _ => rfl⟩
    simp only [createApplication, Get, hf, hlen, if_true]

/-! ## C15 -/

/-- C15, amended. Creation limit: when the record of the sender already holds
`MaxAppsCreated` or more `AppParams` entries, `createApplication` and a create
call (`ApplicationID = 0`) of `ApplicationCall` return a non-nil error, the
storage view is unchanged and no `Put` or `PutWithCreatable` is issued; the
error is not an `applyError` (`isApplyError` is false), and when the read of
the record succeeds it is the plain error of the limit. -/
theorem ApplicationCall_creation_limit (env : Env) (ac : ApplicationCallTxnFields)
    (header : Header) (ad : ApplyData) (txnCounter : Nat) (steva : StateEvaluator) (w : World)
    (hid : ac.ApplicationID = 0)
    (hlen : ((w.balances.accts header.Sender).AppParams.len : Int) ≥ env.proto.MaxAppsCreated) :
    (∃ e w1, createApplication env ac header.Sender txnCounter w = (Except.error e, w1) ∧
      isApplyError (some e) = false ∧ NoPut w w1) ∧
    (ApplicationCall env ac header (some ad) txnCounter steva w).1 ≠ none ∧
    isApplyError (ApplicationCall env ac header (some ad) txnCounter steva w).1 = false ∧
    (ApplicationCall env ac header (some ad) txnCounter steva w).2.2.balances = w.balances ∧
    putEvents (ApplicationCall env ac header (some ad) txnCounter steva w).2.2.trace
      = putEvents w.trace ∧
    (env.fault w.trace = none →
      (ApplicationCall env ac header (some ad) txnCounter steva w).1
        = some (Error.errorf "cannot create app: max created apps per acct")) := by
  obtain ⟨e, w1, hc, hp, hn, hm⟩ := createApplication_limit env ac header.Sender txnCounter w hlen
  have hB : ApplicationCallBody env ac header ad txnCounter steva w = (some e, ad, w1) := by
    simp only [ApplicationCallBody, hid, if_true, hc]
  have hA : ApplicationCall env ac header (some ad) txnCounter steva w
      = (some e, some { ad with EvalDelta := EvalDelta.zero }, w1) := by
    simp only [ApplicationCall, hB]
  rw [hA]
  refine ⟨⟨e, w1, hc, hp, hn⟩, by simp, hp, hn.1, hn.2, ?_⟩
  intro hf
  rw [hm hf]

/-- C15 at a concrete input: account 1 holds one application and may hold
one. -/
theorem ApplicationCall_creation_limit_witness :
    (∃ e w1, createApplication envOneApp acCreate (⟨1⟩ : Header).Sender 41 w5
        = (Except.error e, w1) ∧
      isApplyError (some e) = false ∧ NoPut w5 w1) ∧
    (ApplicationCall envOneApp acCreate ⟨1⟩ (some ⟨0, EvalDelta.zero⟩) 41
      (stevaPass 0 EvalDelta.zero) w5).1 ≠ none ∧
    isApplyError (ApplicationCall envOneApp acCreate ⟨1⟩ (some ⟨0, EvalDelta.zero⟩) 41
      (stevaPass 0 EvalDelta.zero) w5).1 = false ∧
    (ApplicationCall envOneApp acCreate ⟨1⟩ (some ⟨0, EvalDelta.zero⟩) 41
      (stevaPass 0 EvalDelta.zero) w5).2.2.balances = w5.balances ∧
    putEvents (ApplicationCall envOneApp acCreate ⟨1⟩ (some ⟨0, EvalDelta.zero⟩) 41
      (stevaPass 0 EvalDelta.zero) w5).2.2.trace = putEvents w5.trace ∧
    (envOneApp.fault w5.trace = none →
      (ApplicationCall envOneApp acCreate ⟨1⟩ (some ⟨0, EvalDelta.zero⟩) 41
        (stevaPass 0 EvalDelta.zero) w5).1
        = some (Error.errorf "cannot create app: max created apps per acct")) :=
  ApplicationCall_creation_limit envOneApp acCreate ⟨1⟩ ⟨0, EvalDelta.zero⟩ 41
    (stevaPass 0 EvalDelta.zero) w5 rfl (by decide)

/-- C15 fails as stated: account 1 holds one application and may hold one; its
create call fails with the plain error of the limit, for which `isApplyError`
is false. -/
theorem ApplicationCall_creation_limit_counterexample :
    acCreate.ApplicationID = 0 ∧
    ((w5.balances.accts 1).AppParams.len : Int) ≥ envOneApp.proto.MaxAppsCreated ∧
    (ApplicationCall envOneApp acCreate ⟨1⟩ (some ⟨0, EvalDelta.zero⟩) 41
      (stevaPass 0 EvalDelta.zero) w5).1
      = some (Error.errorf "cannot create app: max created apps per acct") ∧
    isApplyError (ApplicationCall envOneApp acCreate ⟨1⟩ (some ⟨0, EvalDelta.zero⟩) 41
      (stevaPass 0 EvalDelta.zero) w5).1 ≠ true := by
  decide

/-! ## The path to the approval program -/

theorem GetCreator_ok_inv (env : Env) (cidx : Nat) (ctype : CreatableType) (w w1 : World)
    (c : Address) (ex : Bool) :
    GetCreator env cidx ctype w = (Except.ok (c, ex), w1) →
    (ex = true → w.balances.creators ctype cidx = some c) ∧
    (ex = false → w.balances.creators ctype cidx = none) := by
  unfold GetCreator
  split
  · intro h; simp at h
  · split
    · rename_i a ha
      intro h
      simp only [Prod.mk.injEq, Except.ok.injEq] at h
      obtain ⟨⟨h1, h2⟩, _⟩ := h
      subst h1; subst h2
      exact ⟨fun _ => ha, fun hf => by simp at hf⟩
    · rename_i ha
      intro h
      simp only [Prod.mk.injEq, Except.ok.injEq] at h
      obtain ⟨⟨_, h2⟩, _⟩ := h
      subst h2
      exact ⟨fun hf => by simp at hf, fun _ => ha⟩

theorem getAppParams_ok_creator (env : Env) (aidx : AppIndex) (w w1 : World)
    (params : AppParams) (creator : Address) (ex : Bool) :
    getAppParams env aidx w = (Except.ok (params, creator, ex), w1) →
    (ex = true → w.balances.creators CreatableType.AppCreatable aidx = some creator) ∧
    (ex = false → w.balances.creators CreatableType.AppCreatable aidx = none) := by
  unfold getAppParams
  split
  · intro h; simp at h
  · rename_i c w2 hgc
    intro h
    simp only [Prod.mk.injEq, Except.ok.injEq] at h
    obtain ⟨⟨_, h2, h3⟩, _⟩ := h
    subst h2; subst h3
    exact GetCreator_ok_inv env aidx CreatableType.AppCreatable w w2 c false hgc
  · rename_i c w2 hgc
    split
    · intro h; simp at h
    split
    · intro h; simp at h
    intro h
    simp only [Prod.mk.injEq, Except.ok.injEq] at h
    obtain ⟨⟨_, h2, h3⟩, _⟩ := h
    subst h2; subst h3
    exact GetCreator_ok_inv env aidx CreatableType.AppCreatable w w2 c true hgc

theorem ApplicationCallBody_dispatch (env : Env) (ac : ApplicationCallTxnFields)
    (header : Header) (ad : ApplyData) (txnCounter : Nat) (steva : StateEvaluator) (w : World)
    (hid : ac.ApplicationID ≠ 0) (hoc : ac.OnCompletion ≠ ClearStateOC) :
    (∃ e w1, ApplicationCallBody env ac header ad txnCounter steva w = (some e, ad, w1) ∧
      NoPut w w1) ∨
    (∃ params creator w4, NoPut w w4 ∧
      w.balances.creators CreatableType.AppCreatable ac.ApplicationID = some creator ∧
      (w.balances.accts creator).AppParams.lookup ac.ApplicationID = some params ∧
      ApplicationCallBody env ac header ad txnCounter steva w
        = ApplicationCallApproval env ac header ad steva params creator ac.ApplicationID w4) := by
  unfold ApplicationCallBody
  simp only [hid, if_false, false_or]
  have hA := getAppParams_noPut env ac.ApplicationID w
  split
  · rename_i err w2 heq; rw [heq] at hA
    exact Or.inl ⟨err, w2, rfl, hA⟩
  · rename_i params creator ex w2 heq
    rw [heq] at hA
    split
    · exact Or.inl ⟨_, w2, rfl, hA⟩
    · rename_i hex
      have hex1 : ex = true := by
        cases ex with
        | true => rfl
        | false => exact absurd ⟨rfl, hoc⟩ hex
      have hc := (getAppParams_ok_creator env ac.ApplicationID w w2 params creator ex heq).1 hex1
      have hp := (getAppParams_ok_inv env ac.ApplicationID w w2 params creator ex heq).2 hex1
      have hI := callInitLedger_noPut steva ac.ApplicationID params.StateSchemas w2
      split
      · rename_i err w3 heq3; rw [heq3] at hI
        exact Or.inl ⟨err, w3, rfl, hA.trans hI⟩
      · rename_i w3 heq3
        rw [heq3] at hI
        have hK := checkPrograms_noPut ac steva env.proto.MaxAppProgramCost w3
        have hw4 : ∀ e w4, (if ac.OnCompletion = UpdateApplicationOC then
            checkPrograms ac steva env.proto.MaxAppProgramCost w3 else (none, w3)) = (e, w4) →
            NoPut w w4 := by
          intro e w4 h4
          split at h4
          · rw [h4] at hK; exact (hA.trans hI).trans hK
          · simp only [Prod.mk.injEq] at h4
            rw [← h4.2]; exact hA.trans hI
        split
        · rename_i e w4 heq4
          exact Or.inl ⟨e, w4, rfl, hw4 _ _ heq4⟩
        · rename_i w4 heq4
          exact Or.inr ⟨params, creator, w4, hw4 _ _ heq4, hc, hp, rfl⟩
/-- C17. Application that does not exist: for an `ApplicationCall` with a
non-zero `ApplicationID` for which `GetCreator` reports that the application
does not exist, and any completion action other than ClearState, the call
returns an error, calls no method of the evaluator and issues no `Put`: the
only collaborator call is that `GetCreator`, and the storage view is as
before. -/
theorem ApplicationCall_absent_app (env : Env) (ac : ApplicationCallTxnFields)
    (header : Header) (ad : ApplyData) (txnCounter : Nat) (steva : StateEvaluator) (w : World)
    (c : Address) (hid : ac.ApplicationID ≠ 0)
    (hgc : (GetCreator env ac.ApplicationID CreatableType.AppCreatable w).1
      = Except.ok (c, false))
    (hoc : ac.OnCompletion ≠ ClearStateOC) :
    (ApplicationCall env ac header (some ad) txnCounter steva w).1
      = some (Error.errorf
          "only clearing out is supported for applications that do not exist") ∧
    (ApplicationCall env ac header (some ad) txnCounter steva w).2.2.balances = w.balances ∧
    (ApplicationCall env ac header (some ad) txnCounter steva w).2.2.trace
      = Event.evGetCreator ac.ApplicationID CreatableType.AppCreatable true :: w.trace ∧
    evaluatorEvents (ApplicationCall env ac header (some ad) txnCounter steva w).2.2.trace
      = evaluatorEvents w.trace ∧
    putEvents (ApplicationCall env ac header (some ad) txnCounter steva w).2.2.trace
      = putEvents w.trace := by
  have hG : GetCreator env ac.ApplicationID CreatableType.AppCreatable w
      = (Except.ok (c, false),
          w.log (Event.evGetCreator ac.ApplicationID CreatableType.AppCreatable true)) := by
    revert hgc
    unfold GetCreator
    split
    · intro h; simp at h
    · split
      · intro h; simp at h
      · intro h
        simp only [Except.ok.injEq, Prod.mk.injEq] at h
        rw [h.1]
  have hP : getAppParams env ac.ApplicationID w
      = (Except.ok (AppParams.zero, c, false),
          w.log (Event.evGetCreator ac.ApplicationID CreatableType.AppCreatable true)) := by
    simp only [getAppParams, hG]
  have hB : ApplicationCallBody env ac header ad txnCounter steva w
      = (some (Error.errorf
          "only clearing out is supported for applications that do not exist"), ad,
          w.log (Event.evGetCreator ac.ApplicationID CreatableType.AppCreatable true)) := by
    simp only [ApplicationCallBody, hid, if_false, hP, hoc, ne_eq, not_false_eq_true,
      and_self, if_true]
  have hA : ApplicationCall env ac header (some ad) txnCounter steva w
      = (some (Error.errorf
          "only clearing out is supported for applications that do not exist"),
          some { ad with EvalDelta := EvalDelta.zero },
          w.log (Event.evGetCreator ac.ApplicationID CreatableType.AppCreatable true)) := by
    simp only [ApplicationCall, hB]
  rw [hA]
  exact ⟨rfl, rfl, rfl, rfl, rfl⟩

/-- C17 at a concrete input: an update call on application 9, which does not
exist. -/
theorem ApplicationCall_absent_app_witness :
    (ApplicationCall env0 acUpdate9 ⟨1⟩ (some ⟨0, EvalDelta.zero⟩) 4
      (stevaPass 0 globalA) w5).1
      = some (Error.errorf
          "only clearing out is supported for applications that do not exist") ∧
    (ApplicationCall env0 acUpdate9 ⟨1⟩ (some ⟨0, EvalDelta.zero⟩) 4
      (stevaPass 0 globalA) w5).2.2.balances = w5.balances ∧
    (ApplicationCall env0 acUpdate9 ⟨1⟩ (some ⟨0, EvalDelta.zero⟩) 4
      (stevaPass 0 globalA) w5).2.2.trace
      = Event.evGetCreator acUpdate9.ApplicationID CreatableType.AppCreatable true :: w5.trace ∧
    evaluatorEvents (ApplicationCall env0 acUpdate9 ⟨1⟩ (some ⟨0, EvalDelta.zero⟩) 4
      (stevaPass 0 globalA) w5).2.2.trace = evaluatorEvents w5.trace ∧
    putEvents (ApplicationCall env0 acUpdate9 ⟨1⟩ (some ⟨0, EvalDelta.zero⟩) 4
      (stevaPass 0 globalA) w5).2.2.trace = putEvents w5.trace :=
  ApplicationCall_absent_app env0 acUpdate9 ⟨1⟩ ⟨0, EvalDelta.zero⟩ 4 (stevaPass 0 globalA) w5 0
    (by decide) rfl (by decide)

/-! ## C18 -/

/-- C18. Normalisation of bytecode before storage, evaluated on an update and
on a create with the same programs of version 3: both calls succeed;
`prepareProgram` converts the programs to version 2; the create stores the
converted programs, while the update stores the programs of the transaction
as they are, which are not the results of `prepareProgram`. -/
theorem ApplicationCall_update_stores_raw :
    prepareProgram envConvert acUpdate5v3.ApprovalProgram = Except.ok [2, 7] ∧
    prepareProgram envConvert acUpdate5v3.ClearStateProgram = Except.ok [2, 8] ∧
    (ApplicationCall envConvert acUpdate5v3 ⟨1⟩ (some ⟨0, EvalDelta.zero⟩) 4
      (stevaPass 0 EvalDelta.zero) w5).1 = none ∧
    ((ApplicationCall envConvert acUpdate5v3 ⟨1⟩ (some ⟨0, EvalDelta.zero⟩) 4
      (stevaPass 0 EvalDelta.zero) w5).2.2.balances.accts 1).AppParams.lookup 5
      = some ⟨[3, 7], [3, 8], ⟨1, 0⟩, ⟨1, 0⟩, none⟩ ∧
    (ApplicationCall envConvert acCreateV3 ⟨1⟩ (some ⟨0, EvalDelta.zero⟩) 4
      (stevaPass 0 EvalDelta.zero) w0).1 = none ∧
    ((ApplicationCall envConvert acCreateV3 ⟨1⟩ (some ⟨0, EvalDelta.zero⟩) 4
      (stevaPass 0 EvalDelta.zero) w0).2.2.balances.accts 1).AppParams.lookup 5
      = some ⟨[2, 7], [2, 8], ⟨1, 0⟩, ⟨1, 0⟩, none⟩ := by
  refine ⟨rfl, rfl, ?_, ?_, ?_, ?_⟩ <;> decide

/-! ## Writes with a deleted locator -/

theorem deletedWrites_putEvents (t : List Event) :
    deletedWrites (putEvents t) = deletedWrites t := by
  unfold deletedWrites putEvents
  rw [List.filter_filter]
  apply List.filter_congr
  intro e _
  cases e <;> simp [Event.isDeletion, Event.isPut]

theorem NoPut.deletedWrites {w w1 : World} (h : NoPut w w1) :
    deletedWrites w1.trace = deletedWrites w.trace := by
  rw [← deletedWrites_putEvents w1.trace, h.2, deletedWrites_putEvents]

theorem applyEvalDelta_ok_params (env : Env) (ac : ApplicationCallTxnFields)
    (evalDelta : EvalDelta) (params : AppParams) (creator sender : Address)
    (appIdx : AppIndex) (w w3 : World)
    (h : applyEvalDelta env ac evalDelta params creator sender appIdx w = (none, w3))
    (hp : (w.balances.accts creator).AppParams.lookup appIdx = some params) :
    w3.balances.creators = w.balances.creators ∧
    (w3.balances.accts creator).AppParams.lookup appIdx
      = some { params with GlobalState :=
          if evalDelta.GlobalDelta.len > 0 then
            (applyStateDelta (allocKV params.GlobalState) evalDelta.GlobalDelta).1
          else params.GlobalState } ∧
    (∀ a, (w3.balances.accts a).TotalAppSchema = (w.balances.accts a).TotalAppSchema ∧
      (w3.balances.accts a).MicroAlgos = (w.balances.accts a).MicroAlgos) ∧
    (∀ a j, j ≠ appIdx →
      (w3.balances.accts a).AppParams.lookup j = (w.balances.accts a).AppParams.lookup j) ∧
    (∀ a, a ≠ creator → (w3.balances.accts a).AppParams = (w.balances.accts a).AppParams) := by
  obtain ⟨params1, changes, w1, hg, _, hcr, hacc⟩ :=
    applyEvalDelta_ok env ac evalDelta params creator sender appIdx w w3 h
  obtain ⟨hg1, hg2⟩ := applyEvalDeltaGlobal_ok env evalDelta params params1 hg
  refine ⟨hcr, ?_, ?_, ?_, ?_⟩
  · rw [hacc creator, (writeLocalRecord_fields _ _ _ _).1]
    unfold writeGlobalRecord
    by_cases hlen : evalDelta.GlobalDelta.len > 0
    · rw [if_pos ⟨hlen, rfl⟩, if_pos hlen]
      simp only
      rw [GoMap.lookup_insert_self, (hg1 hlen).1]
    · rw [if_neg (fun hh => hlen hh.1), if_neg hlen, hp]
  · intro a
    rw [hacc a]
    exact ⟨(writeLocalRecord_fields _ _ _ _).2.2.trans (writeGlobalRecord_fields _ _ _ _ _ _).2.2,
      (writeLocalRecord_fields _ _ _ _).2.1.trans (writeGlobalRecord_fields _ _ _ _ _ _).2.1⟩
  · intro a j hj
    rw [hacc a, (writeLocalRecord_fields _ _ _ _).1]
    unfold writeGlobalRecord
    split
    · simp only
      rw [GoMap.lookup_insert_ne _ _ _ _ hj]
    · rfl
  · intro a ha
    rw [hacc a, (writeLocalRecord_fields _ _ _ _).1]
    unfold writeGlobalRecord
    rw [if_neg (fun hh => ha hh.2)]

theorem ApplicationCallApproval_ok_inv (env : Env) (ac : ApplicationCallTxnFields)
    (header : Header) (ad ad1 : ApplyData) (steva : StateEvaluator) (params : AppParams)
    (creator : Address) (appIdx : AppIndex) (w wf : World)
    (hoc : ac.OnCompletion ≠ OptInOC) :
    ApplicationCallApproval env ac header ad steva params creator appIdx w = (none, ad1, wf) →
    ∃ d w3, steva.Eval w.balances params.ApprovalProgram = (true, d, none) ∧
      applyEvalDelta env ac d params creator header.Sender appIdx
        (w.log (Event.evEval params.ApprovalProgram)) = (none, w3) ∧
      ApplicationCallCompletion env ac header creator appIdx w3 = (none, wf) ∧
      ad1 = { ad with EvalDelta := d } := by
  unfold ApplicationCallApproval
  rw [if_neg hoc]
  simp only
  split
  · intro h; simp at h
  rename_i approved d w2 heq
  split
  · intro h; simp at h
  rename_i happ
  split
  · intro h; simp at h
  rename_i w3 hd
  split
  · intro h; simp at h
  rename_i w4 hc
  intro h
  simp only [Prod.mk.injEq, true_and] at h
  simp only [StateEvaluator.callEval, Prod.mk.injEq] at heq
  obtain ⟨⟨h1, h2, h3⟩, h4⟩ := heq
  have h5 : approved = true := by simpa using happ
  have h6 : (steva.Eval w.balances params.ApprovalProgram).2.2 = none := by
    cases hh : (steva.Eval w.balances params.ApprovalProgram).2.2 with
    | none => rfl
    | some c => rw [hh] at h3; simp at h3
  refine ⟨d, w3, ?_, ?_, ?_, h.1.symm⟩
  · rw [← h1] at h5
    exact Prod.ext h5 (Prod.ext h2 h6)
  · rw [h4]; exact hd
  · rw [hc, h.2]

theorem ApplicationCallCompletion_update_ok (env : Env) (ac : ApplicationCallTxnFields)
    (header : Header) (creator : Address) (appIdx : AppIndex) (w3 wf : World)
    (hoc : ac.OnCompletion = UpdateApplicationOC) :
    ApplicationCallCompletion env ac header creator appIdx w3 = (none, wf) →
    wf.balances =
      { w3.balances with
        accts := Function.update w3.balances.accts creator
          { w3.balances.accts creator with
            AppParams := (w3.balances.accts creator).AppParams.insert appIdx
              { ((w3.balances.accts creator).AppParams.lookup appIdx).getD AppParams.zero with
                ApprovalProgram := ac.ApprovalProgram,
                ClearStateProgram := ac.ClearStateProgram } } } := by
  have h0 : ¬ (UpdateApplicationOC = NoOpOC) := by decide
  have h1 : ¬ (UpdateApplicationOC = OptInOC) := by decide
  have h2 : ¬ (UpdateApplicationOC = CloseOutOC) := by decide
  have h3 : ¬ (UpdateApplicationOC = DeleteApplicationOC) := by decide
  unfold ApplicationCallCompletion
  rw [hoc, if_neg h0, if_neg h1, if_neg h2, if_neg h3, if_pos rfl]
  cases hf : env.fault w3.trace with
  | some c =>
    simp only [Get, hf]
    intro h; simp at h
  | none =>
    simp only [Get, hf, cloneAppParams, World.log]
    cases hf2 : env.fault (Event.evGet creator true :: w3.trace) with
    | some c =>
      simp only [Put, hf2]
      intro h; simp at h
    | none =>
      simp only [Put, hf2]
      intro h
      simp only [Prod.mk.injEq, true_and] at h
      rw [← h]

/-! ## C20 -/

/-- C20, amended. Frame of update: for every `ApplicationCall` on an existing
application (`ApplicationID` not zero) with completion action
UpdateApplication that returns nil, the creator holds afterwards for the
application the parameters it held before with the approval and clear-state
programs replaced by those of the transaction, the same `LocalStateSchema`
and `GlobalStateSchema`, and as global store the one that the commit of the
global delta of the approval program produced in this call (the store before
the call when that delta is empty); the `TotalAppSchema` of the creator and
its other `AppParams` entries are as before the call. -/
theorem ApplicationCall_update_frame (env : Env) (ac : ApplicationCallTxnFields)
    (header : Header) (ad : ApplyData) (ad1 : Option ApplyData) (txnCounter : Nat)
    (steva : StateEvaluator) (w wf : World)
    (hid : ac.ApplicationID ≠ 0) (hoc : ac.OnCompletion = UpdateApplicationOC)
    (hret : ApplicationCall env ac header (some ad) txnCounter steva w = (none, ad1, wf)) :
    ∃ (creator : Address) (p0 : AppParams) (d : EvalDelta),
      w.balances.creators CreatableType.AppCreatable ac.ApplicationID = some creator ∧
      (w.balances.accts creator).AppParams.lookup ac.ApplicationID = some p0 ∧
      steva.Eval w.balances p0.ApprovalProgram = (true, d, none) ∧
      (wf.balances.accts creator).AppParams.lookup ac.ApplicationID
        = some { ApprovalProgram := ac.ApprovalProgram,
                 ClearStateProgram := ac.ClearStateProgram,
                 LocalStateSchema := p0.LocalStateSchema,
                 GlobalStateSchema := p0.GlobalStateSchema,
                 GlobalState :=
                   if d.GlobalDelta.len > 0 then
                     (applyStateDelta (allocKV p0.GlobalState) d.GlobalDelta).1
                   else p0.GlobalState } ∧
      (wf.balances.accts creator).TotalAppSchema = (w.balances.accts creator).TotalAppSchema ∧
      (∀ j, j ≠ ac.ApplicationID →
        (wf.balances.accts creator).AppParams.lookup j
          = (w.balances.accts creator).AppParams.lookup j) := by
  have hoc1 : ac.OnCompletion ≠ ClearStateOC := by rw [hoc]; decide
  have hoc2 : ac.OnCompletion ≠ OptInOC := by rw [hoc]; decide
  have hB : ∃ adb, ApplicationCallBody env ac header ad txnCounter steva w = (none, adb, wf) := by
    revert hret
    unfold ApplicationCall
    simp only
    split
    · intro h; simp at h
    · rename_i adb w1 heq
      intro h
      simp only [Prod.mk.injEq, true_and] at h
      exact ⟨adb, by rw [heq, h.2]⟩
  obtain ⟨adb, hB⟩ := hB
  rcases ApplicationCallBody_dispatch env ac header ad txnCounter steva w hid hoc1 with
    ⟨e, w1, he, _⟩ | ⟨p0, creator, w4, hn, hc, hp, hb⟩
  · rw [he] at hB; simp at hB
  rw [hb] at hB
  obtain ⟨d, w3, hev, hd, hcomp, _⟩ := ApplicationCallApproval_ok_inv env ac header ad adb steva
    p0 creator ac.ApplicationID w4 wf hoc2 hB
  have hp4 : ((w4.log (Event.evEval p0.ApprovalProgram)).balances.accts
      creator).AppParams.lookup ac.ApplicationID = some p0 := by
    rw [World.log_balances, hn.1]; exact hp
  obtain ⟨_, h3p, h3t, h3o, _⟩ := applyEvalDelta_ok_params env ac d p0 creator header.Sender
    ac.ApplicationID _ w3 hd hp4
  have hbal := ApplicationCallCompletion_update_ok env ac header creator ac.ApplicationID w3 wf
    hoc hcomp
  have hcre : wf.balances.accts creator =
      { w3.balances.accts creator with
        AppParams := (w3.balances.accts creator).AppParams.insert ac.ApplicationID
          { ((w3.balances.accts creator).AppParams.lookup ac.ApplicationID).getD
              AppParams.zero with
            ApprovalProgram := ac.ApprovalProgram,
            ClearStateProgram := ac.ClearStateProgram } } := by
    rw [hbal]; simp
  refine ⟨creator, p0, d, hc, hp, ?_, ?_, ?_, ?_⟩
  · rw [← hn.1]; exact hev
  · rw [hcre]
    simp only
    rw [GoMap.lookup_insert_self, h3p]
    rfl
  · rw [hcre]
    simp only
    rw [(h3t creator).1, World.log_balances, hn.1]
  · intro j hj
    rw [hcre]
    simp only
    rw [GoMap.lookup_insert_ne _ _ _ _ hj, h3o creator j hj, World.log_balances, hn.1]

/-- C20 at a concrete input: account 1 updates application 5, whose approval
program sets one global key. -/
theorem ApplicationCall_update_frame_witness :
    (ApplicationCall env0 acUpdate5 ⟨1⟩ (some ⟨0, EvalDelta.zero⟩) 4
      (stevaPass 0 globalA) w5).1 = none ∧
    ∃ (creator : Address) (p0 : AppParams) (d : EvalDelta),
      w5.balances.creators CreatableType.AppCreatable acUpdate5.ApplicationID = some creator ∧
      (w5.balances.accts creator).AppParams.lookup acUpdate5.ApplicationID = some p0 ∧
      (stevaPass 0 globalA).Eval w5.balances p0.ApprovalProgram = (true, d, none) ∧
      ((ApplicationCall env0 acUpdate5 ⟨1⟩ (some ⟨0, EvalDelta.zero⟩) 4
        (stevaPass 0 globalA) w5).2.2.balances.accts creator).AppParams.lookup
          acUpdate5.ApplicationID
        = some { ApprovalProgram := acUpdate5.ApprovalProgram,
                 ClearStateProgram := acUpdate5.ClearStateProgram,
                 LocalStateSchema := p0.LocalStateSchema,
                 GlobalStateSchema := p0.GlobalStateSchema,
                 GlobalState :=
                   if d.GlobalDelta.len > 0 then
                     (applyStateDelta (allocKV p0.GlobalState) d.GlobalDelta).1
                   else p0.GlobalState } ∧
      ((ApplicationCall env0 acUpdate5 ⟨1⟩ (some ⟨0, EvalDelta.zero⟩) 4
        (stevaPass 0 globalA) w5).2.2.balances.accts creator).TotalAppSchema
        = (w5.balances.accts creator).TotalAppSchema ∧
      (∀ j, j ≠ acUpdate5.ApplicationID →
        ((ApplicationCall env0 acUpdate5 ⟨1⟩ (some ⟨0, EvalDelta.zero⟩) 4
          (stevaPass 0 globalA) w5).2.2.balances.accts creator).AppParams.lookup j
          = (w5.balances.accts creator).AppParams.lookup j) :=
  ⟨by decide,
    ApplicationCall_update_frame env0 acUpdate5 ⟨1⟩ ⟨0, EvalDelta.zero⟩ _ 4
      (stevaPass 0 globalA) w5 _ (by decide) rfl rfl⟩

/-- C20 fails as stated: a create call (`ApplicationID` zero) with completion
action UpdateApplication returns nil, and the `TotalAppSchema` of the creator
afterwards is the one before the call plus the declared `GlobalStateSchema`. -/
theorem ApplicationCall_update_frame_counterexample :
    acCreateUpdate.OnCompletion = UpdateApplicationOC ∧
    (ApplicationCall env0 acCreateUpdate ⟨1⟩ (some ⟨0, EvalDelta.zero⟩) 4
      (stevaPass 0 EvalDelta.zero) w0).1 = none ∧
    (w0.balances.accts 1).TotalAppSchema = ⟨0, 0⟩ ∧
    ((ApplicationCall env0 acCreateUpdate ⟨1⟩ (some ⟨0, EvalDelta.zero⟩) 4
      (stevaPass 0 EvalDelta.zero) w0).2.2.balances.accts 1).TotalAppSchema = ⟨1, 0⟩ := by
  decide

/-! ## Maps with the same lookups -/

theorem alookup_of_mem {K V : Type} [DecidableEq K] (k : K) (v : V) :
    ∀ (l : List (K × V)), (akeys l).Nodup → (k, v) ∈ l → alookup k l = some v
  | [], _, h => absurd h (List.not_mem_nil _)
  | (a, b) :: tl, hnd, h => by
    simp only [akeys, List.map_cons, List.nodup_cons] at hnd
    rcases List.mem_cons.mp h with h | h
    · simp only [Prod.mk.injEq] at h
      simp only [alookup, h.1, h.2, if_true]
    · have hk : a ≠ k := by
        intro hak
        apply hnd.1
        rw [hak]
        exact List.mem_map.mpr ⟨(k, v), h, rfl⟩
      simp only [alookup, hk, if_false]
      exact alookup_of_mem k v tl hnd.2 h

theorem GoMap.entries_perm_of_lookup {K V : Type} [DecidableEq K] (m1 m2 : GoMap K V)
    (h : ∀ k, m1.lookup k = m2.lookup k) : m1.entries.Perm m2.entries := by
  have n1 : m1.entries.Nodup := List.Nodup.of_map Prod.fst m1.nodup
  have n2 : m2.entries.Nodup := List.Nodup.of_map Prod.fst m2.nodup
  refine (List.perm_ext_iff_of_nodup n1 n2).mpr ?_
  rintro ⟨k, v⟩
  constructor
  · intro hm
    have h1 := alookup_of_mem k v m1.entries m1.nodup hm
    have h2 : alookup k m2.entries = some v := by
      have := h k
      simp only [GoMap.lookup] at this
      rw [← this]; exact h1
    exact mem_of_alookup k v m2.entries h2
  · intro hm
    have h1 := alookup_of_mem k v m2.entries m2.nodup hm
    have h2 : alookup k m1.entries = some v := by
      have := h k
      simp only [GoMap.lookup] at this
      rw [this]; exact h1
    exact mem_of_alookup k v m1.entries h2

/-! ## C22 -/

/-- C22. Order independence of `applyStateDelta`: for every non-nil store and
every delta with recognised actions, whose keys are distinct as those of a
map are, the loop of `applyStateDelta` returns nil for every order in which
the entries are visited, and the resulting store is the same: for any two
rearrangements of the entries the two stores hold the same value, or nothing,
at every key, so they have the same entries, and each of them agrees at every
key with the store that `applyStateDelta` returns. -/
theorem applyStateDelta_order_independent (m : KVMap) (delta : StateDelta)
    (l1 l2 : List (Key × ValueDelta)) (hrec : Recognised delta)
    (h1 : l1.Perm delta.entries) (h2 : l2.Perm delta.entries) :
    (applyStateDeltaLoop m l1).2 = none ∧ (applyStateDeltaLoop m l2).2 = none ∧
    (∀ k, (applyStateDeltaLoop m l1).1.lookup k = (applyStateDeltaLoop m l2).1.lookup k) ∧
    (applyStateDeltaLoop m l1).1.entries.Perm (applyStateDeltaLoop m l2).1.entries ∧
    (applyStateDelta (some m) delta).2 = none ∧
    ∃ m1, (applyStateDelta (some m) delta).1 = some m1 ∧
      ∀ k, (applyStateDeltaLoop m l1).1.lookup k = m1.lookup k := by
  have hn1 : (akeys l1).Nodup := akeys_perm_nodup h1 delta.nodup
  have hn2 : (akeys l2).Nodup := akeys_perm_nodup h2 delta.nodup
  have hr1 : ∀ k vd, (k, vd) ∈ l1 →
      vd.Action = SetUintAction ∨ vd.Action = SetBytesAction ∨ vd.Action = DeleteAction :=
    fun k vd hm => hrec k vd (h1.mem_iff.mp hm)
  have hr2 : ∀ k vd, (k, vd) ∈ l2 →
      vd.Action = SetUintAction ∨ vd.Action = SetBytesAction ∨ vd.Action = DeleteAction :=
    fun k vd hm => hrec k vd (h2.mem_iff.mp hm)
  obtain ⟨e1, v1⟩ := applyStateDeltaLoop_recognised l1 m hn1 hr1
  obtain ⟨e2, v2⟩ := applyStateDeltaLoop_recognised l2 m hn2 hr2
  obtain ⟨e0, v0⟩ := applyStateDeltaLoop_recognised delta.entries m delta.nodup hrec
  have hk : ∀ k, (applyStateDeltaLoop m l1).1.lookup k
      = (applyStateDeltaLoop m l2).1.lookup k := by
    intro k
    rw [v1 k, v2 k, alookup_perm k h1 hn1, alookup_perm k h2 hn2]
  refine ⟨e1, e2, hk, GoMap.entries_perm_of_lookup _ _ hk, ?_,
    (applyStateDeltaLoop m delta.entries).1, ?_, ?_⟩
  · simp only [applyStateDelta]
    exact e0
  · simp only [applyStateDelta]
  · intro k
    rw [v1 k, v0 k, alookup_perm k h1 hn1]

/-- C22 at a concrete input: the three entries of the delta are visited in
their order and in the reverse order. -/
theorem applyStateDelta_order_independent_witness :
    Recognised deltaMixed ∧
    (applyStateDeltaLoop kvA deltaMixed.entries).2 = none ∧
    (applyStateDeltaLoop kvA deltaMixed.entries.reverse).2 = none ∧
    (∀ k, (applyStateDeltaLoop kvA deltaMixed.entries).1.lookup k
      = (applyStateDeltaLoop kvA deltaMixed.entries.reverse).1.lookup k) ∧
    (applyStateDeltaLoop kvA deltaMixed.entries).1.entries.Perm
      (applyStateDeltaLoop kvA deltaMixed.entries.reverse).1.entries ∧
    (applyStateDelta (some kvA) deltaMixed).2 = none ∧
    ∃ m1, (applyStateDelta (some kvA) deltaMixed).1 = some m1 ∧
      ∀ k, (applyStateDeltaLoop kvA deltaMixed.entries).1.lookup k = m1.lookup k := by
  have hrec : Recognised deltaMixed := by
    intro k vd hm
    have h2 : deltaMixed.entries
        = [("c", ⟨SetUintAction, [], 9⟩), ("b", ⟨SetBytesAction, [1, 2], 0⟩),
            ("a", ⟨DeleteAction, [], 0⟩)] := by decide
    rw [h2] at hm
    simp only [List.mem_cons, Prod.mk.injEq, List.mem_singleton, List.not_mem_nil,
      or_false] at hm
    rcases hm with ⟨_, hv⟩ | ⟨_, hv⟩ | ⟨_, hv⟩
    · rw [hv]; exact Or.inl rfl
    · rw [hv]; exact Or.inr (Or.inl rfl)
    · rw [hv]; exact Or.inr (Or.inr rfl)
  exact ⟨hrec, applyStateDelta_order_independent kvA deltaMixed deltaMixed.entries
    deltaMixed.entries.reverse hrec (List.Perm.refl _) (List.reverse_perm _)⟩

/-! ## Evaluator calls in the trace -/

theorem checkEvents_evaluatorEvents (t : List Event) :
    checkEvents (evaluatorEvents t) = checkEvents t := by
  unfold checkEvents evaluatorEvents
  rw [List.filter_filter]
  apply List.filter_congr
  intro e _
  cases e <;> simp [Event.isCheck, Event.isEvaluator]

theorem evalEvents_evaluatorEvents (t : List Event) :
    evalEvents (evaluatorEvents t) = evalEvents t := by
  unfold evalEvents evaluatorEvents
  rw [List.filter_filter]
  apply List.filter_congr
  intro e _
  cases e <;> simp [Event.isEval, Event.isEvaluator]

theorem checkEvents_of_evaluatorEvents {t t1 : List Event}
    (h : evaluatorEvents t1 = evaluatorEvents t) : checkEvents t1 = checkEvents t := by
  rw [← checkEvents_evaluatorEvents t1, h, checkEvents_evaluatorEvents]

theorem evalEvents_of_evaluatorEvents {t t1 : List Event}
    (h : evaluatorEvents t1 = evaluatorEvents t) : evalEvents t1 = evalEvents t := by
  rw [← evalEvents_evaluatorEvents t1, h, evalEvents_evaluatorEvents]

theorem Get_evaluatorEvents (env : Env) (addr : Address) (w : World) :
    evaluatorEvents (Get env addr w).2.trace = evaluatorEvents w.trace := by
  unfold Get
  split <;> rfl

theorem GetCreator_evaluatorEvents (env : Env) (cidx : Nat) (ctype : CreatableType)
    (w : World) :
    evaluatorEvents (GetCreator env cidx ctype w).2.trace = evaluatorEvents w.trace := by
  unfold GetCreator
  split
  · rfl
  · split <;> rfl

theorem Put_evaluatorEvents (env : Env) (r : BalanceRecord) (w : World) :
    evaluatorEvents (Put env r w).2.trace = evaluatorEvents w.trace := by
  unfold Put
  split <;> rfl

theorem PutWithCreatable_evaluatorEvents (env : Env) (r : BalanceRecord)
    (c d : Option CreatableLocator) (w : World) :
    evaluatorEvents (PutWithCreatable env r c d w).2.trace = evaluatorEvents w.trace := by
  unfold PutWithCreatable
  split <;> rfl

theorem getAppParams_evaluatorEvents (env : Env) (aidx : AppIndex) (w : World) :
    evaluatorEvents (getAppParams env aidx w).2.trace = evaluatorEvents w.trace := by
  unfold getAppParams
  have hC := GetCreator_evaluatorEvents env aidx CreatableType.AppCreatable w
  split
  · rename_i heq; rw [heq] at hC; exact hC
  · rename_i heq; rw [heq] at hC; exact hC
  · rename_i creator w1 heq
    rw [heq] at hC
    have hG := Get_evaluatorEvents env creator w1
    split
    · rename_i heq2; rw [heq2] at hG; exact hG.trans hC
    · rename_i heq2; rw [heq2] at hG
      split <;> exact hG.trans hC

theorem createApplication_evaluatorEvents (env : Env) (ac : ApplicationCallTxnFields)
    (creator : Address) (txnCounter : Nat) (w : World) :
    evaluatorEvents (createApplication env ac creator txnCounter w).2.trace
      = evaluatorEvents w.trace := by
  unfold createApplication
  have hG := Get_evaluatorEvents env creator w
  split
  · rename_i heq; rw [heq] at hG; exact hG
  · rename_i record w1 heq
    rw [heq] at hG
    dsimp only
    split
    · exact hG
    · split
      · exact hG
      · split
        · exact hG
        · rename_i convertedAp _ _ convertedCsp _
          have hP := PutWithCreatable_evaluatorEvents env
            { record with data := { record.data with
                AppParams := (cloneAppParams record.data.AppParams).insert
                  ((txnCounter + 1) % 2 ^ 64)
                  { ApprovalProgram := convertedAp,
                    ClearStateProgram := convertedCsp,
                    LocalStateSchema := ac.LocalStateSchema,
                    GlobalStateSchema := ac.GlobalStateSchema,
                    GlobalState := none },
                TotalAppSchema :=
                  record.data.TotalAppSchema.AddSchema ac.GlobalStateSchema } }
            (some ⟨creator, CreatableType.AppCreatable, (txnCounter + 1) % 2 ^ 64⟩) none w1
          split
          · rename_i heq2; rw [heq2] at hP; exact hP.trans hG
          · rename_i heq2; rw [heq2] at hP; exact hP.trans hG

theorem applyEvalDeltaStage_evaluatorEvents (env : Env) (ac : ApplicationCallTxnFields)
    (sender : Address) (appIdx : AppIndex) :
    ∀ (l : List (Nat × StateDelta)) (changes : GoMap Address AppLocalState) (w : World),
      evaluatorEvents (applyEvalDeltaStage env ac sender appIdx l changes w).2.trace
        = evaluatorEvents w.trace
  | [], _, _ => rfl
  | (accountIdx, delta) :: rest, changes, w => by
    unfold applyEvalDeltaStage
    have hG := Get_evaluatorEvents env
    split
    · rfl
    · split
      · rfl
      · split
        · rfl
        · split
          · rfl
          · rename_i addr _ _ _ _
            split
            · rename_i err w1 heq
              have := hG addr w; rw [heq] at this; exact this
            · rename_i record w1 heq
              have h1 := hG addr w; rw [heq] at h1
              split
              · exact h1
              · split
                · exact h1
                · split
                  · exact h1
                  · exact (applyEvalDeltaStage_evaluatorEvents env ac sender appIdx rest _
                      w1).trans h1

theorem applyEvalDeltaWriteGlobal_evaluatorEvents (env : Env) (evalDelta : EvalDelta)
    (params : AppParams) (creator : Address) (appIdx : AppIndex) (w : World) :
    evaluatorEvents (applyEvalDeltaWriteGlobal env evalDelta params creator appIdx w).2.trace
      = evaluatorEvents w.trace := by
  unfold applyEvalDeltaWriteGlobal
  split
  · have hG := Get_evaluatorEvents env creator w
    split
    · rename_i heq; rw [heq] at hG; exact hG
    · rename_i heq; rw [heq] at hG
      dsimp only
      rw [Put_evaluatorEvents]; exact hG
  · rfl

theorem applyEvalDeltaWriteLocal_evaluatorEvents (env : Env) (appIdx : AppIndex) :
    ∀ (l : List (Address × AppLocalState)) (w : World),
      evaluatorEvents (applyEvalDeltaWriteLocal env appIdx l w).2.trace
        = evaluatorEvents w.trace
  | [], _ => rfl
  | (addr, ls1) :: rest, w => by
    unfold applyEvalDeltaWriteLocal
    have hG := Get_evaluatorEvents env addr w
    split
    · rename_i heq; rw [heq] at hG; exact hG
    · rename_i record w1 heq; rw [heq] at hG
      dsimp only
      have hP := Put_evaluatorEvents env
        { record with data := { record.data with
            AppLocalStates :=
              (cloneAppLocalStates record.data.AppLocalStates).insert appIdx ls1 } } w1
      split
      · rename_i heq2; rw [heq2] at hP
        exact hP.trans hG
      · rename_i w2 heq2; rw [heq2] at hP
        rw [applyEvalDeltaWriteLocal_evaluatorEvents env appIdx rest w2]
        exact hP.trans hG

theorem applyEvalDelta_evaluatorEvents (env : Env) (ac : ApplicationCallTxnFields)
    (evalDelta : EvalDelta) (params : AppParams) (creator sender : Address)
    (appIdx : AppIndex) (w : World) :
    evaluatorEvents (applyEvalDelta env ac evalDelta params creator sender appIdx w).2.trace
      = evaluatorEvents w.trace := by
  unfold applyEvalDelta
  split
  · rfl
  rename_i params1 _
  have hS := applyEvalDeltaStage_evaluatorEvents env ac sender appIdx
    evalDelta.LocalDeltas.entries GoMap.empty w
  split
  · rename_i heq; rw [heq] at hS; exact hS
  rename_i changes w1 heq
  rw [heq] at hS
  have hW := applyEvalDeltaWriteGlobal_evaluatorEvents env evalDelta params1 creator appIdx w1
  split
  · rename_i heq2; rw [heq2] at hW
    exact hW.trans hS
  · rename_i w2 heq2; rw [heq2] at hW
    rw [applyEvalDeltaWriteLocal_evaluatorEvents]
    exact hW.trans hS

theorem applyOptIn_evaluatorEvents (env : Env) (sender : Address) (appIdx : AppIndex)
    (params : AppParams) (w : World) :
    evaluatorEvents (applyOptIn env sender appIdx params w).2.trace
      = evaluatorEvents w.trace := by
  unfold applyOptIn
  have hG := Get_evaluatorEvents env sender w
  split
  · rename_i heq; rw [heq] at hG; exact hG
  · rename_i record w1 heq
    rw [heq] at hG
    split
    · exact hG
    · dsimp only
      split
      · exact hG
      · rw [Put_evaluatorEvents]; exact hG

theorem applyClearStateFinish_evaluatorEvents (env : Env) (record : BalanceRecord)
    (appIdx : AppIndex) (w : World) :
    evaluatorEvents (applyClearStateFinish env record appIdx w).2.trace
      = evaluatorEvents w.trace := by
  unfold applyClearStateFinish
  dsimp only
  rw [Put_evaluatorEvents]

theorem ApplicationCallCompletion_evaluatorEvents (env : Env) (ac : ApplicationCallTxnFields)
    (header : Header) (creator : Address) (appIdx : AppIndex) (w : World) :
    evaluatorEvents (ApplicationCallCompletion env ac header creator appIdx w).2.trace
      = evaluatorEvents w.trace := by
  unfold ApplicationCallCompletion
  split
  · rfl
  split
  · rfl
  split
  · have hG := Get_evaluatorEvents env header.Sender w
    split
    · rename_i heq; rw [heq] at hG; exact hG
    · rename_i heq; rw [heq] at hG
      split
      · exact hG
      · dsimp only
        rw [Put_evaluatorEvents]; exact hG
  split
  · have hG := Get_evaluatorEvents env creator w
    split
    · rename_i heq; rw [heq] at hG; exact hG
    · rename_i heq; rw [heq] at hG
      dsimp only
      rw [PutWithCreatable_evaluatorEvents]; exact hG
  split
  · have hG := Get_evaluatorEvents env creator w
    split
    · rename_i heq; rw [heq] at hG; exact hG
    · rename_i heq; rw [heq] at hG
      dsimp only
      rw [Put_evaluatorEvents]; exact hG
  · rfl

theorem checkPrograms_evalEvents (ac : ApplicationCallTxnFields) (steva : StateEvaluator)
    (maxCost : Int) (w : World) :
    evalEvents (checkPrograms ac steva maxCost w).2.trace = evalEvents w.trace := by
  unfold checkPrograms
  simp only [StateEvaluator.callCheck]
  split
  · rename_i heq
    simp only [Prod.mk.injEq] at heq
    rw [← heq.2]; rfl
  · rename_i heq
    simp only [Prod.mk.injEq] at heq
    rw [← heq.2]
    split
    · rfl
    · split
      · rename_i heq2
        simp only [Prod.mk.injEq] at heq2
        rw [← heq2.2]; rfl
      · rename_i heq2
        simp only [Prod.mk.injEq] at heq2
        rw [← heq2.2]
        split <;> rfl

theorem checkPrograms_checkEvents (ac : ApplicationCallTxnFields) (steva : StateEvaluator)
    (maxCost : Int) (w : World) :
    ∃ t, (t = [] ∨ t = [Event.evCheck ac.ClearStateProgram]) ∧
      checkEvents (checkPrograms ac steva maxCost w).2.trace
        = t ++ Event.evCheck ac.ApprovalProgram :: checkEvents w.trace := by
  unfold checkPrograms
  simp only [StateEvaluator.callCheck]
  split
  · rename_i heq
    simp only [Prod.mk.injEq] at heq
    rw [← heq.2]
    exact ⟨[], Or.inl rfl, rfl⟩
  · rename_i heq
    simp only [Prod.mk.injEq] at heq
    rw [← heq.2]
    split
    · exact ⟨[], Or.inl rfl, rfl⟩
    · split
      · rename_i heq2
        simp only [Prod.mk.injEq] at heq2
        rw [← heq2.2]
        exact ⟨_, Or.inr rfl, rfl⟩
      · rename_i heq2
        simp only [Prod.mk.injEq] at heq2
        rw [← heq2.2]
        split <;> exact ⟨_, Or.inr rfl, rfl⟩

theorem checkPrograms_none_iff (ac : ApplicationCallTxnFields) (steva : StateEvaluator)
    (maxCost : Int) (w : World) :
    (checkPrograms ac steva maxCost w).1 = none ↔
      ((steva.Check w.balances ac.ApprovalProgram).2 = none ∧
        (steva.Check w.balances ac.ApprovalProgram).1 ≤ maxCost ∧
        (steva.Check w.balances ac.ClearStateProgram).2 = none ∧
        (steva.Check w.balances ac.ClearStateProgram).1 ≤ maxCost) := by
  unfold checkPrograms
  simp only [StateEvaluator.callCheck, World.log_balances]
  cases h1 : (steva.Check w.balances ac.ApprovalProgram).2 with
  | some c => simp
  | none =>
    simp only [Option.map_none']
    by_cases hc1 : (steva.Check w.balances ac.ApprovalProgram).1 > maxCost
    · simp only [hc1, if_true]
      constructor
      · intro h; simp at h
      · intro h; exact absurd h.2.1 (not_le.mpr hc1)
    · simp only [hc1, if_false, World.log_balances]
      cases h2 : (steva.Check w.balances ac.ClearStateProgram).2 with
      | some c => simp
      | none =>
        simp only [Option.map_none']
        by_cases hc2 : (steva.Check w.balances ac.ClearStateProgram).1 > maxCost
        · simp only [hc2, if_true]
          constructor
          · intro h; simp at h
          · intro h; exact absurd h.2.2.2 (not_le.mpr hc2)
        · simp only [hc2, if_false, true_and, true_iff]
          exact ⟨not_lt.mp hc1, not_lt.mp hc2⟩

theorem Get_checkEvents (env : Env) (addr : Address) (w : World) :
    checkEvents (Get env addr w).2.trace = checkEvents w.trace :=
  checkEvents_of_evaluatorEvents (Get_evaluatorEvents env addr w)

theorem applyClearStateProgram_checkEvents (env : Env) (ac : ApplicationCallTxnFields)
    (sender : Address) (appIdx : AppIndex) (ad : ApplyData) (steva : StateEvaluator)
    (params : AppParams) (creator : Address) (w : World) :
    checkEvents (applyClearStateProgram env ac sender appIdx ad steva params creator w).2.2.trace
      = checkEvents w.trace := by
  unfold applyClearStateProgram
  simp only [StateEvaluator.callEval]
  split
  · have h := checkEvents_of_evaluatorEvents (applyEvalDelta_evaluatorEvents env ac
      (steva.Eval w.balances params.ClearStateProgram).2.1 params creator sender appIdx
      (w.log (Event.evEval params.ClearStateProgram)))
    split
    · exact h
    · split <;> exact h
  · rfl

theorem applyClearState_checkEvents (env : Env) (ac : ApplicationCallTxnFields)
    (sender : Address) (appIdx : AppIndex) (ad : ApplyData) (steva : StateEvaluator)
    (w : World) :
    checkEvents (applyClearState env ac sender appIdx ad steva w).2.2.trace
      = checkEvents w.trace := by
  unfold applyClearState
  have hA := checkEvents_of_evaluatorEvents (getAppParams_evaluatorEvents env appIdx w)
  split
  · rename_i heq; rw [heq] at hA; exact hA
  rename_i params creator ex w1 hgp
  rw [hgp] at hA
  have hG := Get_checkEvents env sender w1
  split
  · rename_i heq; rw [heq] at hG; exact hG.trans hA
  rename_i record w2 hget
  rw [hget] at hG
  have h2 := hG.trans hA
  split
  · exact h2
  split
  · have hP := applyClearStateProgram_checkEvents env ac sender appIdx ad steva params
      creator w2
    split
    · rename_i heq; rw [heq] at hP; exact hP.trans h2
    rename_i ad1 w3 heq
    rw [heq] at hP
    have hG3 := Get_checkEvents env sender w3
    split
    · rename_i heq4; rw [heq4] at hG3; exact hG3.trans (hP.trans h2)
    rename_i record2 w4 hget4
    rw [hget4] at hG3
    exact (checkEvents_of_evaluatorEvents
      (applyClearStateFinish_evaluatorEvents env record2 appIdx w4)).trans
        (hG3.trans (hP.trans h2))
  · exact (checkEvents_of_evaluatorEvents
      (applyClearStateFinish_evaluatorEvents env record appIdx w2)).trans h2

theorem ApplicationCallApproval_checkEvents (env : Env) (ac : ApplicationCallTxnFields)
    (header : Header) (ad : ApplyData) (steva : StateEvaluator) (params : AppParams)
    (creator : Address) (appIdx : AppIndex) (w : World) :
    checkEvents
      (ApplicationCallApproval env ac header ad steva params creator appIdx w).2.2.trace
      = checkEvents w.trace := by
  unfold ApplicationCallApproval
  have hO : checkEvents (if ac.OnCompletion = OptInOC then
        applyOptIn env header.Sender appIdx params w else (none, w)).2.trace
      = checkEvents w.trace := by
    split
    · exact checkEvents_of_evaluatorEvents
        (applyOptIn_evaluatorEvents env header.Sender appIdx params w)
    · rfl
  split
  · rename_i heq; rw [heq] at hO; exact hO
  rename_i w1 heq
  rw [heq] at hO
  simp only [StateEvaluator.callEval]
  split
  · rename_i heq2
    simp only [Prod.mk.injEq] at heq2
    rw [← heq2.2]; exact hO
  rename_i approved evalDelta w2 heq2
  simp only [Prod.mk.injEq] at heq2
  obtain ⟨_, h4⟩ := heq2
  subst h4
  split
  · exact hO
  have hA := checkEvents_of_evaluatorEvents (applyEvalDelta_evaluatorEvents env ac evalDelta
    params creator header.Sender appIdx (w1.log (Event.evEval params.ApprovalProgram)))
  split
  · rename_i heq3; rw [heq3] at hA; exact hA.trans hO
  rename_i w3 heq3
  rw [heq3] at hA
  have hC := checkEvents_of_evaluatorEvents
    (ApplicationCallCompletion_evaluatorEvents env ac header creator appIdx w3)
  split
  · rename_i heq4; rw [heq4] at hC; exact hC.trans (hA.trans hO)
  · rename_i heq4; rw [heq4] at hC; exact hC.trans (hA.trans hO)

theorem ApplicationCall_some (env : Env) (ac : ApplicationCallTxnFields) (header : Header)
    (ad : ApplyData) (txnCounter : Nat) (steva : StateEvaluator) (w : World) :
    (ApplicationCall env ac header (some ad) txnCounter steva w).1
      = (ApplicationCallBody env ac header ad txnCounter steva w).1 ∧
    (ApplicationCall env ac header (some ad) txnCounter steva w).2.2
      = (ApplicationCallBody env ac header ad txnCounter steva w).2.2 := by
  unfold ApplicationCall
  simp only
  split
  · rename_i heq; rw [heq]; exact ⟨rfl, rfl⟩
  · rename_i heq; rw [heq]; exact ⟨rfl, rfl⟩

theorem ApplicationCallBody_checkEvents (env : Env) (ac : ApplicationCallTxnFields)
    (header : Header) (ad : ApplyData) (txnCounter : Nat) (steva : StateEvaluator) (w : World)
    (hg : ¬ (ac.ApplicationID = 0 ∨ ac.OnCompletion = UpdateApplicationOC)) :
    checkEvents (ApplicationCallBody env ac header ad txnCounter steva w).2.2.trace
      = checkEvents w.trace := by
  have hid : ac.ApplicationID ≠ 0 := fun h => hg (Or.inl h)
  unfold ApplicationCallBody
  simp only [hid, if_false, hg]
  have hA := checkEvents_of_evaluatorEvents
    (getAppParams_evaluatorEvents env ac.ApplicationID w)
  split
  · rename_i heq; rw [heq] at hA; exact hA
  rename_i params creator ex w2 heq
  rw [heq] at hA
  split
  · exact hA
  simp only [StateEvaluator.callInitLedger]
  split
  · rename_i heq3
    simp only [Prod.mk.injEq] at heq3
    rw [← heq3.2]; exact hA
  rename_i w3 heq3
  simp only [Prod.mk.injEq] at heq3
  obtain ⟨_, h3⟩ := heq3
  subst h3
  have hI : checkEvents
      (w2.log (Event.evInitLedger ac.ApplicationID params.StateSchemas)).trace
      = checkEvents w.trace := hA
  have hf : ¬ (False ∨ ac.OnCompletion = UpdateApplicationOC) := by
    rintro (h | h)
    · exact h
    · exact hg (Or.inr h)
  split
  · rename_i heq4
    rw [if_neg hf] at heq4
    simp at heq4
  rename_i w4 heq4
  rw [if_neg hf] at heq4
  simp only [Prod.mk.injEq, true_and] at heq4
  subst heq4
  split
  · exact (applyClearState_checkEvents env ac header.Sender ac.ApplicationID ad steva _).trans hI
  · exact (ApplicationCallApproval_checkEvents env ac header ad steva params creator
      ac.ApplicationID _).trans hI

theorem ApplicationCallBody_at_gate (env : Env) (ac : ApplicationCallTxnFields)
    (header : Header) (ad : ApplyData) (txnCounter : Nat) (steva : StateEvaluator) (w : World)
    (appIdx : AppIndex) (params : AppParams) (creator : Address) (ex : Bool) (w1 w2 : World)
    (hres : (if ac.ApplicationID = 0 then
        createApplication env ac header.Sender txnCounter w
      else (Except.ok ac.ApplicationID, w)) = (Except.ok appIdx, w1))
    (hget : getAppParams env appIdx w1 = (Except.ok (params, creator, ex), w2))
    (hex : ex = true ∨ ac.OnCompletion = ClearStateOC)
    (hinit : steva.InitLedger w2.balances appIdx params.StateSchemas = none)
    (hgate : ac.ApplicationID = 0 ∨ ac.OnCompletion = UpdateApplicationOC) :
    ApplicationCallBody env ac header ad txnCounter steva w
      = match checkPrograms ac steva env.proto.MaxAppProgramCost
          (w2.log (Event.evInitLedger appIdx params.StateSchemas)) with
        | (some err, w4) => (some err, ad, w4)
        | (none, w4) =>
          if ac.OnCompletion = ClearStateOC then
            applyClearState env ac header.Sender appIdx ad steva w4
          else ApplicationCallApproval env ac header ad steva params creator appIdx w4 := by
  have hx : ¬ (ex = false ∧ ac.OnCompletion ≠ ClearStateOC) := by
    rintro ⟨h1, h2⟩
    rcases hex with h | h
    · rw [h1] at h; simp at h
    · exact h2 h
  unfold ApplicationCallBody
  rw [hres]
  simp only [hget, if_neg hx, StateEvaluator.callInitLedger, hinit, Option.map_none',
    if_pos hgate]

theorem resolve_evaluatorEvents (env : Env) (ac : ApplicationCallTxnFields)
    (header : Header) (txnCounter : Nat) (w w1 : World) (appIdx : AppIndex)
    (hres : (if ac.ApplicationID = 0 then
        createApplication env ac header.Sender txnCounter w
      else (Except.ok ac.ApplicationID, w)) = (Except.ok appIdx, w1)) :
    evaluatorEvents w1.trace = evaluatorEvents w.trace := by
  by_cases hid : ac.ApplicationID = 0
  · rw [if_pos hid] at hres
    have h := createApplication_evaluatorEvents env ac header.Sender txnCounter w
    rw [hres] at h
    exact h
  · rw [if_neg hid] at hres
    simp only [Prod.mk.injEq] at hres
    rw [← hres.2]

/-! ## C21 -/

/-- C21. Program-cost gate.  (1) `checkPrograms` returns nil if and only if
`Check` succeeds on the approval and on the clear-state program and both
costs are at most `maxCost`; costs equal to `maxCost` pass and a cost of
`maxCost + 1` fails.  (2) In `ApplicationCall` the gate is run exactly when
`ApplicationID = 0` or the completion action is Update: a call for which
neither holds never calls `Check`, and a call for which one holds and that
reaches the gate (the target is resolved, its parameters are loaded, it
exists or the action is ClearState, and `InitLedger` returns nil) calls
`Check` there, on the approval program first, and nowhere else.  (3) When the
gate fails, the call returns its error and `Eval` has not been called. -/
theorem checkPrograms_gate (env : Env) (ac : ApplicationCallTxnFields)
    (header : Header) (ad : ApplyData) (txnCounter : Nat) (steva : StateEvaluator) (w : World)
    (maxCost : Int)
    (appIdx : AppIndex) (params : AppParams) (creator : Address) (ex : Bool) (w1 w2 : World)
    (hres : (if ac.ApplicationID = 0 then
        createApplication env ac header.Sender txnCounter w
      else (Except.ok ac.ApplicationID, w)) = (Except.ok appIdx, w1))
    (hget : getAppParams env appIdx w1 = (Except.ok (params, creator, ex), w2))
    (hex : ex = true ∨ ac.OnCompletion = ClearStateOC)
    (hinit : steva.InitLedger w2.balances appIdx params.StateSchemas = none) :
    ((checkPrograms ac steva maxCost w).1 = none ↔
      ((steva.Check w.balances ac.ApprovalProgram).2 = none ∧
        (steva.Check w.balances ac.ApprovalProgram).1 ≤ maxCost ∧
        (steva.Check w.balances ac.ClearStateProgram).2 = none ∧
        (steva.Check w.balances ac.ClearStateProgram).1 ≤ maxCost)) ∧
    (steva.Check w.balances ac.ApprovalProgram = (maxCost, none) →
      steva.Check w.balances ac.ClearStateProgram = (maxCost, none) →
      (checkPrograms ac steva maxCost w).1 = none) ∧
    ((steva.Check w.balances ac.ApprovalProgram).1 = maxCost + 1 ∨
        (steva.Check w.balances ac.ClearStateProgram).1 = maxCost + 1 →
      (checkPrograms ac steva maxCost w).1 ≠ none) ∧
    (¬ (ac.ApplicationID = 0 ∨ ac.OnCompletion = UpdateApplicationOC) →
      checkEvents (ApplicationCall env ac header (some ad) txnCounter steva w).2.2.trace
        = checkEvents w.trace) ∧
    (ac.ApplicationID = 0 ∨ ac.OnCompletion = UpdateApplicationOC →
      checkEvents (ApplicationCall env ac header (some ad) txnCounter steva w).2.2.trace
        = checkEvents (checkPrograms ac steva env.proto.MaxAppProgramCost
            (w2.log (Event.evInitLedger appIdx params.StateSchemas))).2.trace ∧
      ∃ t, (t = [] ∨ t = [Event.evCheck ac.ClearStateProgram]) ∧
        checkEvents (ApplicationCall env ac header (some ad) txnCounter steva w).2.2.trace
          = t ++ Event.evCheck ac.ApprovalProgram :: checkEvents w.trace) ∧
    (ac.ApplicationID = 0 ∨ ac.OnCompletion = UpdateApplicationOC →
      ∀ e, (checkPrograms ac steva env.proto.MaxAppProgramCost
          (w2.log (Event.evInitLedger appIdx params.StateSchemas))).1 = some e →
        (ApplicationCall env ac header (some ad) txnCounter steva w).1 = some e ∧
        evalEvents (ApplicationCall env ac header (some ad) txnCounter steva w).2.2.trace
          = evalEvents w.trace) := by
  have hiff := checkPrograms_none_iff ac steva maxCost w
  have h12 : evaluatorEvents w2.trace = evaluatorEvents w.trace := by
    have h1 := resolve_evaluatorEvents env ac header txnCounter w w1 appIdx hres
    have h2 := getAppParams_evaluatorEvents env appIdx w1
    rw [hget] at h2
    exact h2.trans h1
  have hc0 : checkEvents w2.trace = checkEvents w.trace := checkEvents_of_evaluatorEvents h12
  have he0 : evalEvents w2.trace = evalEvents w.trace := evalEvents_of_evaluatorEvents h12
  have hchk : checkEvents (w2.log (Event.evInitLedger appIdx params.StateSchemas)).trace
      = checkEvents w.trace := hc0
  have hevl : evalEvents (w2.log (Event.evInitLedger appIdx params.StateSchemas)).trace
      = evalEvents w.trace := he0
  obtain ⟨hA1, hA2⟩ := ApplicationCall_some env ac header ad txnCounter steva w
  refine ⟨hiff, ?_, ?_, ?_, ?_, ?_⟩
  · intro ha hc
    apply hiff.mpr
    rw [ha, hc]
    exact ⟨rfl, le_refl _, rfl, le_refl _⟩
  · intro hor hn
    obtain ⟨_, h1, _, h2⟩ := hiff.mp hn
    rcases hor with h | h
    · rw [h] at h1; exact absurd h1 (by simp)
    · rw [h] at h2; exact absurd h2 (by simp)
  · intro hg
    rw [hA2]
    exact ApplicationCallBody_checkEvents env ac header ad txnCounter steva w hg
  · intro hg
    have hB := ApplicationCallBody_at_gate env ac header ad txnCounter steva w appIdx params
      creator ex w1 w2 hres hget hex hinit hg
    have hsame : checkEvents (ApplicationCall env ac header (some ad) txnCounter steva
        w).2.2.trace
        = checkEvents (checkPrograms ac steva env.proto.MaxAppProgramCost
            (w2.log (Event.evInitLedger appIdx params.StateSchemas))).2.trace := by
      rw [hA2, hB]
      split
      · rename_i heq; rw [heq]
      · rename_i w4 heq
        rw [heq]
        split
        · exact applyClearState_checkEvents env ac header.Sender appIdx ad steva w4
        · exact ApplicationCallApproval_checkEvents env ac header ad steva params creator
            appIdx w4
    refine ⟨hsame, ?_⟩
    obtain ⟨t, ht, heq⟩ := checkPrograms_checkEvents ac steva env.proto.MaxAppProgramCost
      (w2.log (Event.evInitLedger appIdx params.StateSchemas))
    exact ⟨t, ht, by rw [hsame, heq, hchk]⟩
  · intro hg e he
    have hB := ApplicationCallBody_at_gate env ac header ad txnCounter steva w appIdx params
      creator ex w1 w2 hres hget hex hinit hg
    have hE := checkPrograms_evalEvents ac steva env.proto.MaxAppProgramCost
      (w2.log (Event.evInitLedger appIdx params.StateSchemas))
    rw [hA1, hA2, hB]
    revert he hE
    cases checkPrograms ac steva env.proto.MaxAppProgramCost
      (w2.log (Event.evInitLedger appIdx params.StateSchemas)) with
    | mk r w4 =>
      intro he hE
      simp only at he
      subst he
      exact ⟨rfl, hE.trans hevl⟩

/-- C21 at a concrete input: account 1 updates application 5 with programs
whose cost is 701, one more than `MaxAppProgramCost`; the gate is reached and
fails, and `Eval` is not called. -/
theorem checkPrograms_gate_witness :
    getAppParams env0 5 w5
      = (Except.ok (params5, 1, true),
          (w5.log (Event.evGetCreator 5 CreatableType.AppCreatable true)).log
            (Event.evGet 1 true)) ∧
    (stevaPass 701 globalA).InitLedger w5.balances 5 params5.StateSchemas = none ∧
    (acUpdate5.ApplicationID = 0 ∨ acUpdate5.OnCompletion = UpdateApplicationOC) ∧
    (ApplicationCall env0 acUpdate5 ⟨1⟩ (some ⟨0, EvalDelta.zero⟩) 4
      (stevaPass 701 globalA) w5).1
      = some (Error.errorf "ApprovalProgram too resource intensive") ∧
    evalEvents (ApplicationCall env0 acUpdate5 ⟨1⟩ (some ⟨0, EvalDelta.zero⟩) 4
      (stevaPass 701 globalA) w5).2.2.trace = evalEvents w5.trace :=
  ⟨rfl, rfl, Or.inr rfl,
    (checkPrograms_gate env0 acUpdate5 ⟨1⟩ ⟨0, EvalDelta.zero⟩ 4 (stevaPass 701 globalA) w5 700
      5 params5 1 true w5
      ((w5.log (Event.evGetCreator 5 CreatableType.AppCreatable true)).log
        (Event.evGet 1 true))
      rfl rfl (Or.inl rfl) rfl).2.2.2.2.2 (Or.inr rfl)
      (Error.errorf "ApprovalProgram too resource intensive") rfl⟩

/-! ## The first failing check of `applyEvalDelta` -/

theorem applyEvalDeltaStage_cons_step (env : Env) (ac : ApplicationCallTxnFields)
    (sender : Address) (appIdx : AppIndex) (accountIdx : Nat) (delta : StateDelta)
    (rest : List (Nat × StateDelta)) (changes changes' : GoMap Address AppLocalState)
    (w w' : World) :
    applyEvalDeltaStage env ac sender appIdx ((accountIdx, delta) :: rest) changes w
      = (Except.ok changes', w') →
    ∃ addr ls w1,
      applyEvalDeltaStage env ac sender appIdx rest (changes.insert addr ls) w1
        = (Except.ok changes', w') ∧
      ∀ rest2, applyEvalDeltaStage env ac sender appIdx ((accountIdx, delta) :: rest2) changes w
        = applyEvalDeltaStage env ac sender appIdx rest2 (changes.insert addr ls) w1 := by
  intro h
  rw [applyEvalDeltaStage] at h
  revert h
  split
  · intro h; simp at h
  rename_i addr hres
  split
  · intro h; simp at h
  rename_i hdup
  split
  · intro h; simp at h
  rename_i hlen
  split
  · intro h; simp at h
  rename_i hval
  split
  · intro h; simp at h
  rename_i record w1 hget
  split
  · intro h; simp at h
  rename_i localState hls
  split
  · intro h; simp at h
  rename_i kv hkv
  split
  · intro h; simp at h
  rename_i hsat
  intro h
  refine ⟨addr, { localState with KeyValue := kv }, w1, h, ?_⟩
  intro rest2
  rw [applyEvalDeltaStage]
  simp only [hres, hdup, hlen, hval, hget, hls, hkv, hsat, if_false]
  simp

theorem applyEvalDeltaStage_append (env : Env) (ac : ApplicationCallTxnFields)
    (sender : Address) (appIdx : AppIndex) (rest : List (Nat × StateDelta)) :
    ∀ (pre : List (Nat × StateDelta)) (changes c1 : GoMap Address AppLocalState)
      (w w1 : World),
      applyEvalDeltaStage env ac sender appIdx pre changes w = (Except.ok c1, w1) →
      applyEvalDeltaStage env ac sender appIdx (pre ++ rest) changes w
        = applyEvalDeltaStage env ac sender appIdx rest c1 w1
  | [], changes, c1, w, w1 => by
    intro h
    simp only [applyEvalDeltaStage, Prod.mk.injEq, Except.ok.injEq] at h
    rw [List.nil_append, h.1, h.2]
  | (accountIdx, delta) :: pre, changes, c1, w, w1 => by
    intro h
    obtain ⟨addr, ls, w2, hrest, hstep⟩ := applyEvalDeltaStage_cons_step env ac sender appIdx
      accountIdx delta pre changes c1 w w1 h
    rw [List.cons_append, hstep (pre ++ rest)]
    exact applyEvalDeltaStage_append env ac sender appIdx rest pre _ c1 w2 w1 hrest

theorem applyEvalDeltaStage_first (env : Env) (ac : ApplicationCallTxnFields)
    (sender : Address) (appIdx : AppIndex) (idx : Nat) (delta : StateDelta)
    (post : List (Nat × StateDelta)) (c1 : GoMap Address AppLocalState) (w1 : World) :
    (∀ e, ac.AddressByIndex idx sender = Except.error e →
      applyEvalDeltaStage env ac sender appIdx ((idx, delta) :: post) c1 w1
        = (Except.error e, w1)) ∧
    (∀ addr, ac.AddressByIndex idx sender = Except.ok addr →
      ((c1.lookup addr).isSome = true →
        applyEvalDeltaStage env ac sender appIdx ((idx, delta) :: post) c1 w1
          = (Except.error (Error.applyError "duplicate LocalState delta"), w1)) ∧
      (c1.lookup addr = none → delta.len = 0 →
        applyEvalDeltaStage env ac sender appIdx ((idx, delta) :: post) c1 w1
          = (Except.error (Error.applyError "got zero-length delta, not allowed"), w1)) ∧
      (c1.lookup addr = none → delta.len ≠ 0 → env.Valid env.proto delta = true →
        (∀ e w2, Get env addr w1 = (Except.error e, w2) →
          applyEvalDeltaStage env ac sender appIdx ((idx, delta) :: post) c1 w1
            = (Except.error e, w2)) ∧
        (∀ record w2, Get env addr w1 = (Except.ok record, w2) →
          record.data.AppLocalStates.lookup appIdx = none →
          applyEvalDeltaStage env ac sender appIdx ((idx, delta) :: post) c1 w1
            = (Except.error
                (Error.applyError "cannot apply LocalState delta: acct has not opted in"),
                w2)))) := by
  refine ⟨?_, ?_⟩
  · intro e he
    rw [applyEvalDeltaStage]
    simp only [he]
  · intro addr ha
    refine ⟨?_, ?_, ?_⟩
    · intro hd
      rw [applyEvalDeltaStage]
      simp only [ha, hd, if_true]
    · intro hd hz
      rw [applyEvalDeltaStage]
      simp only [ha, hd, hz, Option.isSome_none, if_true]
      simp
    · intro hd hz hv
      refine ⟨?_, ?_⟩
      · intro e w2 hg
        rw [applyEvalDeltaStage]
        simp only [ha, hd, hz, hv, hg, Option.isSome_none, if_false]
        simp
      · intro record w2 hg hl
        rw [applyEvalDeltaStage]
        simp only [ha, hd, hz, hv, hg, hl, Option.isSome_none, if_false]
        simp

/-! ## Failed storage calls -/

theorem Get_eq_ok (env : Env) (addr : Address) (w : World) (hf : env.fault w.trace = none) :
    Get env addr w
      = (Except.ok ⟨addr, w.balances.accts addr⟩, w.log (Event.evGet addr true)) := by
  simp only [Get, hf]

theorem Get_eq_error (env : Env) (addr : Address) (w : World) (c : Nat)
    (hf : env.fault w.trace = some c) :
    Get env addr w = (Except.error (Error.external c), w.log (Event.evGet addr false)) := by
  simp only [Get, hf]

theorem Put_faultEvents (env : Env) (r : BalanceRecord) (w : World) :
    ((Put env r w).1 = none ∧ faultEvents (Put env r w).2.trace = faultEvents w.trace) ∨
    ∃ c, (Put env r w).1 = some (Error.external c) := by
  cases hf : env.fault w.trace with
  | none =>
    left
    simp only [Put, hf]
    exact ⟨trivial, rfl⟩
  | some c =>
    right
    simp only [Put, hf]
    exact ⟨c, rfl⟩

theorem applyEvalDeltaStage_faultEvents (env : Env) (ac : ApplicationCallTxnFields)
    (sender : Address) (appIdx : AppIndex) :
    ∀ (l : List (Nat × StateDelta)) (changes : GoMap Address AppLocalState) (w : World),
      faultEvents (applyEvalDeltaStage env ac sender appIdx l changes w).2.trace
        = faultEvents w.trace ∨
      ∃ c, (applyEvalDeltaStage env ac sender appIdx l changes w).1
        = Except.error (Error.external c)
  | [], _, _ => Or.inl rfl
  | (accountIdx, delta) :: rest, changes, w => by
    unfold applyEvalDeltaStage
    split
    · exact Or.inl rfl
    rename_i addr _
    split
    · exact Or.inl rfl
    split
    · exact Or.inl rfl
    split
    · exact Or.inl rfl
    cases hf : env.fault w.trace with
    | some c =>
      rw [Get_eq_error env addr w c hf]
      exact Or.inr ⟨c, rfl⟩
    | none =>
      rw [Get_eq_ok env addr w hf]
      simp only
      split
      · exact Or.inl rfl
      split
      · exact Or.inl rfl
      split
      · exact Or.inl rfl
      · rcases applyEvalDeltaStage_faultEvents env ac sender appIdx rest _
          (w.log (Event.evGet addr true)) with h | h
        · exact Or.inl h
        · exact Or.inr h

theorem applyEvalDeltaWriteGlobal_faultEvents (env : Env) (evalDelta : EvalDelta)
    (params : AppParams) (creator : Address) (appIdx : AppIndex) (w : World) :
    faultEvents (applyEvalDeltaWriteGlobal env evalDelta params creator appIdx w).2.trace
      = faultEvents w.trace ∨
    ∃ c, (applyEvalDeltaWriteGlobal env evalDelta params creator appIdx w).1
      = some (Error.external c) := by
  unfold applyEvalDeltaWriteGlobal
  split
  · cases hf : env.fault w.trace with
    | some c =>
      rw [Get_eq_error env creator w c hf]
      exact Or.inr ⟨c, rfl⟩
    | none =>
      rw [Get_eq_ok env creator w hf]
      simp only
      rcases Put_faultEvents env
        { Addr := creator,
          data := { w.balances.accts creator with
            AppParams := (cloneAppParams (w.balances.accts creator).AppParams).insert
              appIdx params } } (w.log (Event.evGet creator true)) with h | h
      · exact Or.inl h.2
      · exact Or.inr h
  · exact Or.inl rfl

theorem applyEvalDeltaWriteLocal_faultEvents (env : Env) (appIdx : AppIndex) :
    ∀ (l : List (Address × AppLocalState)) (w : World),
      faultEvents (applyEvalDeltaWriteLocal env appIdx l w).2.trace = faultEvents w.trace ∨
      ∃ c, (applyEvalDeltaWriteLocal env appIdx l w).1 = some (Error.external c)
  | [], _ => Or.inl rfl
  | (addr, ls1) :: rest, w => by
    unfold applyEvalDeltaWriteLocal
    cases hf : env.fault w.trace with
    | some c =>
      rw [Get_eq_error env addr w c hf]
      exact Or.inr ⟨c, rfl⟩
    | none =>
      rw [Get_eq_ok env addr w hf]
      simp only
      have hP := Put_faultEvents env
        { Addr := addr,
          data := { w.balances.accts addr with
            AppLocalStates :=
              (cloneAppLocalStates (w.balances.accts addr).AppLocalStates).insert
                appIdx ls1 } } (w.log (Event.evGet addr true))
      split
      · rename_i e w2 heq
        rw [heq] at hP
        rcases hP with h | ⟨c, h⟩
        · exact absurd h.1 (by simp)
        · simp only [Option.some.injEq] at h
          exact Or.inr ⟨c, by rw [h]⟩
      · rename_i w2 heq
        rw [heq] at hP
        rcases hP with h | ⟨c, h⟩
        · rcases applyEvalDeltaWriteLocal_faultEvents env appIdx rest w2 with h2 | h2
          · exact Or.inl (h2.trans h.2)
          · exact Or.inr h2
        · simp at h

theorem applyEvalDelta_faultEvents (env : Env) (ac : ApplicationCallTxnFields)
    (evalDelta : EvalDelta) (params : AppParams) (creator sender : Address)
    (appIdx : AppIndex) (w : World) :
    faultEvents (applyEvalDelta env ac evalDelta params creator sender appIdx w).2.trace
      = faultEvents w.trace ∨
    ∃ c, (applyEvalDelta env ac evalDelta params creator sender appIdx w).1
      = some (Error.external c) := by
  unfold applyEvalDelta
  split
  · exact Or.inl rfl
  rename_i params1 _
  have hS := applyEvalDeltaStage_faultEvents env ac sender appIdx
    evalDelta.LocalDeltas.entries GoMap.empty w
  split
  · rename_i e w1 heq
    rw [heq] at hS
    rcases hS with h | ⟨c, h⟩
    · exact Or.inl h
    · simp only [Except.error.injEq] at h
      exact Or.inr ⟨c, by rw [h]⟩
  rename_i changes w1 heq
  rw [heq] at hS
  have hS1 : faultEvents w1.trace = faultEvents w.trace := by
    rcases hS with h | ⟨c, h⟩
    · exact h
    · simp at h
  have hW := applyEvalDeltaWriteGlobal_faultEvents env evalDelta params1 creator appIdx w1
  split
  · rename_i e w2 heq2
    rw [heq2] at hW
    rcases hW with h | ⟨c, h⟩
    · exact Or.inl (h.trans hS1)
    · simp only [Option.some.injEq] at h
      exact Or.inr ⟨c, by rw [h]⟩
  · rename_i w2 heq2
    rw [heq2] at hW
    have hW1 : faultEvents w2.trace = faultEvents w.trace := by
      rcases hW with h | ⟨c, h⟩
      · exact h.trans hS1
      · simp at h
    rcases applyEvalDeltaWriteLocal_faultEvents env appIdx (env.rangeChanges changes.entries)
      w2 with h | h
    · exact Or.inl (h.trans hW1)
    · exact Or.inr h

theorem applyEvalDelta_of_stage_error (env : Env) (ac : ApplicationCallTxnFields)
    (evalDelta : EvalDelta) (params params1 : AppParams) (creator sender : Address)
    (appIdx : AppIndex) (w w1 : World) (e : Error)
    (hg : applyEvalDeltaGlobal env evalDelta params = Except.ok params1)
    (hs : applyEvalDeltaStage env ac sender appIdx evalDelta.LocalDeltas.entries GoMap.empty w
      = (Except.error e, w1)) :
    applyEvalDelta env ac evalDelta params creator sender appIdx w = (some e, w1) := by
  simp only [applyEvalDelta, hg, hs]

/-! ## C10 -/

/-- C10, as the code has it.  `applyEvalDelta` returns the error of the first
check that fails.  (a) When no storage call fails, every account index of a
local delta resolves and every action of the deltas is recognised, an eval
delta in which two account indices resolve to the same address, or some
local delta has zero length, or some resolved address has no local state of
`appIdx`, makes `applyEvalDelta` return a policy error.  (b) Every error of
`applyEvalDelta` that is not a policy error is the failed resolution of an
account index, the error of a failed storage call, or the unknown action of
a delta; (c) and each of these is an error for which `isApplyError` is
false.  (d) An error of the check of the global delta is returned before any
local delta is visited.  (e) When the global delta passes and every local
delta visited before the one of account index `idx` passes its checks, the
first check of that local delta that fails gives the error of the call: a
failed address resolution and a failed `Get` are returned as they are, and
`isApplyError` is false for them; an address that an earlier local delta
resolved to, a zero length, and an address without local state of `appIdx`
are returned as policy errors.  (f) Whenever a storage call (`Get` or `Put`)
of `applyEvalDelta` fails, in the checks or in the writes, the call returns
the error of the storage view, for which `isApplyError` is false. -/
theorem applyEvalDelta_error_classes (env : Env) (ac : ApplicationCallTxnFields)
    (evalDelta : EvalDelta) (params : AppParams) (creator sender : Address)
    (appIdx : AppIndex) (w : World) :
    ((∀ t, env.fault t = none) →
      (∀ idx d, (idx, d) ∈ evalDelta.LocalDeltas.entries →
        ∃ a, ac.AddressByIndex idx sender = Except.ok a) →
      Recognised evalDelta.GlobalDelta →
      (∀ idx d, (idx, d) ∈ evalDelta.LocalDeltas.entries → Recognised d) →
      Malformed ac evalDelta sender appIdx w.balances →
      isApplyError (applyEvalDelta env ac evalDelta params creator sender appIdx w).1 = true) ∧
    (∀ e, (applyEvalDelta env ac evalDelta params creator sender appIdx w).1 = some e →
      isApplyError (some e) = false → FatalCause env ac evalDelta sender e) ∧
    (∀ e, FatalCause env ac evalDelta sender e → isApplyError (some e) = false) ∧
    (∀ e, applyEvalDeltaGlobal env evalDelta params = Except.error e →
      applyEvalDelta env ac evalDelta params creator sender appIdx w = (some e, w)) ∧
    (∀ (pre post : List (Nat × StateDelta)) (idx : Nat) (delta : StateDelta)
        (params1 : AppParams) (changes1 : GoMap Address AppLocalState) (w1 : World),
      evalDelta.LocalDeltas.entries = pre ++ (idx, delta) :: post →
      applyEvalDeltaGlobal env evalDelta params = Except.ok params1 →
      applyEvalDeltaStage env ac sender appIdx pre GoMap.empty w = (Except.ok changes1, w1) →
      (∀ e, ac.AddressByIndex idx sender = Except.error e →
        applyEvalDelta env ac evalDelta params creator sender appIdx w = (some e, w1) ∧
        isApplyError (some e) = false) ∧
      (∀ addr, ac.AddressByIndex idx sender = Except.ok addr →
        ((changes1.lookup addr).isSome = true →
          applyEvalDelta env ac evalDelta params creator sender appIdx w
            = (some (Error.applyError "duplicate LocalState delta"), w1)) ∧
        (changes1.lookup addr = none → delta.len = 0 →
          applyEvalDelta env ac evalDelta params creator sender appIdx w
            = (some (Error.applyError "got zero-length delta, not allowed"), w1)) ∧
        (changes1.lookup addr = none → delta.len ≠ 0 → env.Valid env.proto delta = true →
          (∀ e w2, Get env addr w1 = (Except.error e, w2) →
            applyEvalDelta env ac evalDelta params creator sender appIdx w = (some e, w2) ∧
            isApplyError (some e) = false) ∧
          (∀ record w2, Get env addr w1 = (Except.ok record, w2) →
            record.data.AppLocalStates.lookup appIdx = none →
            applyEvalDelta env ac evalDelta params creator sender appIdx w
              = (some (Error.applyError
                  "cannot apply LocalState delta: acct has not opted in"), w2))))) ∧
    (faultEvents (applyEvalDelta env ac evalDelta params creator sender appIdx w).2.trace
        ≠ faultEvents w.trace →
      ∃ c, (applyEvalDelta env ac evalDelta params creator sender appIdx w).1
          = some (Error.external c) ∧
        isApplyError (applyEvalDelta env ac evalDelta params creator sender appIdx w).1
          = false) := by
  obtain ⟨hA, hB, hC⟩ :=
    applyEvalDelta_malformed_core env ac evalDelta params creator sender appIdx w
  refine ⟨hA, hB, hC, ?_, ?_, ?_⟩
  · intro e hg
    simp only [applyEvalDelta, hg]
  · intro pre post idx delta params1 changes1 w1 hent hg hs
    have happ := applyEvalDeltaStage_append env ac sender appIdx ((idx, delta) :: post) pre
      GoMap.empty changes1 w w1 hs
    rw [← hent] at happ
    obtain ⟨f1, f2⟩ := applyEvalDeltaStage_first env ac sender appIdx idx delta post changes1 w1
    have hret : ∀ e w2,
        applyEvalDeltaStage env ac sender appIdx ((idx, delta) :: post) changes1 w1
          = (Except.error e, w2) →
        applyEvalDelta env ac evalDelta params creator sender appIdx w = (some e, w2) :=
      fun e w2 h => applyEvalDelta_of_stage_error env ac evalDelta params params1 creator
        sender appIdx w w2 e hg (happ.trans h)
    refine ⟨?_, ?_⟩
    · intro e he
      exact ⟨hret e w1 (f1 e he), AddressByIndex_error ac idx sender e he⟩
    · intro addr ha
      obtain ⟨g1, g2, g3⟩ := f2 addr ha
      refine ⟨fun hd => hret _ w1 (g1 hd), fun hd hz => hret _ w1 (g2 hd hz), ?_⟩
      intro hd hz hv
      obtain ⟨k1, k2⟩ := g3 hd hz hv
      refine ⟨?_, ?_⟩
      · intro e w2 hget
        exact ⟨hret e w2 (k1 e w2 hget),
          Get_error_external env addr w1 e (by rw [hget])⟩
      · intro record w2 hget hl
        exact hret _ w2 (k2 record w2 hget hl)
  · intro hne
    rcases applyEvalDelta_faultEvents env ac evalDelta params creator sender appIdx w with h | h
    · exact absurd h hne
    · obtain ⟨c, hc⟩ := h
      exact ⟨c, hc, by rw [hc]; rfl⟩

/-- C10 at concrete inputs: the sender is also the first referenced account,
so account indices 0 and 1 resolve to the same address; and, after the local
delta of the sender is staged, the account index 5 does not resolve. -/
theorem applyEvalDelta_error_classes_witness :
    (Malformed acNoOp5 localTwo 7 5 w5.balances ∧
      isApplyError (applyEvalDelta env0 acNoOp5 localTwo params5 1 7 5 w5).1 = true) ∧
    (applyEvalDeltaStage env0 acNoOp5 7 5 [(0, deltaA)] GoMap.empty w5
        = (Except.ok (GoMap.empty.insert 7
            ⟨⟨1, 0⟩, (applyStateDelta (allocKV none) deltaA).1⟩),
          w5.log (Event.evGet 7 true)) ∧
      applyEvalDelta env0 acNoOp5 localStagedUnresolved params5 1 7 5 w5
        = (some (Error.errorf "cannot load account"), w5.log (Event.evGet 7 true)) ∧
      isApplyError (some (Error.errorf "cannot load account")) = false) := by
  refine ⟨?_, rfl,
    (applyEvalDelta_error_classes env0 acNoOp5 localStagedUnresolved params5 1 7 5
      w5).2.2.2.2.1 [(0, deltaA)] [] 5 deltaA params5 _ _ rfl rfl rfl |>.1 _ rfl⟩
  have hmal : Malformed acNoOp5 localTwo 7 5 w5.balances :=
    Or.inl ⟨1, deltaA, 0, deltaA, 7, by decide, by decide, by decide, rfl, rfl⟩
  have hmem : ∀ idx d, (idx, d) ∈ localTwo.LocalDeltas.entries →
      (idx = 1 ∨ idx = 0) ∧ d = deltaA := by
    intro idx d hm
    have h2 : localTwo.LocalDeltas.entries = [(1, deltaA), (0, deltaA)] := by decide
    rw [h2] at hm
    simp only [List.mem_cons, Prod.mk.injEq, List.mem_singleton, List.not_mem_nil,
      or_false] at hm
    rcases hm with ⟨h1, h3⟩ | ⟨h1, h3⟩
    · exact ⟨Or.inl h1, h3⟩
    · exact ⟨Or.inr h1, h3⟩
  have hrecA : Recognised deltaA := by
    intro k vd hm
    have h2 : deltaA.entries = [("a", ⟨SetUintAction, [], 1⟩)] := by decide
    rw [h2] at hm
    simp only [List.mem_singleton, Prod.mk.injEq] at hm
    rw [hm.2]
    exact Or.inl rfl
  refine ⟨hmal, (applyEvalDelta_error_classes env0 acNoOp5 localTwo params5 1 7 5 w5).1
    (fun _ => rfl) ?_ ?_ ?_ hmal⟩
  · intro idx d hm
    rcases (hmem idx d hm).1 with h | h
    · subst h; exact ⟨7, rfl⟩
    · subst h; exact ⟨7, rfl⟩
  · intro k vd hm
    have h2 : localTwo.GlobalDelta.entries = [] := by decide
    rw [h2] at hm
    exact absurd hm (List.not_mem_nil _)
  · intro idx d hm
    rw [(hmem idx d hm).2]
    exact hrecA

/-- C10 fails as stated: the local delta of the sender has zero length, yet
the local delta visited first is keyed by an account index that does not
resolve, and `applyEvalDelta` returns that error, which is not a policy
error; likewise when the `Get` for the local delta visited first fails. -/
theorem applyEvalDelta_error_classes_counterexample :
    ((∃ i d, (i, d) ∈ localUnresolved.LocalDeltas.entries ∧ d.len = 0) ∧
      (applyEvalDelta env0 acNoOp5 localUnresolved params5 1 7 5 w5).1
        = some (Error.errorf "cannot load account") ∧
      isApplyError (applyEvalDelta env0 acNoOp5 localUnresolved params5 1 7 5 w5).1 = false) ∧
    ((∃ i d, (i, d) ∈ localFaulty.LocalDeltas.entries ∧ d.len = 0) ∧
      (applyEvalDelta envFault acNoOp5 localFaulty params5 1 3 5 w5).1
        = some (Error.external 1) ∧
      isApplyError (applyEvalDelta envFault acNoOp5 localFaulty params5 1 3 5 w5).1 = false) :=
  ⟨⟨⟨0, deltaEmpty, by decide, by decide⟩, by decide, by decide⟩,
   ⟨⟨0, deltaEmpty, by decide, by decide⟩, by decide, by decide⟩⟩

/-! ## The path of a call -/

theorem ApplicationCallBody_cases (env : Env) (ac : ApplicationCallTxnFields)
    (header : Header) (ad : ApplyData) (txnCounter : Nat) (steva : StateEvaluator) (w : World) :
    (∃ e w1, (if ac.ApplicationID = 0 then
          createApplication env ac header.Sender txnCounter w
        else (Except.ok ac.ApplicationID, w)) = (Except.error e, w1) ∧
      ApplicationCallBody env ac header ad txnCounter steva w = (some e, ad, w1)) ∨
    (∃ appIdx w1, (if ac.ApplicationID = 0 then
          createApplication env ac header.Sender txnCounter w
        else (Except.ok ac.ApplicationID, w)) = (Except.ok appIdx, w1) ∧
      ((∃ e wX, ApplicationCallBody env ac header ad txnCounter steva w = (some e, ad, wX) ∧
          NoPut w1 wX) ∨
        (∃ params creator w4, ReachesDispatch env ac steva appIdx w1 params creator w4 ∧
          NoPut w1 w4 ∧
          ApplicationCallBody env ac header ad txnCounter steva w
            = if ac.OnCompletion = ClearStateOC then
                applyClearState env ac header.Sender appIdx ad steva w4
              else ApplicationCallApproval env ac header ad steva params creator appIdx
                w4))) := by
  unfold ApplicationCallBody
  cases hres : (if ac.ApplicationID = 0 then
      createApplication env ac header.Sender txnCounter w
    else (Except.ok ac.ApplicationID, w)) with
  | mk r w1 =>
    cases r with
    | error e => exact Or.inl ⟨e, w1, rfl, rfl⟩
    | ok appIdx =>
      refine Or.inr ⟨appIdx, w1, rfl, ?_⟩
      simp only
      have hA := getAppParams_noPut env appIdx w1
      cases hget : getAppParams env appIdx w1 with
      | mk g w2 =>
        rw [hget] at hA
        cases g with
        | error e => exact Or.inl ⟨e, w2, rfl, hA⟩
        | ok pce =>
          obtain ⟨params, creator, ex⟩ := pce
          simp only
          split
          · exact Or.inl ⟨_, w2, rfl, hA⟩
          rename_i hex
          have hex1 : ex = true ∨ ac.OnCompletion = ClearStateOC := by
            cases ex with
            | true => exact Or.inl rfl
            | false =>
              right
              by_contra hc
              exact hex ⟨rfl, hc⟩
          simp only [StateEvaluator.callInitLedger]
          cases hinit : steva.InitLedger w2.balances appIdx params.StateSchemas with
          | some c =>
            simp only [Option.map_some']
            exact Or.inl ⟨_, _, rfl, hA⟩
          | none =>
            simp only [Option.map_none']
            have hI : NoPut w1 (w2.log (Event.evInitLedger appIdx params.StateSchemas)) := hA
            have hK := checkPrograms_noPut ac steva env.proto.MaxAppProgramCost
              (w2.log (Event.evInitLedger appIdx params.StateSchemas))
            cases hgate : (if ac.ApplicationID = 0 ∨ ac.OnCompletion = UpdateApplicationOC then
                checkPrograms ac steva env.proto.MaxAppProgramCost
                  (w2.log (Event.evInitLedger appIdx params.StateSchemas))
              else (none, w2.log (Event.evInitLedger appIdx params.StateSchemas))) with
            | mk r4 w4 =>
              have hN : NoPut w1 w4 := by
                split at hgate
                · rw [hgate] at hK; exact hI.trans hK
                · simp only [Prod.mk.injEq] at hgate
                  rw [← hgate.2]; exact hI
              cases r4 with
              | some e => exact Or.inl ⟨e, w4, rfl, hN⟩
              | none =>
                exact Or.inr ⟨params, creator, w4, ⟨ex, w2, hget, hex1, hinit, hgate⟩, hN, rfl⟩

theorem applyClearStateProgram_cases (env : Env) (ac : ApplicationCallTxnFields)
    (sender : Address) (appIdx : AppIndex) (ad : ApplyData) (steva : StateEvaluator)
    (params : AppParams) (creator : Address) (w : World) :
    (∃ d w3, steva.Eval w.balances params.ClearStateProgram = (true, d, none) ∧
      applyEvalDelta env ac d params creator sender appIdx
        (w.log (Event.evEval params.ClearStateProgram)) = (none, w3) ∧
      applyClearStateProgram env ac sender appIdx ad steva params creator w
        = (none, { ad with EvalDelta := d }, w3)) ∨
    (∃ d e w3, steva.Eval w.balances params.ClearStateProgram = (true, d, none) ∧
      applyEvalDelta env ac d params creator sender appIdx
        (w.log (Event.evEval params.ClearStateProgram)) = (some e, w3) ∧
      isApplyError (some e) = true ∧ NoPut w w3 ∧
      applyClearStateProgram env ac sender appIdx ad steva params creator w
        = (none, ad, w3)) ∨
    (∃ d e w3, steva.Eval w.balances params.ClearStateProgram = (true, d, none) ∧
      applyEvalDelta env ac d params creator sender appIdx
        (w.log (Event.evEval params.ClearStateProgram)) = (some e, w3) ∧
      isApplyError (some e) = false ∧
      applyClearStateProgram env ac sender appIdx ad steva params creator w
        = (some e, ad, w3)) ∨
    (((steva.Eval w.balances params.ClearStateProgram).1 = false ∨
        (steva.Eval w.balances params.ClearStateProgram).2.2 ≠ none) ∧
      applyClearStateProgram env ac sender appIdx ad steva params creator w
        = (none, ad, w.log (Event.evEval params.ClearStateProgram))) := by
  rcases hE : steva.Eval w.balances params.ClearStateProgram with ⟨pass, d, err⟩
  cases err with
  | some c =>
    refine Or.inr (Or.inr (Or.inr ⟨Or.inr (by simp), ?_⟩))
    simp [applyClearStateProgram, StateEvaluator.callEval, hE]
  | none =>
    cases pass with
    | false =>
      refine Or.inr (Or.inr (Or.inr ⟨Or.inl rfl, ?_⟩))
      simp [applyClearStateProgram, StateEvaluator.callEval, hE]
    | true =>
      rcases hA : applyEvalDelta env ac d params creator sender appIdx
        (w.log (Event.evEval params.ClearStateProgram)) with ⟨r, w3⟩
      cases r with
      | none =>
        refine Or.inl ⟨d, w3, rfl, hA, ?_⟩
        simp [applyClearStateProgram, StateEvaluator.callEval, hE, hA]
      | some e =>
        cases hp : isApplyError (some e) with
        | true =>
          refine Or.inr (Or.inl ⟨d, e, w3, rfl, hA, hp, ?_, ?_⟩)
          · have hN := applyEvalDelta_applyError_noPut env ac d params creator sender appIdx
              (w.log (Event.evEval params.ClearStateProgram)) (by rw [hA]; exact hp)
            rw [hA] at hN
            exact hN
          · simp [applyClearStateProgram, StateEvaluator.callEval, hE, hA, hp]
        | false =>
          refine Or.inr (Or.inr (Or.inl ⟨d, e, w3, rfl, hA, hp, ?_⟩))
          simp [applyClearStateProgram, StateEvaluator.callEval, hE, hA, hp]

theorem ApplicationCallApproval_cases (env : Env) (ac : ApplicationCallTxnFields)
    (header : Header) (ad : ApplyData) (steva : StateEvaluator) (params : AppParams)
    (creator : Address) (appIdx : AppIndex) (w4 : World) :
    (∃ e w5, (if ac.OnCompletion = OptInOC then
          applyOptIn env header.Sender appIdx params w4 else (none, w4)) = (some e, w5) ∧
      ApplicationCallApproval env ac header ad steva params creator appIdx w4
        = (some e, ad, w5)) ∨
    (∃ wE, (if ac.OnCompletion = OptInOC then
          applyOptIn env header.Sender appIdx params w4 else (none, w4)) = (none, wE) ∧
      ((∃ e, ((steva.Eval wE.balances params.ApprovalProgram).1 = false ∨
            (steva.Eval wE.balances params.ApprovalProgram).2.2 ≠ none) ∧
          isApplyError (some e) = false ∧
          ApplicationCallApproval env ac header ad steva params creator appIdx w4
            = (some e, ad, wE.log (Event.evEval params.ApprovalProgram))) ∨
        (∃ d, steva.Eval wE.balances params.ApprovalProgram = (true, d, none) ∧
          ((∃ e w6, applyEvalDelta env ac d params creator header.Sender appIdx
                (wE.log (Event.evEval params.ApprovalProgram)) = (some e, w6) ∧
              ApplicationCallApproval env ac header ad steva params creator appIdx w4
                = (some e, ad, w6)) ∨
            (∃ w6, applyEvalDelta env ac d params creator header.Sender appIdx
                (wE.log (Event.evEval params.ApprovalProgram)) = (none, w6) ∧
              ((∃ e w7, ApplicationCallCompletion env ac header creator appIdx w6
                    = (some e, w7) ∧
                  ApplicationCallApproval env ac header ad steva params creator appIdx w4
                    = (some e, ad, w7)) ∨
                (∃ w7, ApplicationCallCompletion env ac header creator appIdx w6
                    = (none, w7) ∧
                  ApplicationCallApproval env ac header ad steva params creator appIdx w4
                    = (none, { ad with EvalDelta := d }, w7)))))))) := by
  rcases hO : (if ac.OnCompletion = OptInOC then
      applyOptIn env header.Sender appIdx params w4 else (none, w4)) with ⟨o, wE⟩
  cases o with
  | some e =>
    refine Or.inl ⟨e, wE, rfl, ?_⟩
    simp only [ApplicationCallApproval, hO]
  | none =>
    refine Or.inr ⟨wE, rfl, ?_⟩
    rcases hE : steva.Eval wE.balances params.ApprovalProgram with ⟨pass, d, err⟩
    cases err with
    | some c =>
      refine Or.inl ⟨Error.external c, Or.inr (by simp), rfl, ?_⟩
      simp [ApplicationCallApproval, hO, StateEvaluator.callEval, hE]
    | none =>
      cases pass with
      | false =>
        refine Or.inl ⟨Error.errorf "transaction rejected by ApprovalProgram", Or.inl rfl, rfl,
          ?_⟩
        simp [ApplicationCallApproval, hO, StateEvaluator.callEval, hE]
      | true =>
        refine Or.inr ⟨d, rfl, ?_⟩
        rcases hA : applyEvalDelta env ac d params creator header.Sender appIdx
          (wE.log (Event.evEval params.ApprovalProgram)) with ⟨r, w6⟩
        cases r with
        | some e =>
          refine Or.inl ⟨e, w6, rfl, ?_⟩
          simp [ApplicationCallApproval, hO, StateEvaluator.callEval, hE, hA]
        | none =>
          refine Or.inr ⟨w6, rfl, ?_⟩
          rcases hC : ApplicationCallCompletion env ac header creator appIdx w6 with ⟨c, w7⟩
          cases c with
          | some e =>
            refine Or.inl ⟨e, w7, rfl, ?_⟩
            simp [ApplicationCallApproval, hO, StateEvaluator.callEval, hE, hA, hC]
          | none =>
            refine Or.inr ⟨w7, rfl, ?_⟩
            simp [ApplicationCallApproval, hO, StateEvaluator.callEval, hE, hA, hC]

theorem applyClearState_cases (env : Env) (ac : ApplicationCallTxnFields) (sender : Address)
    (appIdx : AppIndex) (ad : ApplyData) (steva : StateEvaluator) (w4 : World) :
    (∃ e wc1, getAppParams env appIdx w4 = (Except.error e, wc1) ∧
      applyClearState env ac sender appIdx ad steva w4 = (some e, ad, wc1)) ∨
    (∃ pE cE ex wc1, getAppParams env appIdx w4 = (Except.ok (pE, cE, ex), wc1) ∧
      ((∃ e wE, Get env sender wc1 = (Except.error e, wE) ∧
          applyClearState env ac sender appIdx ad steva w4 = (some e, ad, wE)) ∨
        (∃ record wE, Get env sender wc1 = (Except.ok record, wE) ∧
          ((record.data.AppLocalStates.lookup appIdx = none ∧
              applyClearState env ac sender appIdx ad steva w4
                = (some (Error.errorf
                    "cannot clear state: account is not currently opted in"), ad, wE)) ∨
            ((record.data.AppLocalStates.lookup appIdx).isSome = true ∧
              ((ex = false ∧
                  applyClearState env ac sender appIdx ad steva w4
                    = ((applyClearStateFinish env record appIdx wE).1, ad,
                        (applyClearStateFinish env record appIdx wE).2)) ∨
                (ex = true ∧
                  ((∃ e, (applyClearStateProgram env ac sender appIdx ad steva pE cE wE).1
                        = some e ∧
                      applyClearState env ac sender appIdx ad steva w4
                        = applyClearStateProgram env ac sender appIdx ad steva pE cE wE) ∨
                    ((applyClearStateProgram env ac sender appIdx ad steva pE cE wE).1
                        = none ∧
                      ((∃ e w5, Get env sender
                            (applyClearStateProgram env ac sender appIdx ad steva pE cE
                              wE).2.2 = (Except.error e, w5) ∧
                          applyClearState env ac sender appIdx ad steva w4
                            = (some e,
                                (applyClearStateProgram env ac sender appIdx ad steva pE cE
                                  wE).2.1, w5)) ∨
                        (∃ record2 w5, Get env sender
                            (applyClearStateProgram env ac sender appIdx ad steva pE cE
                              wE).2.2 = (Except.ok record2, w5) ∧
                          applyClearState env ac sender appIdx ad steva w4
                            = ((applyClearStateFinish env record2 appIdx w5).1,
                                (applyClearStateProgram env ac sender appIdx ad steva pE cE
                                  wE).2.1,
                                (applyClearStateFinish env record2 appIdx w5).2)))))))))))) := by
  rcases hgp : getAppParams env appIdx w4 with ⟨g, wc1⟩
  cases g with
  | error e =>
    refine Or.inl ⟨e, wc1, rfl, ?_⟩
    simp only [applyClearState, hgp]
  | ok pce =>
    obtain ⟨pE, cE, ex⟩ := pce
    refine Or.inr ⟨pE, cE, ex, wc1, rfl, ?_⟩
    rcases hget : Get env sender wc1 with ⟨r, wE⟩
    cases r with
    | error e =>
      refine Or.inl ⟨e, wE, rfl, ?_⟩
      simp only [applyClearState, hgp, hget]
    | ok record =>
      refine Or.inr ⟨record, wE, rfl, ?_⟩
      cases hl : record.data.AppLocalStates.lookup appIdx with
      | none =>
        refine Or.inl ⟨rfl, ?_⟩
        simp only [applyClearState, hgp, hget, hl]
      | some ls =>
        refine Or.inr ⟨rfl, ?_⟩
        cases ex with
        | false =>
          refine Or.inl ⟨rfl, ?_⟩
          simp [applyClearState, hgp, hget, hl]
        | true =>
          refine Or.inr ⟨rfl, ?_⟩
          rcases hP : applyClearStateProgram env ac sender appIdx ad steva pE cE wE with
            ⟨r, ad1, w3⟩
          cases r with
          | some e =>
            refine Or.inl ⟨e, rfl, ?_⟩
            simp [applyClearState, hgp, hget, hl, hP]
          | none =>
            refine Or.inr ⟨rfl, ?_⟩
            simp only
            rcases hg2 : Get env sender w3 with ⟨r2, w5⟩
            cases r2 with
            | error e =>
              refine Or.inl ⟨e, w5, rfl, ?_⟩
              simp [applyClearState, hgp, hget, hl, hP, hg2]
            | ok record2 =>
              refine Or.inr ⟨record2, w5, rfl, ?_⟩
              simp [applyClearState, hgp, hget, hl, hP, hg2]

/-! ## The storage view after a failing call -/

theorem createApplication_error_bal (env : Env) (ac : ApplicationCallTxnFields)
    (creator : Address) (txnCounter : Nat) (w w1 : World) (e : Error) :
    createApplication env ac creator txnCounter w = (Except.error e, w1) →
    w1.balances = w.balances := by
  unfold createApplication
  have hG := Get_noPut env creator w
  split
  · rename_i heq
    rw [heq] at hG
    intro h
    simp only [Prod.mk.injEq] at h
    rw [← h.2]; exact hG.1
  · rename_i record wg heq
    rw [heq] at hG
    dsimp only
    split
    · intro h
      simp only [Prod.mk.injEq] at h
      rw [← h.2]; exact hG.1
    · split
      · intro h
        simp only [Prod.mk.injEq] at h
        rw [← h.2]; exact hG.1
      · split
        · intro h
          simp only [Prod.mk.injEq] at h
          rw [← h.2]; exact hG.1
        · split
          · rename_i err w2 heq2
            intro h
            simp only [Prod.mk.injEq] at h
            rw [← h.2]
            have hP := PutWithCreatable_error_bal env _ _ _ wg err (by rw [heq2])
            rw [heq2] at hP
            exact hP.1.trans hG.1
          · intro h; simp at h

theorem ApplicationCallApproval_error_exact (env : Env) (ac : ApplicationCallTxnFields)
    (header : Header) (ad : ApplyData) (steva : StateEvaluator) (params : AppParams)
    (creator : Address) (appIdx : AppIndex) (w4 : World) (err : Error)
    (h : (ApplicationCallApproval env ac header ad steva params creator appIdx w4).1
      = some err) :
    (ApplicationCallApproval env ac header ad steva params creator appIdx w4).2.2.balances
      = w4.balances ∨
    (ac.OnCompletion = OptInOC ∧
      ∃ w5, applyOptIn env header.Sender appIdx params w4 = (none, w5) ∧
        (ApplicationCallApproval env ac header ad steva params creator appIdx
          w4).2.2.balances = w5.balances) ∨
    (isApplyError (some err) = false ∧
      ∃ wE d, ApprovalState env ac header appIdx params w4 wE ∧
        steva.Eval wE.balances params.ApprovalProgram = (true, d, none) ∧
        d.isEmpty = false ∧
        isApplyError (applyEvalDelta env ac d params creator header.Sender appIdx
          (wE.log (Event.evEval params.ApprovalProgram))).1 = false ∧
        (ApplicationCallApproval env ac header ad steva params creator appIdx
          w4).2.2.balances
          = (applyEvalDelta env ac d params creator header.Sender appIdx
              (wE.log (Event.evEval params.ApprovalProgram))).2.balances) := by
  have base : ∀ wE : World, (if ac.OnCompletion = OptInOC then
        applyOptIn env header.Sender appIdx params w4 else (none, w4)) = (none, wE) →
      ∀ b : Balances, b = wE.balances →
        b = w4.balances ∨
        (ac.OnCompletion = OptInOC ∧
          ∃ w5, applyOptIn env header.Sender appIdx params w4 = (none, w5) ∧
            b = w5.balances) := by
    intro wE hO b hb
    by_cases hoc : ac.OnCompletion = OptInOC
    · rw [if_pos hoc] at hO
      exact Or.inr ⟨hoc, wE, hO, hb⟩
    · rw [if_neg hoc] at hO
      simp only [Prod.mk.injEq, true_and] at hO
      rw [← hO] at hb
      exact Or.inl hb
  have lift : ∀ (Q : Prop) (b : Balances),
      (b = w4.balances ∨ (ac.OnCompletion = OptInOC ∧
          ∃ w5, applyOptIn env header.Sender appIdx params w4 = (none, w5) ∧
            b = w5.balances)) →
      b = w4.balances ∨
      (ac.OnCompletion = OptInOC ∧
        ∃ w5, applyOptIn env header.Sender appIdx params w4 = (none, w5) ∧
          b = w5.balances) ∨ Q := by
    intro Q b hb
    rcases hb with hb | hb
    · exact Or.inl hb
    · exact Or.inr (Or.inl hb)
  rcases ApplicationCallApproval_cases env ac header ad steva params creator appIdx w4 with
    ⟨e, w5, hO, hR⟩ | ⟨wE, hO, hrest⟩
  · rw [hR]
    left
    by_cases hoc : ac.OnCompletion = OptInOC
    · rw [if_pos hoc] at hO
      have := (applyOptIn_error env header.Sender appIdx params w4 e (by rw [hO])).1
      rw [hO] at this
      exact this
    · rw [if_neg hoc] at hO
      simp at hO
  · rcases hrest with ⟨e, _, _, hR⟩ | ⟨d, hE, hrest2⟩
    · rw [hR]
      exact lift _ _ (base wE hO _ rfl)
    · rcases hrest2 with ⟨e, w6, hA, hR⟩ | ⟨w6, hA, hrest3⟩
      · rw [hR] at h ⊢
        simp only [Option.some.injEq] at h
        subst h
        cases hp : isApplyError (some e) with
        | true =>
          have hN := applyEvalDelta_applyError_noPut env ac d params creator header.Sender
            appIdx (wE.log (Event.evEval params.ApprovalProgram)) (by rw [hA]; exact hp)
          rw [hA] at hN
          exact lift _ _ (base wE hO _ hN.1)
        | false =>
          cases hd : d.isEmpty with
          | true =>
            have := applyEvalDelta_empty env ac d params creator header.Sender appIdx
              (wE.log (Event.evEval params.ApprovalProgram)) hd
            rw [hA] at this
            simp at this
          | false =>
            refine Or.inr (Or.inr ⟨rfl, wE, d, hO, hE, hd, ?_, ?_⟩)
            · rw [hA]; exact hp
            · rw [hA]
      · rcases hrest3 with ⟨e, w7, hC, hR⟩ | ⟨w7, hC, hR⟩
        · rw [hR] at h ⊢
          simp only [Option.some.injEq] at h
          subst h
          have hCe := ApplicationCallCompletion_error env ac header creator appIdx w6 e
            (by rw [hC])
          rw [hC] at hCe
          cases hd : d.isEmpty with
          | true =>
            have := applyEvalDelta_empty env ac d params creator header.Sender appIdx
              (wE.log (Event.evEval params.ApprovalProgram)) hd
            rw [hA] at this
            simp only [Prod.mk.injEq, true_and] at this
            have hb : w7.balances = wE.balances := by rw [hCe.1, this]; rfl
            exact lift _ _ (base wE hO _ hb)
          | false =>
            refine Or.inr (Or.inr ⟨hCe.2, wE, d, hO, hE, hd, ?_, ?_⟩)
            · rw [hA]; rfl
            · rw [hA]; exact hCe.1
        · rw [hR] at h
          simp at h

theorem applyClearStateProgram_bal (env : Env) (ac : ApplicationCallTxnFields)
    (sender : Address) (appIdx : AppIndex) (ad : ApplyData) (steva : StateEvaluator)
    (params : AppParams) (creator : Address) (w : World) :
    isApplyError (applyClearStateProgram env ac sender appIdx ad steva params creator w).1
      = false ∧
    ((applyClearStateProgram env ac sender appIdx ad steva params creator w).2.2.balances
        = w.balances ∨
      ∃ d, steva.Eval w.balances params.ClearStateProgram = (true, d, none) ∧
        d.isEmpty = false ∧
        isApplyError (applyEvalDelta env ac d params creator sender appIdx
          (w.log (Event.evEval params.ClearStateProgram))).1 = false ∧
        (applyClearStateProgram env ac sender appIdx ad steva params creator w).2.2.balances
          = (applyEvalDelta env ac d params creator sender appIdx
              (w.log (Event.evEval params.ClearStateProgram))).2.balances) := by
  rcases applyClearStateProgram_cases env ac sender appIdx ad steva params creator w with
    ⟨d, w3, hE, hA, hP⟩ | ⟨d, e, w3, hE, hA, hp, hN, hP⟩ | ⟨d, e, w3, hE, hA, hp, hP⟩ |
    ⟨_, hP⟩
  · rw [hP]
    refine ⟨rfl, ?_⟩
    cases hd : d.isEmpty with
    | true =>
      have := applyEvalDelta_empty env ac d params creator sender appIdx
        (w.log (Event.evEval params.ClearStateProgram)) hd
      rw [hA] at this
      simp only [Prod.mk.injEq, true_and] at this
      left
      show w3.balances = w.balances
      rw [this]; rfl
    | false =>
      right
      refine ⟨d, hE, hd, ?_, ?_⟩
      · rw [hA]; rfl
      · rw [hA]
  · rw [hP]
    exact ⟨rfl, Or.inl hN.1⟩
  · rw [hP]
    refine ⟨hp, ?_⟩
    cases hd : d.isEmpty with
    | true =>
      have := applyEvalDelta_empty env ac d params creator sender appIdx
        (w.log (Event.evEval params.ClearStateProgram)) hd
      rw [hA] at this
      simp at this
    | false =>
      right
      refine ⟨d, hE, hd, ?_, ?_⟩
      · rw [hA]; exact hp
      · rw [hA]
  · rw [hP]
    exact ⟨rfl, Or.inl rfl⟩

theorem applyClearState_error_exact (env : Env) (ac : ApplicationCallTxnFields)
    (sender : Address) (appIdx : AppIndex) (ad : ApplyData) (steva : StateEvaluator)
    (w4 : World) (err : Error)
    (h : (applyClearState env ac sender appIdx ad steva w4).1 = some err) :
    (applyClearState env ac sender appIdx ad steva w4).2.2.balances = w4.balances ∨
    (isApplyError (some err) = false ∧
      ∃ pE cE wE d, ClearStateReached env sender appIdx w4 pE cE true wE ∧
        steva.Eval wE.balances pE.ClearStateProgram = (true, d, none) ∧
        d.isEmpty = false ∧
        isApplyError (applyEvalDelta env ac d pE cE sender appIdx
          (wE.log (Event.evEval pE.ClearStateProgram))).1 = false ∧
        (applyClearState env ac sender appIdx ad steva w4).2.2.balances
          = (applyEvalDelta env ac d pE cE sender appIdx
              (wE.log (Event.evEval pE.ClearStateProgram))).2.balances) := by
  rcases applyClearState_cases env ac sender appIdx ad steva w4 with
    ⟨e, wc1, hgp, hR⟩ | ⟨pE, cE, ex, wc1, hgp, hrest⟩
  · have hN := getAppParams_noPut env appIdx w4
    rw [hgp] at hN
    rw [hR]
    exact Or.inl hN.1
  have hN1 := getAppParams_noPut env appIdx w4
  rw [hgp] at hN1
  rcases hrest with ⟨e, wE, hget, hR⟩ | ⟨record, wE, hget, hrest2⟩
  · have hN := Get_noPut env sender wc1
    rw [hget] at hN
    rw [hR]
    exact Or.inl (hN.1.trans hN1.1)
  have hN2 := Get_noPut env sender wc1
  rw [hget] at hN2
  have hbE : wE.balances = w4.balances := hN2.1.trans hN1.1
  rcases hrest2 with ⟨_, hR⟩ | ⟨hsome, hrest3⟩
  · rw [hR]
    exact Or.inl hbE
  rcases hrest3 with ⟨_, hR⟩ | ⟨hex, hrest4⟩
  · rw [hR] at h ⊢
    exact Or.inl (applyClearStateFinish_error env record appIdx w4 wE hbE err h).1
  subst hex
  obtain ⟨hPp, hPb⟩ := applyClearStateProgram_bal env ac sender appIdx ad steva pE cE wE
  have key : ∀ b : Balances,
      b = (applyClearStateProgram env ac sender appIdx ad steva pE cE wE).2.2.balances →
      isApplyError (some err) = false →
      b = w4.balances ∨
      (isApplyError (some err) = false ∧
        ∃ pE cE wE d, ClearStateReached env sender appIdx w4 pE cE true wE ∧
          steva.Eval wE.balances pE.ClearStateProgram = (true, d, none) ∧
          d.isEmpty = false ∧
          isApplyError (applyEvalDelta env ac d pE cE sender appIdx
            (wE.log (Event.evEval pE.ClearStateProgram))).1 = false ∧
          b = (applyEvalDelta env ac d pE cE sender appIdx
              (wE.log (Event.evEval pE.ClearStateProgram))).2.balances) := by
    intro b hb hnp
    rcases hPb with hPb | ⟨d, hE, hd, hpA, hbA⟩
    · exact Or.inl (hb.trans (hPb.trans hbE))
    · exact Or.inr ⟨hnp, pE, cE, wE, d, ⟨wc1, record, hgp, hget, hsome⟩, hE, hd, hpA,
        hb.trans hbA⟩
  rcases hrest4 with ⟨e, hPe, hR⟩ | ⟨hPn, hrest5⟩
  · rw [hR] at h ⊢
    rw [h] at hPp
    exact key _ rfl hPp
  rcases hrest5 with ⟨e, w5, hg2, hR⟩ | ⟨record2, w5, hg2, hR⟩
  · have hN := Get_noPut env sender
      (applyClearStateProgram env ac sender appIdx ad steva pE cE wE).2.2
    have hx := Get_error_external env sender
      (applyClearStateProgram env ac sender appIdx ad steva pE cE wE).2.2 e (by rw [hg2])
    rw [hg2] at hN
    rw [hR] at h ⊢
    simp only [Option.some.injEq] at h
    subst h
    exact key _ hN.1 hx
  · have hN := Get_noPut env sender
      (applyClearStateProgram env ac sender appIdx ad steva pE cE wE).2.2
    rw [hg2] at hN
    rw [hR] at h ⊢
    have hF := applyClearStateFinish_error env record2 appIdx
      (applyClearStateProgram env ac sender appIdx ad steva pE cE wE).2.2 w5 hN.1 err h
    exact key _ hF.1 hF.2

/-! ## C3 -/

/-- C3, as the code has it.  If `ApplicationCall` returns a non-nil error,
the storage view after the call is the one before the call, unless the
failure came after a write had taken effect; then it is the view that the
last such write left: the view after `createApplication`, which returned
without error in a create call; or the view after `applyOptIn`, which
returned nil in an OptIn call; or, with an error of the call that is not a
policy error, the view after `applyEvalDelta` on the non-empty eval delta of
the program that the call evaluated and that passed, where `applyEvalDelta`
did not return a policy error.  Every call is covered: there is no condition
on the application ID, on the action or on `ad`. -/
theorem ApplicationCall_error_storage (env : Env) (ac : ApplicationCallTxnFields)
    (header : Header) (ad : Option ApplyData) (txnCounter : Nat) (steva : StateEvaluator)
    (w : World)
    (h : (ApplicationCall env ac header ad txnCounter steva w).1 ≠ none) :
    (ApplicationCall env ac header ad txnCounter steva w).2.2.balances = w.balances ∨
    CreateWrote env ac header txnCounter w
      (ApplicationCall env ac header ad txnCounter steva w).2.2.balances ∨
    OptInWrote env ac header txnCounter steva w
      (ApplicationCall env ac header ad txnCounter steva w).2.2.balances ∨
    (isApplyError (ApplicationCall env ac header ad txnCounter steva w).1 = false ∧
      DeltaWrote env ac header txnCounter steva w
        (ApplicationCall env ac header ad txnCounter steva w).2.2.balances) := by
  cases ad with
  | none => exact Or.inl rfl
  | some ad0 =>
    obtain ⟨hA1, hA2⟩ := ApplicationCall_some env ac header ad0 txnCounter steva w
    rw [hA1] at h ⊢
    rw [hA2]
    rcases ApplicationCallBody_cases env ac header ad0 txnCounter steva w with
      ⟨e, w1, hres, hB⟩ | ⟨appIdx, w1, hres, hrest⟩
    · rw [hB]
      left
      by_cases hid : ac.ApplicationID = 0
      · rw [if_pos hid] at hres
        exact createApplication_error_bal env ac header.Sender txnCounter w w1 e hres
      · rw [if_neg hid] at hres
        simp at hres
    have hbase : ∀ (Q : Prop) (b : Balances), b = w1.balances →
        b = w.balances ∨ CreateWrote env ac header txnCounter w b ∨ Q := by
      intro Q b hb
      by_cases hid : ac.ApplicationID = 0
      · have hc := hres
        rw [if_pos hid] at hc
        exact Or.inr (Or.inl ⟨hid, appIdx, w1, hc, hb⟩)
      · have hc := hres
        rw [if_neg hid] at hc
        simp only [Prod.mk.injEq] at hc
        rw [← hc.2] at hb
        exact Or.inl hb
    rcases hrest with ⟨e, wX, hB, hN⟩ | ⟨params, creator, w4, hreach, hN, hB⟩
    · rw [hB]
      exact hbase _ _ hN.1
    rw [hB] at h ⊢
    by_cases hoc : ac.OnCompletion = ClearStateOC
    · rw [if_pos hoc] at h ⊢
      cases herr : (applyClearState env ac header.Sender appIdx ad0 steva w4).1 with
      | none => exact absurd herr h
      | some err =>
        rcases applyClearState_error_exact env ac header.Sender appIdx ad0 steva w4 err herr
          with hb | ⟨hnp, pE, cE, wE, d, hcr, hE, hd, hpA, hb⟩
        · exact hbase _ _ (hb.trans hN.1)
        · exact Or.inr (Or.inr (Or.inr ⟨hnp, appIdx, w1, params, creator, w4, hres, hreach,
            Or.inr ⟨hoc, pE, cE, wE, d, hcr, hE, hd, hpA, hb⟩⟩))
    · rw [if_neg hoc] at h ⊢
      cases herr : (ApplicationCallApproval env ac header ad0 steva params creator appIdx
          w4).1 with
      | none => exact absurd herr h
      | some err =>
        rcases ApplicationCallApproval_error_exact env ac header ad0 steva params creator
          appIdx w4 err herr with hb | ⟨hopt, w5, hO, hb⟩ | ⟨hnp, wE, d, hst, hE, hd, hpA, hb⟩
        · exact hbase _ _ (hb.trans hN.1)
        · exact Or.inr (Or.inr (Or.inl ⟨hopt, appIdx, w1, params, creator, w4, w5, hres,
            hreach, hO, hb⟩))
        · exact Or.inr (Or.inr (Or.inr ⟨hnp, appIdx, w1, params, creator, w4, hres, hreach,
            Or.inl ⟨hoc, wE, d, hst, hE, hd, hpA, hb⟩⟩))

/-- C3 at concrete inputs, neither of which has a non-zero application ID and
an action other than OptIn: a create call of account 1, which holds as many
applications as it may, and an opt-in of account 3 in an environment in which
no account may opt in.  Both fail before any write, and the storage view is
the one before the call. -/
theorem ApplicationCall_error_storage_witness :
    ((ApplicationCall envOneApp acCreate ⟨1⟩ (some ⟨0, EvalDelta.zero⟩) 41
        (stevaPass 0 EvalDelta.zero) w5).1 ≠ none ∧
      (ApplicationCall envOneApp acCreate ⟨1⟩ (some ⟨0, EvalDelta.zero⟩) 41
        (stevaPass 0 EvalDelta.zero) w5).2.2.balances = w5.balances) ∧
    ((ApplicationCall envNoOptIn acOptIn5 ⟨3⟩ (some ⟨0, EvalDelta.zero⟩) 4
        (stevaPass 0 globalA) w5).1 ≠ none ∧
      (ApplicationCall envNoOptIn acOptIn5 ⟨3⟩ (some ⟨0, EvalDelta.zero⟩) 4
        (stevaPass 0 globalA) w5).2.2.balances = w5.balances) := by
  refine ⟨⟨by decide, ?_⟩, ⟨by decide, ?_⟩⟩
  · have hc2 : createApplication envOneApp acCreate 1 41 w5
        = (Except.error (Error.errorf "cannot create app: max created apps per acct"),
            w5.log (Event.evGet 1 true)) := rfl
    rcases ApplicationCall_error_storage envOneApp acCreate ⟨1⟩ (some ⟨0, EvalDelta.zero⟩) 41
      (stevaPass 0 EvalDelta.zero) w5 (by decide) with
      h | ⟨_, appIdx, w1, hc, _⟩ | ⟨hoc, _⟩ | ⟨_, appIdx, w1, params, creator, w4, hres, _⟩
    · exact h
    · have hc1 : createApplication envOneApp acCreate 1 41 w5 = (Except.ok appIdx, w1) := hc
      rw [hc2] at hc1
      simp at hc1
    · exact absurd hoc (by decide)
    · have hc1 : createApplication envOneApp acCreate 1 41 w5 = (Except.ok appIdx, w1) := hres
      rw [hc2] at hc1
      simp at hc1
  · have key : ∀ (appIdx : AppIndex) (w1 : World) (params : AppParams) (creator : Address)
        (w4 wE : World),
        (if acOptIn5.ApplicationID = 0 then
            createApplication envNoOptIn acOptIn5 (⟨3⟩ : Header).Sender 4 w5
          else (Except.ok acOptIn5.ApplicationID, w5)) = (Except.ok appIdx, w1) →
        ReachesDispatch envNoOptIn acOptIn5 (stevaPass 0 globalA) appIdx w1 params creator w4 →
        applyOptIn envNoOptIn (⟨3⟩ : Header).Sender appIdx params w4 = (none, wE) →
        False := by
      intro appIdx w1 params creator w4 wE hres hreach hopt
      have hres1 : ((Except.ok 5 : Except Error AppIndex), w5) = (Except.ok appIdx, w1) := hres
      simp only [Prod.mk.injEq, Except.ok.injEq] at hres1
      obtain ⟨h1, h2⟩ := hres1
      subst h1; subst h2
      obtain ⟨ex, w2, hget, _, _, hgate⟩ := hreach
      have hget1 : ((Except.ok (params5, 1, true) :
            Except Error (AppParams × Address × Bool)),
          (w5.log (Event.evGetCreator 5 CreatableType.AppCreatable true)).log
            (Event.evGet 1 true)) = (Except.ok (params, creator, ex), w2) := hget
      simp only [Prod.mk.injEq, Except.ok.injEq] at hget1
      obtain ⟨⟨h3, h4, h5⟩, h6⟩ := hget1
      subst h3; subst h4; subst h5; subst h6
      have hgate1 : ((none : Option Error),
          ((w5.log (Event.evGetCreator 5 CreatableType.AppCreatable true)).log
            (Event.evGet 1 true)).log (Event.evInitLedger 5 params5.StateSchemas))
            = (none, w4) := hgate
      simp only [Prod.mk.injEq, true_and] at hgate1
      subst hgate1
      have hopt1 : (some (Error.errorf "cannot opt in app: max opted-in apps per acct"),
          (((w5.log (Event.evGetCreator 5 CreatableType.AppCreatable true)).log
            (Event.evGet 1 true)).log (Event.evInitLedger 5 params5.StateSchemas)).log
              (Event.evGet 3 true)) = ((none : Option Error), wE) := hopt
      simp at hopt1
    rcases ApplicationCall_error_storage envNoOptIn acOptIn5 ⟨3⟩ (some ⟨0, EvalDelta.zero⟩) 4
      (stevaPass 0 globalA) w5 (by decide) with
      h | ⟨hid, _⟩ | ⟨_, appIdx, w1, params, creator, w4, wE, hres, hreach, hopt, _⟩ |
      ⟨_, appIdx, w1, params, creator, w4, hres, hreach, hd⟩
    · exact h
    · exact absurd hid (by decide)
    · exact absurd (key appIdx w1 params creator w4 wE hres hreach hopt) id
    · rcases hd with ⟨_, wE, d, hst, _⟩ | ⟨hoc, _⟩
      · exact absurd (key appIdx w1 params creator w4 wE hres hreach hst) id
      · exact absurd hoc (by decide)
/-- C3 fails as stated: a create call that fails at the cost gate leaves the
new application in the record of the creator, an opt-in whose approval
program rejects leaves the allocated local state in the record of the
sender, and a close-out that fails because the sender is not opted in leaves
the committed global delta in the record of the creator. -/
theorem ApplicationCall_error_storage_counterexample :
    ((ApplicationCall env0 acCreate ⟨7⟩ (some ⟨0, EvalDelta.zero⟩) 4
        (stevaPass 701 EvalDelta.zero) w0).1 ≠ none ∧
      (ApplicationCall env0 acCreate ⟨7⟩ (some ⟨0, EvalDelta.zero⟩) 4
        (stevaPass 701 EvalDelta.zero) w0).2.2.balances.accts 7 ≠ w0.balances.accts 7) ∧
    ((ApplicationCall env0 acOptIn5 ⟨3⟩ (some ⟨0, EvalDelta.zero⟩) 4 stevaReject w5).1
        ≠ none ∧
      (ApplicationCall env0 acOptIn5 ⟨3⟩ (some ⟨0, EvalDelta.zero⟩) 4
        stevaReject w5).2.2.balances.accts 3 ≠ w5.balances.accts 3) ∧
    ((ApplicationCall env0 acCloseOut5 ⟨3⟩ (some ⟨0, EvalDelta.zero⟩) 4
        (stevaPass 0 globalA) w5).1 ≠ none ∧
      (ApplicationCall env0 acCloseOut5 ⟨3⟩ (some ⟨0, EvalDelta.zero⟩) 4
        (stevaPass 0 globalA) w5).2.2.balances.accts 1 ≠ w5.balances.accts 1) := by
  decide

/-! ## C5 -/

/-- C5, as the code has it.  For every call of `ApplicationCall` that returns
nil, the call resolved its target, reached the dispatch on the action, and:
for an action other than ClearState, `ad.EvalDelta` on return is the eval
delta `d` with which the approval program passed in the state of its
evaluation, `applyEvalDelta` returned nil on `d` in this call, and the other
fields of `ad` are as at entry; for ClearState, either the application
exists, its clear-state program passed with `d`, `applyEvalDelta` returned
nil on `d` in this call and `ad.EvalDelta` on return is `d`, or nothing was
committed (the application does not exist, or the program failed or was
rejected, or `applyEvalDelta` returned a policy error, and the program step
issued no write) and `ad` on return is what it was at entry, so that
`ad.EvalDelta` is the value it held at entry. -/
theorem ApplicationCall_success_evalDelta (env : Env) (ac : ApplicationCallTxnFields)
    (header : Header) (ad0 : ApplyData) (txnCounter : Nat) (steva : StateEvaluator) (w : World)
    (h : (ApplicationCall env ac header (some ad0) txnCounter steva w).1 = none) :
    ∃ (appIdx : AppIndex) (w1 : World) (params : AppParams) (creator : Address) (w4 : World),
      (if ac.ApplicationID = 0 then createApplication env ac header.Sender txnCounter w
       else (Except.ok ac.ApplicationID, w)) = (Except.ok appIdx, w1) ∧
      ReachesDispatch env ac steva appIdx w1 params creator w4 ∧
      (ac.OnCompletion ≠ ClearStateOC →
        ∃ (wE : World) (d : EvalDelta) (w6 : World),
          ApprovalState env ac header appIdx params w4 wE ∧
          steva.Eval wE.balances params.ApprovalProgram = (true, d, none) ∧
          applyEvalDelta env ac d params creator header.Sender appIdx
            (wE.log (Event.evEval params.ApprovalProgram)) = (none, w6) ∧
          ApplicationCallCompletion env ac header creator appIdx w6
            = (none, (ApplicationCall env ac header (some ad0) txnCounter steva w).2.2) ∧
          (ApplicationCall env ac header (some ad0) txnCounter steva w).2.1
            = some { ad0 with EvalDelta := d }) ∧
      (ac.OnCompletion = ClearStateOC →
        ∃ (pE : AppParams) (cE : Address) (ex : Bool) (wE : World),
          ClearStateReached env header.Sender appIdx w4 pE cE ex wE ∧
          ((ex = true ∧
              ∃ (d : EvalDelta) (w3 : World),
                steva.Eval wE.balances pE.ClearStateProgram = (true, d, none) ∧
                applyEvalDelta env ac d pE cE header.Sender appIdx
                  (wE.log (Event.evEval pE.ClearStateProgram)) = (none, w3) ∧
                (ApplicationCall env ac header (some ad0) txnCounter steva w).2.1
                  = some { ad0 with EvalDelta := d }) ∨
            ((ApplicationCall env ac header (some ad0) txnCounter steva w).2.1 = some ad0 ∧
              (ex = false ∨
                (ex = true ∧
                  NoPut wE
                    (applyClearStateProgram env ac header.Sender appIdx ad0 steva pE cE
                      wE).2.2 ∧
                  ((steva.Eval wE.balances pE.ClearStateProgram).1 = false ∨
                    (steva.Eval wE.balances pE.ClearStateProgram).2.2 ≠ none ∨
                    isApplyError (applyEvalDelta env ac
                      (steva.Eval wE.balances pE.ClearStateProgram).2.1 pE cE header.Sender
                      appIdx (wE.log (Event.evEval pE.ClearStateProgram))).1 = true)))))) := by
  have hB : ∃ adb wB, ApplicationCallBody env ac header ad0 txnCounter steva w
        = (none, adb, wB) ∧
      ApplicationCall env ac header (some ad0) txnCounter steva w = (none, some adb, wB) := by
    revert h
    unfold ApplicationCall
    simp only
    split
    · intro h; simp at h
    · rename_i adb wB heq
      intro _
      exact ⟨adb, wB, heq, rfl⟩
  obtain ⟨adb, wB, hB, hAC⟩ := hB
  rw [hAC]
  rcases ApplicationCallBody_cases env ac header ad0 txnCounter steva w with
    ⟨e, w1, _, hB2⟩ | ⟨appIdx, w1, hres, hrest⟩
  · rw [hB2] at hB; simp at hB
  rcases hrest with ⟨e, wX, hB2, _⟩ | ⟨params, creator, w4, hreach, _, hB2⟩
  · rw [hB2] at hB; simp at hB
  rw [hB2] at hB
  refine ⟨appIdx, w1, params, creator, w4, hres, hreach, ?_, ?_⟩
  · intro hoc
    rw [if_neg hoc] at hB
    rcases ApplicationCallApproval_cases env ac header ad0 steva params creator appIdx w4 with
      ⟨e, w5, _, hR⟩ | ⟨wE, hO, hrest2⟩
    · rw [hR] at hB; simp at hB
    rcases hrest2 with ⟨e, _, _, hR⟩ | ⟨d, hE, hrest3⟩
    · rw [hR] at hB; simp at hB
    rcases hrest3 with ⟨e, w6, _, hR⟩ | ⟨w6, hA, hrest4⟩
    · rw [hR] at hB; simp at hB
    rcases hrest4 with ⟨e, w7, _, hR⟩ | ⟨w7, hC, hR⟩
    · rw [hR] at hB; simp at hB
    rw [hR] at hB
    simp only [Prod.mk.injEq, true_and] at hB
    obtain ⟨h1, h2⟩ := hB
    subst h1; subst h2
    exact ⟨wE, d, w6, hO, hE, hA, hC, rfl⟩
  · intro hoc
    rw [if_pos hoc] at hB
    rcases applyClearState_cases env ac header.Sender appIdx ad0 steva w4 with
      ⟨e, wc1, _, hR⟩ | ⟨pE, cE, ex, wc1, hgp, hrest2⟩
    · rw [hR] at hB; simp at hB
    rcases hrest2 with ⟨e, wE, _, hR⟩ | ⟨record, wE, hget, hrest3⟩
    · rw [hR] at hB; simp at hB
    rcases hrest3 with ⟨_, hR⟩ | ⟨hsome, hrest4⟩
    · rw [hR] at hB; simp at hB
    refine ⟨pE, cE, ex, wE, ⟨wc1, record, hgp, hget, hsome⟩, ?_⟩
    rcases hrest4 with ⟨hex, hR⟩ | ⟨hex, hrest5⟩
    · rw [hR] at hB
      simp only [Prod.mk.injEq] at hB
      right
      rw [← hB.2.1]
      exact ⟨rfl, Or.inl hex⟩
    rcases hrest5 with ⟨e, hPe, hR⟩ | ⟨hPn, hrest6⟩
    · rw [hR] at hB
      rw [hB] at hPe
      simp at hPe
    have hadb : adb
        = (applyClearStateProgram env ac header.Sender appIdx ad0 steva pE cE wE).2.1 := by
      rcases hrest6 with ⟨e, w5, _, hR⟩ | ⟨record2, w5, _, hR⟩
      · rw [hR] at hB; simp at hB
      · rw [hR] at hB
        simp only [Prod.mk.injEq] at hB
        exact hB.2.1.symm
    rw [hadb]
    rcases applyClearStateProgram_cases env ac header.Sender appIdx ad0 steva pE cE wE with
      ⟨d, w3, hE, hA, hP⟩ | ⟨d, e, w3, hE, hA, hp, hN, hP⟩ | ⟨d, e, w3, _, _, _, hP⟩ |
      ⟨hnot, hP⟩
    · left
      refine ⟨hex, d, w3, hE, hA, ?_⟩
      rw [hP]
    · right
      rw [hP]
      refine ⟨rfl, Or.inr ⟨hex, hN, Or.inr (Or.inr ?_)⟩⟩
      rw [hE]
      simp only
      rw [hA]
      exact hp
    · rw [hP] at hPn
      simp at hPn
    · right
      rw [hP]
      refine ⟨rfl, Or.inr ⟨hex, ⟨rfl, rfl⟩, ?_⟩⟩
      rcases hnot with h1 | h1
      · exact Or.inl h1
      · exact Or.inr (Or.inl h1)

/-- C5 at a concrete input: a clear-state call of application 5 by account
7 whose program passes with a global delta. -/
theorem ApplicationCall_success_evalDelta_witness :
    (ApplicationCall env0 acClear5 ⟨7⟩ (some ⟨0, EvalDelta.zero⟩) 4
        (stevaPass 0 globalA) w5).1 = none ∧
    (ApplicationCall env0 acClear5 ⟨7⟩ (some ⟨0, EvalDelta.zero⟩) 4
        (stevaPass 0 globalA) w5).2.1 = some ⟨0, globalA⟩ ∧
    ∃ (appIdx : AppIndex) (w1 : World) (params : AppParams) (creator : Address) (w4 : World),
      (if acClear5.ApplicationID = 0 then createApplication env0 acClear5 7 4 w5
       else (Except.ok acClear5.ApplicationID, w5)) = (Except.ok appIdx, w1) ∧
      ReachesDispatch env0 acClear5 (stevaPass 0 globalA) appIdx w1 params creator w4 ∧
      (acClear5.OnCompletion ≠ ClearStateOC →
        ∃ (wE : World) (d : EvalDelta) (w6 : World),
          ApprovalState env0 acClear5 ⟨7⟩ appIdx params w4 wE ∧
          (stevaPass 0 globalA).Eval wE.balances params.ApprovalProgram = (true, d, none) ∧
          applyEvalDelta env0 acClear5 d params creator 7 appIdx
            (wE.log (Event.evEval params.ApprovalProgram)) = (none, w6) ∧
          ApplicationCallCompletion env0 acClear5 ⟨7⟩ creator appIdx w6
            = (none, (ApplicationCall env0 acClear5 ⟨7⟩ (some ⟨0, EvalDelta.zero⟩) 4
                (stevaPass 0 globalA) w5).2.2) ∧
          (ApplicationCall env0 acClear5 ⟨7⟩ (some ⟨0, EvalDelta.zero⟩) 4
            (stevaPass 0 globalA) w5).2.1 = some ⟨0, d⟩) ∧
      (acClear5.OnCompletion = ClearStateOC →
        ∃ (pE : AppParams) (cE : Address) (ex : Bool) (wE : World),
          ClearStateReached env0 7 appIdx w4 pE cE ex wE ∧
          ((ex = true ∧
              ∃ (d : EvalDelta) (w3 : World),
                (stevaPass 0 globalA).Eval wE.balances pE.ClearStateProgram
                  = (true, d, none) ∧
                applyEvalDelta env0 acClear5 d pE cE 7 appIdx
                  (wE.log (Event.evEval pE.ClearStateProgram)) = (none, w3) ∧
                (ApplicationCall env0 acClear5 ⟨7⟩ (some ⟨0, EvalDelta.zero⟩) 4
                  (stevaPass 0 globalA) w5).2.1 = some ⟨0, d⟩) ∨
            ((ApplicationCall env0 acClear5 ⟨7⟩ (some ⟨0, EvalDelta.zero⟩) 4
                (stevaPass 0 globalA) w5).2.1 = some ⟨0, EvalDelta.zero⟩ ∧
              (ex = false ∨
                (ex = true ∧
                  NoPut wE
                    (applyClearStateProgram env0 acClear5 7 appIdx ⟨0, EvalDelta.zero⟩
                      (stevaPass 0 globalA) pE cE wE).2.2 ∧
                  (((stevaPass 0 globalA).Eval wE.balances pE.ClearStateProgram).1 = false ∨
                    ((stevaPass 0 globalA).Eval wE.balances pE.ClearStateProgram).2.2
                      ≠ none ∨
                    isApplyError (applyEvalDelta env0 acClear5
                      ((stevaPass 0 globalA).Eval wE.balances pE.ClearStateProgram).2.1 pE cE
                      7 appIdx (wE.log (Event.evEval pE.ClearStateProgram))).1
                        = true)))))) :=
  ⟨by decide, by decide,
    ApplicationCall_success_evalDelta env0 acClear5 ⟨7⟩ ⟨0, EvalDelta.zero⟩ 4
      (stevaPass 0 globalA) w5 (by decide)⟩

/-- C5 fails as stated: a clear-state call whose program is rejected returns
nil and commits nothing, and `ad.EvalDelta` on return is the non-empty delta
it held at entry, not the empty `EvalDelta`. -/
theorem ApplicationCall_success_evalDelta_counterexample :
    (ApplicationCall env0 acClear5 ⟨7⟩ (some ⟨0, globalA⟩) 4 stevaReject w5).1 = none ∧
    (ApplicationCall env0 acClear5 ⟨7⟩ (some ⟨0, globalA⟩) 4 stevaReject w5).2.1
      = some ⟨0, globalA⟩ ∧
    globalA ≠ EvalDelta.zero ∧
    putEvents (ApplicationCall env0 acClear5 ⟨7⟩ (some ⟨0, globalA⟩) 4 stevaReject w5).2.2.trace
      = [Event.evPut ⟨7, ⟨0, GoMap.empty, GoMap.empty, ⟨0, 0⟩⟩⟩ true] := by
  decide

end Apply
